import Mathlib

/-!
Kernel-shark session library (libkshark.c), the recorder (trace-record.c) and the
reader (trace-read.c)

Shallow embedding of the session, data-loading and filtering code of
`tracecmd/kernel-shark-qt/src/libkshark.c` (namespace `KShark`), of the capture loop
and the string builders of `trace-record.c` (namespace `TraceRecord`), and of the wakeup
table, the record reader and the CPU list of `trace-read.c` (namespace `TraceRead`).

Conventions of the embedding.
* A C array of singly linked lists (`struct rec_list **`) is a `List (List _)`,
  indexed by CPU; `NULL` is the empty list; `n_cpus` is the length of the outer list.
* `uint64_t` time stamps and offsets are natural numbers; they are only compared and
  copied, never added.
* `int` values (pids, event ids, CPU numbers returned by `pick_next_cpu`) are integers.
* `x & ~y` on non-negative operands is `and_not x y`, the bits of `x` not in `y`.
* A pointer field that may be `NULL` is an `Option`; a function that dereferences such
  a field returns `none` when the field is `NULL`.
* Memory allocation of a size that is not 0 is taken to succeed; the failure of
  `get_records` is described apart, by `get_records_enomem`. A `realloc` to size 0
  releases the block and returns `NULL`, as in the GNU C library the file selects.
* The constants of `enum kshark_filter_masks` are parameters (`kshark_filter_masks`);
  concrete evaluations use graph-view = 2 and event-view = 4.
* A C string is the list of its characters without the terminating NUL; a block of
  memory written through an index is a list, and a store outside it gives `none`.
* Arithmetic of `unsigned`, `unsigned long` and `unsigned long long` is written with an
  explicit `% 2 ^ 32` or `% 2 ^ 64`.
-/

namespace KShark

/-! ## Data model -/

/-- Return values of `pevent_filter_match` (event-parse.h). -/
inductive filter_ret
  | FILTER_NONE
  | FILTER_NOEXIST
  | FILTER_MISS
  | FILTER_MATCH
  deriving DecidableEq, Repr

/-- Raw record `struct pevent_record`, with the two common fields of its payload
that the library decodes (`common_type`, `common_pid`). -/
structure pevent_record where
  offset : Nat
  ts : Nat
  cpu : Int
  common_type : Int
  common_pid : Int
  deriving DecidableEq, Repr

/-- Entry `struct kshark_entry` (the `next` link is the list structure). The struct is
declared in libkshark.h, which is not among the sources: `visible` is the 1-byte mask,
and the values copied into `cpu`, `pid` and `event_id` are taken to fit their fields. -/
structure kshark_entry where
  visible : Nat
  cpu : Int
  pid : Int
  event_id : Int
  offset : Nat
  ts : Nat
  deriving DecidableEq, Repr

/-- The two kinds of `rec_list` node, `enum rec_type`. -/
inductive rec_type
  | REC_RECORD
  | REC_ENTRY
  deriving DecidableEq, Repr

/-- Payload of a `struct rec_list` node: the union holds a raw record for
`REC_RECORD` and an entry for `REC_ENTRY`. -/
def rec_node : rec_type → Type
  | .REC_RECORD => pevent_record
  | .REC_ENTRY => kshark_entry

instance instDecidableEqRecNode (type : rec_type) : DecidableEq (rec_node type) := by
  cases type
  · exact (inferInstance : DecidableEq pevent_record)
  · exact (inferInstance : DecidableEq kshark_entry)

/-- The `switch (type)` of `pick_next_cpu`: `rec->ts` or `entry.ts`. -/
def rec_ts : (type : rec_type) → rec_node type → Nat
  | .REC_RECORD, r => pevent_record.ts r
  | .REC_ENTRY, e => kshark_entry.ts e

/-- Modelled from the spec: `struct tracecmd_filter_id` (trace-filter-hash.c is not
among the sources) is an id-set filter, a set of integer ids. -/
structure tracecmd_filter_id where
  ids : List Int
  deriving DecidableEq, Repr

/-- Modelled from the spec: the field `count` of an id-set filter is the number of ids
it holds. -/
def tracecmd_filter_id.count (filter : tracecmd_filter_id) : Nat :=
  filter.ids.length

/-- Modelled from the spec: `tracecmd_filter_id_find` returns a non-NULL item exactly
when the id is in the set; the value here is that test. -/
def tracecmd_filter_id_find (filter : tracecmd_filter_id) (id : Int) : Bool :=
  filter.ids.contains id

/-- Advanced (predicate) filter `struct event_filter`: the number of installed
per-event filters and the verdict `pevent_filter_match` gives for a record. -/
structure event_filter where
  filters : Nat
  pevent_filter_match : pevent_record → filter_ret

/-- Event schema registry `struct pevent`, opaque to this file. -/
structure pevent where
  nr_events : Nat
  deriving DecidableEq, Repr

/-- Open trace file `struct tracecmd_input`: its registry and the record stream of each
CPU, in the order `tracecmd_read_cpu_first` and `tracecmd_read_data` deliver it. -/
structure tracecmd_input where
  pevent : pevent
  cpus : List (List pevent_record)
  deriving DecidableEq, Repr

/-- Number of buckets of the task table (the key is a `uint8_t`). -/
def KS_TASK_HASH_SIZE : Nat := 256

/-- The constants of `enum kshark_filter_masks` used by the source; their values are
declared in libkshark.h, which is not among the sources, so they are parameters. -/
structure kshark_filter_masks where
  KS_GRAPH_VIEW_FILTER_MASK : Nat
  KS_EVENT_VIEW_FILTER_MASK : Nat
  deriving DecidableEq, Repr

/-- Session `struct kshark_context`. The task table `tasks` maps a bucket number to the
pids chained in that bucket, head first. -/
structure kshark_context where
  handle : Option tracecmd_input
  pevent : Option pevent
  tasks : Nat → List Int
  show_task_filter : Option tracecmd_filter_id
  hide_task_filter : Option tracecmd_filter_id
  show_event_filter : Option tracecmd_filter_id
  hide_event_filter : Option tracecmd_filter_id
  filter_mask : Nat
  advanced_event_filter : Option event_filter

/-- The C expression `x & ~y` for a non-negative `x`: the bits of `x` that are not
bits of `y`. -/
def and_not (x y : Nat) : Nat :=
  x ^^^ (x &&& y)

/-! ## Task table -/

/-- Function `knuth_hash8`: the product with 157, truncated to `uint8_t`. -/
def knuth_hash8 (val : Nat) : Nat :=
  (val * 157) % 256

/-- Conversion of an `int` argument to the `uint32_t` parameter of `knuth_hash8`. -/
def to_uint32 (pid : Int) : Nat :=
  (pid % 2 ^ 32).toNat

/-- Function `kshark_find_task`: first node of bucket `key` with the given pid. -/
def kshark_find_task (kshark_ctx : kshark_context) (key : Nat) (pid : Int) : Option Int :=
  (kshark_ctx.tasks key).find? (fun p => p == pid)

/-- Function `kshark_add_task`: the node returned and the session after the call. A
node is named by the pid it holds. Nothing changes when the pid is found; otherwise a
new node is pushed at the head of its bucket (`malloc` is taken to succeed, so the
result is never `NULL`). -/
def kshark_add_task (kshark_ctx : kshark_context) (pid : Int) :
    Option Int × kshark_context :=
  let key := knuth_hash8 (to_uint32 pid)
  match kshark_find_task kshark_ctx key pid with
  | some list => (some list, kshark_ctx)
  | none =>
    (some pid,
      { kshark_ctx with
        tasks := fun i =>
          if i = key then pid :: kshark_ctx.tasks key else kshark_ctx.tasks i })

/-! ## Id filters -/

/-- Function `filter_find`. -/
def filter_find (filter : Option tracecmd_filter_id) (pid : Int) (test : Bool) : Bool :=
  match filter with
  | none => true
  | some f => f.count == 0 || (tracecmd_filter_id_find f pid == test)

/-- Function `kshark_show_task`. -/
def kshark_show_task (kshark_ctx : kshark_context) (pid : Int) : Bool :=
  filter_find kshark_ctx.show_task_filter pid true &&
    filter_find kshark_ctx.hide_task_filter pid false

/-- Function `kshark_show_event`. -/
def kshark_show_event (kshark_ctx : kshark_context) (pid : Int) : Bool :=
  filter_find kshark_ctx.show_event_filter pid true &&
    filter_find kshark_ctx.hide_event_filter pid false

/-- Function `filter_is_set`. -/
def filter_is_set (filter : Option tracecmd_filter_id) : Bool :=
  match filter with
  | none => false
  | some f => f.count != 0

/-- Function `kshark_filter_is_set`. -/
def kshark_filter_is_set (kshark_ctx : kshark_context) : Bool :=
  filter_is_set kshark_ctx.show_task_filter ||
    filter_is_set kshark_ctx.hide_task_filter ||
    filter_is_set kshark_ctx.show_event_filter ||
    filter_is_set kshark_ctx.hide_event_filter

/-- Function `unset_event_filter_flag`. -/
def unset_event_filter_flag (M : kshark_filter_masks) (kshark_ctx : kshark_context)
    (e : kshark_entry) : kshark_entry :=
  let event_mask := kshark_ctx.filter_mask
  let event_mask := and_not event_mask M.KS_GRAPH_VIEW_FILTER_MASK
  let event_mask := event_mask ||| M.KS_EVENT_VIEW_FILTER_MASK
  { e with visible := and_not e.visible event_mask }

/-- One iteration of the loop of `kshark_filter_entries` on `data[i]`. -/
def kshark_filter_entry (M : kshark_filter_masks) (kshark_ctx : kshark_context)
    (e : kshark_entry) : kshark_entry :=
  let e := { e with visible := 0xFF }
  let e := if !kshark_show_event kshark_ctx e.event_id then
      unset_event_filter_flag M kshark_ctx e else e
  if !kshark_show_task kshark_ctx e.pid then
    { e with visible := and_not e.visible kshark_ctx.filter_mask }
  else e

/-- Function `kshark_filter_entries`; the result is the array after the call. -/
def kshark_filter_entries (M : kshark_filter_masks) (kshark_ctx : kshark_context)
    (data : List kshark_entry) : Option (List kshark_entry) :=
  match kshark_ctx.advanced_event_filter with
  | none => none
  | some adv =>
    if adv.filters ≠ 0 then some data
    else if !kshark_filter_is_set kshark_ctx then some data
    else some (data.map (kshark_filter_entry M kshark_ctx))

/-! ## Reading the records of the file -/

/-- Modelled from the spec: `pevent_data_type` reads `common_type`. -/
def pevent_data_type (record : pevent_record) : Int :=
  record.common_type

/-- Modelled from the spec: `pevent_data_pid` reads `common_pid`. -/
def pevent_data_pid (record : pevent_record) : Int :=
  record.common_pid

/-- Function `kshark_set_entry_values`. -/
def kshark_set_entry_values (record : pevent_record) : kshark_entry :=
  { offset := record.offset
    cpu := record.cpu
    ts := record.ts
    event_id := pevent_data_type record
    visible := 0xFF
    pid := pevent_data_pid record }

/-- The `REC_ENTRY` case of `get_records` for one record, with the advanced filter
`adv_filter` already dereferenced. -/
def get_records_entry (M : kshark_filter_masks) (kshark_ctx : kshark_context)
    (adv_filter : event_filter) (rec : pevent_record) : kshark_entry :=
  let entry := kshark_set_entry_values rec
  let ret := if adv_filter.filters ≠ 0 then adv_filter.pevent_filter_match rec
    else filter_ret.FILTER_NONE
  let entry := if !kshark_show_event kshark_ctx entry.event_id || ret != .FILTER_MATCH then
      unset_event_filter_flag M kshark_ctx entry else entry
  if !kshark_show_task kshark_ctx entry.pid then
    { entry with visible := and_not entry.visible kshark_ctx.filter_mask }
  else entry

/-- The `switch (type)` of `get_records`: the node built for one record, and `pid`. -/
def get_records_node (M : kshark_filter_masks) (kshark_ctx : kshark_context) :
    (type : rec_type) → pevent_record → Option (rec_node type × Int)
  | .REC_RECORD, rec => some (rec, pevent_data_pid rec)
  | .REC_ENTRY, rec =>
    match kshark_ctx.advanced_event_filter with
    | none => none
    | some adv_filter =>
      let entry := get_records_entry M kshark_ctx adv_filter rec
      some (entry, entry.pid)

/-- The `while (rec)` loop of `get_records` over the records of one CPU: builds the
list of that CPU and adds each pid to the task table. -/
def get_records_cpu (M : kshark_filter_masks) (type : rec_type) :
    kshark_context → List pevent_record → Option (kshark_context × List (rec_node type))
  | kshark_ctx, [] => some (kshark_ctx, [])
  | kshark_ctx, rec :: rest =>
    match get_records_node M kshark_ctx type rec with
    | none => none
    | some (node, pid) =>
      match get_records_cpu M type (kshark_add_task kshark_ctx pid).2 rest with
      | none => none
      | some (ctx1, nodes) => some (ctx1, node :: nodes)

/-- The `for (cpu = 0; cpu < n_cpus; ++cpu)` loop of `get_records`: the session, the
total count and the array of per-CPU lists. -/
def get_records_cpus (M : kshark_filter_masks) (type : rec_type) :
    kshark_context → List (List pevent_record) →
      Option (kshark_context × Nat × List (List (rec_node type)))
  | kshark_ctx, [] => some (kshark_ctx, 0, [])
  | kshark_ctx, stream :: rest =>
    match get_records_cpu M type kshark_ctx stream with
    | none => none
    | some (ctx1, nodes) =>
      match get_records_cpus M type ctx1 rest with
      | none => none
      | some (ctx2, total, lists) => some (ctx2, nodes.length + total, nodes :: lists)

/-- Function `get_records`. -/
def get_records (M : kshark_filter_masks) (kshark_ctx : kshark_context)
    (type : rec_type) : Option (kshark_context × Nat × List (List (rec_node type))) :=
  match kshark_ctx.handle with
  | none => none
  | some handle => get_records_cpus M type kshark_ctx handle.cpus

/-! ## Merge of the per-CPU lists -/

/-- Body of the `for (cpu = 0; cpu < n_cpus; ++cpu)` loop of `pick_next_cpu`, from
CPU `cpu` on, with the current values of the locals `ts` and `next_cpu`. -/
def pick_next_cpu_from (type : rec_type) :
    List (List (rec_node type)) → Nat → Nat → Int → Int
  | [], _, _, next_cpu => next_cpu
  | [] :: rest, cpu, ts, next_cpu => pick_next_cpu_from type rest (cpu + 1) ts next_cpu
  | (r :: _) :: rest, cpu, ts, next_cpu =>
    if ts = 0 ∨ rec_ts type r < ts then
      pick_next_cpu_from type rest (cpu + 1) (rec_ts type r) (cpu : Int)
    else
      pick_next_cpu_from type rest (cpu + 1) ts next_cpu

/-- Function `pick_next_cpu`: `ts = 0`, `next_cpu = -1`, then the loop over all CPUs. -/
def pick_next_cpu (type : rec_type) (rec_list : List (List (rec_node type))) : Int :=
  pick_next_cpu_from type rec_list 0 0 (-1)

/-- The merge loop shared by `kshark_load_data_entries` and `kshark_load_data_records`:
`total` iterations; each picks a CPU and, when the pick is not negative, stores the
head of that CPU's list in `rows[count]` and advances the list. A row that is not
written keeps the `NULL` of `calloc` (`none`). Returns the rows and the lists left. -/
def merge_loop (type : rec_type) :
    Nat → List (List (rec_node type)) →
      List (Option (rec_node type)) × List (List (rec_node type))
  | 0, rec_list => ([], rec_list)
  | total + 1, rec_list =>
    let next_cpu := pick_next_cpu type rec_list
    if 0 ≤ next_cpu then
      match rec_list.getD next_cpu.toNat [] with
      | [] =>
        -- dereference of an empty list; never reached, see pick_next_cpu_nonempty
        let out := merge_loop type total rec_list
        (none :: out.1, out.2)
      | r :: next =>
        let out := merge_loop type total (rec_list.set next_cpu.toNat next)
        (some r :: out.1, out.2)
    else
      let out := merge_loop type total rec_list
      (none :: out.1, out.2)

/-- Function `kshark_load_data_entries`: the session after the load, the returned
size and the array `*data_rows`. -/
def kshark_load_data_entries (M : kshark_filter_masks) (kshark_ctx : kshark_context) :
    Option (kshark_context × Nat × List (Option kshark_entry)) :=
  match get_records M kshark_ctx .REC_ENTRY with
  | none => none
  | some (ctx1, total, rec_list) =>
    some (ctx1, total, (merge_loop .REC_ENTRY total rec_list).1)

/-- Function `kshark_load_data_records`: the session after the load, the returned
size and the array `*data_rows`. -/
def kshark_load_data_records (M : kshark_filter_masks) (kshark_ctx : kshark_context) :
    Option (kshark_context × Nat × List (Option pevent_record)) :=
  match get_records M kshark_ctx .REC_RECORD with
  | none => none
  | some (ctx1, total, rec_list) =>
    some (ctx1, total, (merge_loop .REC_RECORD total rec_list).1)

/-! ## Definitions used to state the properties -/

/-- Number of records held by an array of per-CPU lists. -/
def total_records {α : Type} (lists : List (List α)) : Nat :=
  (lists.map List.length).sum

/-- The node `get_records` builds for one record when the advanced filter of the
session is `adv_filter`: the record itself (`REC_RECORD`) or its entry (`REC_ENTRY`). -/
def get_records_value (M : kshark_filter_masks) (kshark_ctx : kshark_context)
    (adv_filter : event_filter) : (type : rec_type) → pevent_record → rec_node type
  | .REC_RECORD, rec => rec
  | .REC_ENTRY, rec => get_records_entry M kshark_ctx adv_filter rec

/-! ## Concrete sessions used to evaluate the code -/

/-- Mask constants with graph-view = `1 << 1` and event-view = `1 << 2`, two distinct
bits of the visibility byte. -/
def ks_masks : kshark_filter_masks :=
  { KS_GRAPH_VIEW_FILTER_MASK := 2, KS_EVENT_VIEW_FILTER_MASK := 4 }

/-- An advanced filter with no per-event filter installed. -/
def adv_filter_unset : event_filter :=
  { filters := 0, pevent_filter_match := fun _ => filter_ret.FILTER_NONE }

/-- A record of CPU `cpu` at time `ts`, with event id `event_id` and pid `pid`; its
file offset is set to the time stamp. -/
def mk_record (cpu : Int) (ts : Nat) (event_id pid : Int) : pevent_record :=
  { offset := ts, ts := ts, cpu := cpu, common_type := event_id, common_pid := pid }

/-- A session as `kshark_default_context` and `kshark_open` leave it: four empty
id filters, `filter_mask` 0, no advanced filter installed, an empty task table, and an
open file with the given per-CPU streams. -/
def open_session (cpus : List (List pevent_record)) : kshark_context :=
  { handle := some { pevent := { nr_events := 0 }, cpus := cpus }
    pevent := some { nr_events := 0 }
    tasks := fun _ => []
    show_task_filter := some { ids := [] }
    hide_task_filter := some { ids := [] }
    show_event_filter := some { ids := [] }
    hide_event_filter := some { ids := [] }
    filter_mask := 0
    advanced_event_filter := some adv_filter_unset }

/-- Time stamp and CPU of each row of a loaded array of entries. -/
def rows_ts_cpu (rows : List (Option kshark_entry)) : List (Option (Nat × Int)) :=
  rows.map (Option.map (fun e => (e.ts, e.cpu)))

/-- Time stamp and CPU of each row of a loaded array of records. -/
def records_ts_cpu (rows : List (Option pevent_record)) : List (Option (Nat × Int)) :=
  rows.map (Option.map (fun r => (r.ts, r.cpu)))

/-- The streams of scenario 2: CPU 0 holds records at times 10, 30, 50 and CPU 1 at
times 20, 40. -/
def interleaved_cpus : List (List pevent_record) :=
  [[mk_record 0 10 1 1, mk_record 0 30 1 1, mk_record 0 50 1 1],
    [mk_record 1 20 1 1, mk_record 1 40 1 1]]

/-- The ids held by an id-set filter; an absent filter holds none. -/
def id_set (filter : Option tracecmd_filter_id) : List Int :=
  match filter with
  | none => []
  | some f => f.ids

/-- Modelled from the spec: the session after calls of `kshark_filter_clear` and
`kshark_filter_add_id` that leave the four id-set filters with the given ids
(`tracecmd_filter_id_clear` and `tracecmd_filter_id_add` are not among the sources). -/
def set_id_filters (kshark_ctx : kshark_context)
    (show_task hide_task show_event hide_event : List Int) : kshark_context :=
  { kshark_ctx with
    show_task_filter := some { ids := show_task }
    hide_task_filter := some { ids := hide_task }
    show_event_filter := some { ids := show_event }
    hide_event_filter := some { ids := hide_event } }

/-- The entries of a loaded array (`NULL` rows left out). -/
def loaded_entries (rows : List (Option kshark_entry)) : List kshark_entry :=
  rows.filterMap id

/-- Visible bytes obtained by loading the file, then installing the four id sets and
calling `kshark_filter_entries` on the loaded array. -/
def visible_load_then_filter (M : kshark_filter_masks) (kshark_ctx : kshark_context)
    (show_task hide_task show_event hide_event : List Int) : Option (List Nat) :=
  match kshark_load_data_entries M kshark_ctx with
  | none => none
  | some (ctx1, _, rows) =>
    (kshark_filter_entries M
      (set_id_filters ctx1 show_task hide_task show_event hide_event)
      (loaded_entries rows)).map (List.map kshark_entry.visible)

/-- Visible bytes obtained by installing the four id sets and then loading the file. -/
def visible_load_with_filter (M : kshark_filter_masks) (kshark_ctx : kshark_context)
    (show_task hide_task show_event hide_event : List Int) : Option (List Nat) :=
  (kshark_load_data_entries M
    (set_id_filters kshark_ctx show_task hide_task show_event hide_event)).map
    (fun out => (loaded_entries out.2.2).map kshark_entry.visible)

/-- CPU number stored in a node: `rec->cpu` or `entry.cpu`. -/
def rec_cpu : (type : rec_type) → rec_node type → Int
  | .REC_RECORD, r => pevent_record.cpu r
  | .REC_ENTRY, e => kshark_entry.cpu e

/-- An advanced filter with one per-event filter installed, which matches no record. -/
def adv_filter_set : event_filter :=
  { filters := 1, pevent_filter_match := fun _ => filter_ret.FILTER_MISS }

/-! ## Opening and closing a file, listing the tasks -/

/-- Function `kshark_free_task_list` on a non-NULL session: every bucket of the table
is emptied. -/
def kshark_free_task_list (kshark_ctx : kshark_context) : kshark_context :=
  { kshark_ctx with
    tasks := fun i => if i < KS_TASK_HASH_SIZE then [] else kshark_ctx.tasks i }

/-- What `pevent_filter_alloc` returns: an advanced filter with no per-event filter
installed, for which `pevent_filter_match` answers `FILTER_NONE`. -/
def pevent_filter_alloc : event_filter :=
  { filters := 0, pevent_filter_match := fun _ => filter_ret.FILTER_NONE }

/-- Function `kshark_open`. `opened` is what `tracecmd_open(file)` returns (`none` for
`NULL`) and `mutex_ok` tells whether `pthread_mutex_init` returned 0. The result is the
value returned and the session after the call. -/
def kshark_open (kshark_ctx : kshark_context) (opened : Option tracecmd_input)
    (mutex_ok : Bool) : Bool × kshark_context :=
  let kshark_ctx := kshark_free_task_list kshark_ctx
  match opened with
  | none => (false, kshark_ctx)
  | some handle =>
    if !mutex_ok then (false, kshark_ctx)
    else
      (true,
        { kshark_ctx with
          handle := some handle
          pevent := some handle.pevent
          advanced_event_filter := some pevent_filter_alloc })

/-- Modelled from the spec: `tracecmd_filter_id_clear` (trace-filter-hash.c is not
among the sources) removes every id of the set. -/
def tracecmd_filter_id_clear (_filter : tracecmd_filter_id) : tracecmd_filter_id :=
  { ids := [] }

/-- Function `kshark_close` on a non-NULL session: the session after the call, `none`
when a `NULL` id filter is passed to `tracecmd_filter_id_clear`. -/
def kshark_close (kshark_ctx : kshark_context) : Option kshark_context :=
  match kshark_ctx.handle with
  | none => some kshark_ctx
  | some _ =>
    match kshark_ctx.show_task_filter, kshark_ctx.hide_task_filter,
      kshark_ctx.show_event_filter, kshark_ctx.hide_event_filter with
    | some show_task, some hide_task, some show_event, some hide_event =>
      some { kshark_ctx with
        show_task_filter := some (tracecmd_filter_id_clear show_task)
        hide_task_filter := some (tracecmd_filter_id_clear hide_task)
        show_event_filter := some (tracecmd_filter_id_clear show_event)
        hide_event_filter := some (tracecmd_filter_id_clear hide_event)
        advanced_event_filter := none
        handle := none
        pevent := none }
    | _, _, _, _ => none

/-- The errno value `ENOMEM`. -/
def ENOMEM : Int := 12

/-- Locals of `kshark_get_task_pids`: the array `*pids`, whose allocated length is
`pid_size`, and the number `pid_count` of pids stored. -/
structure task_pids_state where
  pids : List Int
  pid_count : Nat
  pid_size : Nat
  deriving DecidableEq, Repr

/-- The `while (list)` loop of `kshark_get_task_pids` over one bucket. The store
`(*pids)[pid_count] = list->pid` gives `none` when `pid_count` is not below the
capacity `pid_size`; `realloc` keeps the content and the added elements, not read
before they are stored, are 0. The counters are `size_t`; they stay far below 2^64,
since the table holds at most one node for each of the 2^32 values of an `int`. -/
def get_task_pids_list : List Int → task_pids_state → Option task_pids_state
  | [], st => some st
  | pid :: next, st =>
    if st.pid_count < st.pid_size then
      let pids := st.pids.set st.pid_count pid
      let pid_count := st.pid_count + 1
      if pid_count ≥ st.pid_size then
        let pid_size := st.pid_size * 2
        get_task_pids_list next
          { pids := pids ++ List.replicate (pid_size - pids.length) 0
            pid_count := pid_count
            pid_size := pid_size }
      else
        get_task_pids_list next { st with pids := pids, pid_count := pid_count }
    else none

/-- The `for (i = 0; i < KS_TASK_HASH_SIZE; ++i)` loop of `kshark_get_task_pids`, with
`n` buckets left, from bucket `i` on. -/
def get_task_pids_buckets (tasks : Nat → List Int) :
    Nat → Nat → task_pids_state → Option task_pids_state
  | 0, _, st => some st
  | n + 1, i, st =>
    match get_task_pids_list (tasks i) st with
    | none => none
    | some st1 => get_task_pids_buckets tasks n (i + 1) st1

/-- What `kshark_get_task_pids` hands back: the value returned, the array left in
`*pids` (`none` is `NULL`), and whether the block of the array was released twice. -/
structure task_pids_result where
  ret : Int
  pids : Option (List Int)
  freed_twice : Bool
  deriving DecidableEq, Repr

/-- Function `kshark_get_task_pids`. The `calloc` and every `realloc` to a size that is
not 0 are taken to return a block. The last call, `realloc(*pids, pid_count *
sizeof(int))`, has size 0 when `pid_count` is 0: in the GNU C library, which the file
selects, it then releases the block and returns `NULL`, so the function goes to `fail`,
where `free(*pids)` releases the same block again, `*pids` becomes `NULL` and `-ENOMEM` is
returned. Otherwise the array is cut to `pid_count` elements and `pid_count` is
returned. `none` is a store at or beyond the capacity. -/
def kshark_get_task_pids (kshark_ctx : kshark_context) : Option task_pids_result :=
  match get_task_pids_buckets kshark_ctx.tasks KS_TASK_HASH_SIZE 0
      { pids := List.replicate KS_TASK_HASH_SIZE 0
        pid_count := 0
        pid_size := KS_TASK_HASH_SIZE } with
  | none => none
  | some st =>
    if st.pid_count * 4 = 0 then
      some { ret := -ENOMEM, pids := none, freed_twice := true }
    else
      some { ret := (st.pid_count : Int), pids := some (st.pids.take st.pid_count),
             freed_twice := false }

/-- The session after `kshark_add_task` was called for each pid of a sequence. -/
def add_tasks (kshark_ctx : kshark_context) (pids : List Int) : kshark_context :=
  pids.foldl (fun c pid => (kshark_add_task c pid).2) kshark_ctx

/-- Task-table invariant: every node of bucket `i` holds a pid whose hash is `i`, and
no bucket holds a pid twice. -/
def task_table_inv (tasks : Nat → List Int) : Prop :=
  ∀ i, (∀ pid ∈ tasks i, knuth_hash8 (to_uint32 pid) = i) ∧ (tasks i).Nodup

/-! ## The process-wide session -/

/-- State of the process as libkshark.c sees it: the sessions allocated on the heap,
by address, the static `kshark_context_handler` (`none` is `NULL`), and whether the
buffer of the thread's `seq` is allocated. -/
structure kshark_process where
  heap : Nat → Option kshark_context
  kshark_context_handler : Option Nat
  seq_buffer : Bool

/-- The session `kshark_default_context` builds: the zeroed block of `calloc` with
four allocated, empty id filters and `filter_mask` 0. -/
def default_context : kshark_context :=
  { handle := none
    pevent := none
    tasks := fun _ => []
    show_task_filter := some { ids := [] }
    hide_task_filter := some { ids := [] }
    show_event_filter := some { ids := [] }
    hide_event_filter := some { ids := [] }
    filter_mask := 0
    advanced_event_filter := none }

/-- Function `kshark_free`: with `NULL` it frees the session of the handler, if any.
The session is removed from the heap, the buffer of `seq` is destroyed and the handler
is reset when it pointed to the session. `none` when the pointer is not an allocated
session. -/
def kshark_free (p : kshark_process) (kshark_ctx : Option Nat) : Option kshark_process :=
  let target := match kshark_ctx with
    | none => p.kshark_context_handler
    | some a => some a
  match target with
  | none => some p
  | some a =>
    match p.heap a with
    | none => none
    | some _ =>
      some { heap := fun b => if b = a then none else p.heap b
             kshark_context_handler :=
               if p.kshark_context_handler = some a then none
               else p.kshark_context_handler
             seq_buffer := false }

/-- Function `kshark_default_context`. `new_ctx` is the address `calloc` returns;
`context` is the value of `*context` on entry. The result is the value returned, the
value of `*context` on return and the process state. -/
def kshark_default_context (p : kshark_process) (context : Option Nat) (new_ctx : Nat) :
    Option (Bool × Option Nat × kshark_process) :=
  let p1 := { p with heap := fun b => if b = new_ctx then some default_context else p.heap b }
  match kshark_free p1 none with
  | none => none
  | some p2 =>
    match (match context with
      | none => some p2
      | some a => kshark_free p2 (some a)) with
    | none => none
    | some p3 =>
      some (true, some new_ctx, { p3 with kshark_context_handler := some new_ctx })

/-- Function `init_thread_seq`; `seq_alloc_ok` tells whether `trace_seq_init` obtains a
buffer. The result is the value returned and the process state. -/
def init_thread_seq (p : kshark_process) (seq_alloc_ok : Bool) : Bool × kshark_process :=
  let p1 := if !p.seq_buffer then { p with seq_buffer := seq_alloc_ok } else p
  (p1.seq_buffer, p1)

/-- Function `kshark_instance`. `kshark_ctx` is the value of `*kshark_ctx` on entry.
The result is the value returned, the value of `*kshark_ctx` on return and the process
state. -/
def kshark_instance (p : kshark_process) (kshark_ctx : Option Nat) (new_ctx : Nat)
    (seq_alloc_ok : Bool) : Option (Bool × Option Nat × kshark_process) :=
  let step : Option (Bool × Option Nat × kshark_process) :=
    match kshark_ctx with
    | some a =>
      match kshark_free p none with
      | none => none
      | some p1 => some (true, some a, { p1 with kshark_context_handler := some a })
    | none =>
      match p.kshark_context_handler with
      | some h => some (true, some h, p)
      | none => kshark_default_context p none new_ctx
  match step with
  | none => none
  | some (false, out, p1) => some (false, out, p1)
  | some (true, out, p1) =>
    let r := init_thread_seq p1 seq_alloc_ok
    some (r.1, out, r.2)

/-- A process in which libkshark was not used yet: no session, no handler, no
buffer. -/
def fresh_process : kshark_process :=
  { heap := fun _ => none, kshark_context_handler := none, seq_buffer := false }

/-! ## Failure of `get_records` seen by its callers -/

/-- Conversion of an `int` value to `size_t` (64 bits). -/
def to_size_t (x : Int) : Nat :=
  (x % 2 ^ 64).toNat

/-- Conversion of a `size_t` value to `ssize_t`. -/
def to_ssize_t (x : Nat) : Int :=
  if x < 2 ^ 63 then (x : Int) else (x : Int) - 2 ^ 64

/-- What a call of `get_records` leaves to its caller: the `size_t` value returned and
the content of `*rec_list`, `none` when `get_records` returned without writing it. -/
structure get_records_ret (type : rec_type) where
  total : Nat
  rec_list : Option (List (List (rec_node type)))

/-- The two failure exits of `get_records` (`return -ENOMEM` after `calloc` of
`cpu_list` failed, and the `fail:` label): the value `-ENOMEM` converted to the return
type `size_t`, and `*rec_list` not written. -/
def get_records_enomem (type : rec_type) : get_records_ret type :=
  { total := to_size_t (-ENOMEM), rec_list := none }

/-- Result of a load function: it returns `ret`, with `*data_rows` as given (`none`
when not written), or its behaviour is undefined (an uninitialised pointer is read or
`NULL` is dereferenced). -/
inductive load_result (α : Type)
  | returned (ret : Int) (data_rows : Option (List (Option α)))
  | undefined

/-- Function `kshark_load_data_entries` from the statement after the call of
`get_records` on, given what that call left. The local `total` is a `size_t`.
`calloc_ok` tells whether `calloc` finds memory for the rows; a request of
`total * sizeof(struct kshark_entry *)` bytes that does not fit `size_t` fails in any
case. -/
def kshark_load_data_entries_rest (r : get_records_ret .REC_ENTRY) (calloc_ok : Bool) :
    load_result kshark_entry :=
  let total := r.total
  if total < 0 then
    -- goto fail
    .returned (-ENOMEM) none
  else if calloc_ok && decide (total * 8 < 2 ^ 64) then
    match r.rec_list with
    | none =>
      -- pick_next_cpu and free_rec_list read rec_list
      .undefined
    | some rec_list =>
      .returned (to_ssize_t total) (some (merge_loop .REC_ENTRY total rec_list).1)
  else
    -- goto fail_free: free_rec_list reads rec_list, the loop reads rows[0] if 0 < total
    match r.rec_list with
    | none => .undefined
    | some _ => if total = 0 then .returned (-ENOMEM) none else .undefined

/-- Reference definition of the visible byte after `kshark_filter_entries`, in the
words of the specification: `0xFF & ~A & ~B`, where `A` is
`(filter_mask & ~GRAPH_VIEW) | EVENT_VIEW` if `kshark_show_event` rejects the event id
of the entry and 0 otherwise, and `B` is `filter_mask` if `kshark_show_task` rejects the
pid of the entry and 0 otherwise. -/
def visible_reference (M : kshark_filter_masks) (kshark_ctx : kshark_context)
    (e : kshark_entry) : Nat :=
  let A := if kshark_show_event kshark_ctx e.event_id then 0
    else (and_not kshark_ctx.filter_mask M.KS_GRAPH_VIEW_FILTER_MASK |||
      M.KS_EVENT_VIEW_FILTER_MASK)
  let B := if kshark_show_task kshark_ctx e.pid then 0 else kshark_ctx.filter_mask
  and_not (and_not 0xFF A) B

end KShark

namespace TraceRecord

/-! ## The recorder process (trace-record.c) -/

/-- The two signal handlers of a recorder process. -/
inductive handler
  | finish
  | flush
  deriving DecidableEq, Repr

/-- The globals of trace-record.c that the handlers and the capture loop use: the flag
`finished`, whether `recorder` is set, and the number of `tracecmd_stop_recording`
calls made so far. -/
structure globals where
  finished : Int
  recorder : Bool
  stop_calls : Nat
  deriving DecidableEq, Repr

/-- Function `finish`. -/
def finish (g : globals) : globals :=
  let g := if g.recorder then { g with stop_calls := g.stop_calls + 1 } else g
  { g with finished := 1 }

/-- Function `flush`. -/
def flush (g : globals) : globals :=
  if g.recorder then { g with stop_calls := g.stop_calls + 1 } else g

/-- The handler run for a signal. -/
def run_handler (g : globals) : handler → globals
  | .finish => finish g
  | .flush => flush g

/-- One call of `tracecmd_start_recording` as the capture loop sees it: the handlers
run while the call is in progress, in order, and the value the call returns. -/
structure recording_call where
  signals : List handler
  ret : Int
  deriving DecidableEq, Repr

/-- What is known of the recorder process after the calls observed: its exit status
(`none` while it is still in the loop), the number of `tracecmd_start_recording`
calls started, and the globals. -/
structure capture_result where
  exit_status : Option Int
  calls_started : Nat
  globals : globals
  deriving DecidableEq, Repr

/-- The capture loop of `create_recorder` (`extract` is 0) and the `exit(0)` that
follows it, run in the recorder process against a sequence of
`tracecmd_start_recording` calls:
`while (!finished) { if (tracecmd_start_recording(recorder, sleep_time) < 0) break; }`
then `tracecmd_free_recorder(recorder); exit(0);`. -/
def create_recorder_loop : globals → List recording_call → capture_result
  | g, [] =>
    if g.finished ≠ 0 then { exit_status := some 0, calls_started := 0, globals := g }
    else { exit_status := none, calls_started := 0, globals := g }
  | g, call :: rest =>
    if g.finished ≠ 0 then { exit_status := some 0, calls_started := 0, globals := g }
    else
      let g1 := call.signals.foldl run_handler g
      if call.ret < 0 then { exit_status := some 0, calls_started := 1, globals := g1 }
      else
        let r := create_recorder_loop g1 rest
        { r with calls_started := r.calls_started + 1 }

/-- The globals of a recorder process when it enters the capture loop: `finished` is
0 and `recorder` is set. -/
def loop_entry : globals :=
  { finished := 0, recorder := true, stop_calls := 0 }

/-! ## Strings and buffers of trace-record.c

A C string is the list of its characters, without the terminating NUL; `strlen` is the
length of the list. -/

/-- What `printf` writes for `%d`: the decimal digits, after a `-` for a negative
value. -/
def sprintf_d (val : Int) : List Char :=
  if val < 0 then '-' :: Nat.toDigits 10 val.natAbs else Nat.toDigits 10 val.toNat

/-- What `printf` writes for `%llx`: the lowercase hexadecimal digits. -/
def sprintf_llx (val : Nat) : List Char :=
  Nat.toDigits 16 val

/-- What `snprintf(str, size, ...)` leaves in `str` of a formatted string: at most
`size - 1` characters of it (and a NUL). -/
def snprintf (size : Nat) (formatted : List Char) : List Char :=
  formatted.take (size - 1)

/-- The `unsigned long long` difference `x - y`. -/
def sub_u64 (x y : Nat) : Nat :=
  (x + 2 ^ 64 - y % 2 ^ 64) % 2 ^ 64

/-- The string `get_date_to_ts` builds in its 19-byte block:
`snprintf(date2ts, 19, "0x%llx", min_stamp - min_ts / 1000)`. -/
def get_date_to_ts_string (min_stamp min_ts : Nat) : List Char :=
  snprintf 19 ("0x".toList ++ sprintf_llx (sub_u64 min_stamp (min_ts / 1000)))

/-! ### `update_event_filters` -/

/-- The size `update_event_filters` passes to `malloc_or_die` for the combined filter:
`len + strlen(event->filter) + strlen("()&&()" + 1)`. The argument of the last
`strlen` is the literal advanced by one character. -/
def update_event_filters_size (pid_filter event_filter : List Char) : Nat :=
  let len := pid_filter.length
  len + event_filter.length + ("()&&()".toList.drop 1).length

/-- The string `update_event_filters` writes there:
`sprintf(event_filter, "(%s)&&(%s)", pid_filter, event->filter)`. -/
def update_event_filters_string (pid_filter event_filter : List Char) : List Char :=
  "(".toList ++ pid_filter ++ ")&&(".toList ++ event_filter ++ ")".toList

/-! ### `expand_event` -/

/-- The byte NUL. -/
def NUL : Char := Char.ofNat 0

/-- Store of one byte at index `i` of an allocated block: `none` when the index is
outside the block. -/
def store (block : List Char) (i : Nat) (c : Char) : Option (List Char) :=
  if i < block.length then some (block.set i c) else none

/-- The branch `if (ptr)` of `expand_event`, for a name that contains `:`: the block
of `strlen(name) + 1` bytes after `strcpy` and the stores, `none` when a store is
outside the block. -/
def expand_event_str (name : List Char) : Option (List Char) :=
  let len := name.indexOf ':'
  let str := name ++ [NUL]
  match store str len '/' with
  | none => none
  | some str =>
    if (name.drop (len + 1)).length = 0 then
      match store str (len + 1) '*' with
      | none => none
      | some str => store str (len + 2) NUL
    else some str

/-- The C string held by a block: the bytes before the first NUL. -/
def c_string (block : List Char) : List Char :=
  block.takeWhile (fun c => c != NUL)

/-! ### The pid filter -/

/-- The globals `filter_pids` (the list, head first), `nr_filter_pids` and
`len_filter_pids`. -/
structure pid_globals where
  filter_pids : List Int
  nr_filter_pids : Nat
  len_filter_pids : Nat
  deriving DecidableEq, Repr

/-- The globals at program start. -/
def pid_globals_init : pid_globals :=
  { filter_pids := [], nr_filter_pids := 0, len_filter_pids := 0 }

/-- Function `add_filter_pid`. -/
def add_filter_pid (g : pid_globals) (pid : Int) : pid_globals :=
  { filter_pids := pid :: g.filter_pids
    nr_filter_pids := g.nr_filter_pids + 1
    len_filter_pids := g.len_filter_pids + (sprintf_d pid).length }

/-- The loop of `make_pid_filter` from node `p` on: each `sprintf` writes
`orit`, `(`, the field, `==`, the pid and `)`, where `orit` is empty for the first node
(`first`) and `||` for the others. -/
def make_pid_filter_loop (field : List Char) : Bool → List Int → List Char
  | _, [] => []
  | first, pid :: next =>
    (if first then "".toList else "||".toList) ++ "(".toList ++ field ++ "==".toList ++
      sprintf_d pid ++ ")".toList ++ make_pid_filter_loop field false next

/-- Function `make_pid_filter`: the size passed to `malloc_or_die` and the string
written into the block. -/
def make_pid_filter (g : pid_globals) (field : List Char) : Nat × List Char :=
  (g.len_filter_pids + (field.length + "(==)||".toList.length) * g.nr_filter_pids,
    make_pid_filter_loop field true g.filter_pids)

/-- The pid filter in the words of the specification: the terms `(field==pid)`, one
for each pid, joined by `||`. -/
def pid_filter_reference (field : List Char) (pids : List Int) : List Char :=
  List.intercalate "||".toList
    (pids.map (fun pid => "(".toList ++ field ++ "==".toList ++ sprintf_d pid ++ ")".toList))

end TraceRecord

namespace TraceRead

/-! ## Reading a trace file (trace-read.c) -/

/-! ## The wakeup latency table (trace-read.c, trace-hash-local.h)
An `int` or `unsigned int` is kept as its 32-bit pattern, a natural number below 2^32,
unless said otherwise; an `unsigned long long` or `unsigned long` is a natural number below
2^64. -/

/-- Conversion of an `unsigned int` to `int`. -/
def int_of_unsigned (val : Nat) : Int :=
  if val % 2 ^ 32 < 2 ^ 31 then ((val % 2 ^ 32 : Nat) : Int)
  else ((val % 2 ^ 32 : Nat) : Int) - 2 ^ 32

/-- Conversion of an `int` to `unsigned int`. -/
def unsigned_of_int (val : Int) : Nat := (val % 2 ^ 32).toNat

/-- The `>>` of a signed `int` given by its 32-bit pattern: the sign bit is copied
into the vacated bits. -/
def asr32 (x k : Nat) : Nat :=
  if x < 2 ^ 31 then x >>> k else 2 ^ 32 - 1 - ((2 ^ 32 - 1 - x) >>> k)

/-- The `<<` of an `int` given by its 32-bit pattern. -/
def shl32 (x k : Nat) : Nat := (x <<< k) % 2 ^ 32

/-- The `+` of two `int`s given by their 32-bit patterns. -/
def add32 (x y : Nat) : Nat := (x + y) % 2 ^ 32

/-- Hash of `trace-hash-local.h`; `val` and the result are 32-bit patterns. -/
def trace_hash (val : Nat) : Nat :=
  let hash := 12546869
  let hash := add32 hash (val &&& 0xffff)
  let tmp := asr32 val 16 ^^^ hash
  let hash := shl32 hash 16 ^^^ tmp
  let hash := add32 hash (asr32 hash 11)
  let hash := hash ^^^ shl32 hash 3
  let hash := add32 hash (asr32 hash 5)
  let hash := hash ^^^ shl32 hash 4
  let hash := add32 hash (asr32 hash 17)
  let hash := hash ^^^ shl32 hash 25
  let hash := add32 hash (asr32 hash 6)
  hash

/-- Number of buckets of the wakeup table. -/
def WAKEUP_HASH_SIZE : Nat := 1024

/-- Bucket of a value: the `unsigned long` argument is converted to the `int` parameter
of `trace_hash`, which keeps its low 32 bits. -/
def calc_wakeup_key (val : Nat) : Nat := trace_hash (val % 2 ^ 32) % WAKEUP_HASH_SIZE

/-- A node of the wakeup table: `struct wakeup_info` without its `next` link; `pid` is
an `int`. -/
structure wakeup_info where
  start : Nat
  pid : Int
  deriving DecidableEq, Repr

/-- The globals the wakeup functions work on; `output` lists the latencies printed, as
the two numbers of the format `%llu.%03llu`. -/
structure wakeup_state where
  wakeup_hash : Nat → List wakeup_info
  total_wakeup_lat : Nat
  wakeup_lat_count : Nat
  max_lat : Nat
  max_time : Nat
  min_lat : Nat
  min_time : Nat
  output : List (Nat × Nat)

/-- The globals at program start: empty table, zero counters, `min_lat = -1`. -/
def wakeup_init : wakeup_state :=
  { wakeup_hash := fun _ => []
    total_wakeup_lat := 0
    wakeup_lat_count := 0
    max_lat := 0
    max_time := 0
    min_lat := 2 ^ 64 - 1
    min_time := 0
    output := [] }

/-- The walk of `__find_wakeup` along one bucket: the first node whose pid, converted to
`unsigned int`, is `val`, with its position in the bucket; `none` is NULL. -/
def find_wakeup_from (val : Nat) : List wakeup_info → Option (Nat × wakeup_info)
  | [] => none
  | info :: next =>
    if unsigned_of_int info.pid = val then some (0, info)
    else (find_wakeup_from val next).map (fun r => (r.1 + 1, r.2))

/-- Search of a value in the bucket `key`. -/
def __find_wakeup (st : wakeup_state) (key val : Nat) : Option (Nat × wakeup_info) :=
  find_wakeup_from val (st.wakeup_hash key)

/-- Record a wakeup of `val` at time `start`: a node already there gets the new
start, otherwise a new node is pushed at the head of the bucket. -/
def add_wakeup (st : wakeup_state) (val start : Nat) : wakeup_state :=
  let key := calc_wakeup_key val
  match __find_wakeup st key val with
  | some (i, info) =>
    { st with wakeup_hash := (Function.update st.wakeup_hash key
        ((st.wakeup_hash key).set i { info with start := start })) }
  | none =>
    { st with wakeup_hash := (Function.update st.wakeup_hash key
        ({ start := start, pid := int_of_unsigned val } :: st.wakeup_hash key)) }

/-- Record the scheduling of `val` at time `end_`: when a node is found, the latency is
computed in `unsigned long long`, printed, added to the counters and the node is
unlinked; otherwise nothing happens. -/
def add_sched (st : wakeup_state) (val end_ : Nat) : wakeup_state :=
  let key := calc_wakeup_key val
  match __find_wakeup st key val with
  | none => st
  | some (i, info) =>
    let cal := (end_ + 2 ^ 64 - info.start % 2 ^ 64) % 2 ^ 64
    { wakeup_hash := Function.update st.wakeup_hash key ((st.wakeup_hash key).eraseIdx i)
      total_wakeup_lat := (st.total_wakeup_lat + cal) % 2 ^ 64
      wakeup_lat_count := (st.wakeup_lat_count + 1) % 2 ^ 64
      max_lat := if cal > st.max_lat then cal else st.max_lat
      max_time := if cal > st.max_lat then end_ else st.max_time
      min_lat := if cal < st.min_lat then cal else st.min_lat
      min_time := if cal < st.min_lat then end_ else st.min_time
      output := st.output ++ [(cal / 1000, cal % 1000)] }

/-- The start stamp of the node `__find_wakeup` returns for `val`, if there is one. -/
def wakeup_start (st : wakeup_state) (val : Nat) : Option Nat :=
  (__find_wakeup st (calc_wakeup_key val) val).map (fun r => r.2.start)

/-- A call of one of the two table functions. -/
inductive wakeup_call where
  | wakeup (val start : Nat)
  | sched (val end_ : Nat)
  deriving DecidableEq, Repr

/-- Run one call. -/
def wakeup_step (st : wakeup_state) : wakeup_call → wakeup_state
  | .wakeup val start => add_wakeup st val start
  | .sched val end_ => add_sched st val end_

/-- Run a sequence of calls from the initial globals. -/
def wakeup_run (calls : List wakeup_call) : wakeup_state := calls.foldl wakeup_step wakeup_init

/-- The pid argument of a call. -/
def wakeup_call_val : wakeup_call → Nat
  | .wakeup val _ => val
  | .sched val _ => val

/-- The time argument of a call. -/
def wakeup_call_time : wakeup_call → Nat
  | .wakeup _ start => start
  | .sched _ end_ => end_

/-- The arguments of a call have the width of their parameter types. -/
def wakeup_call_typed (c : wakeup_call) : Prop :=
  wakeup_call_val c < 2 ^ 32 ∧ wakeup_call_time c < 2 ^ 64

/-- Reference, from the words of the specification: a pid has a pending wakeup after a
sequence of calls when the most recent call for it is an `add_wakeup`, and the pending
start is the time of that call. -/
def pending_reference (calls : List wakeup_call) (pid : Nat) : Option Nat :=
  match calls.reverse.find? (fun c => decide (wakeup_call_val c = pid)) with
  | some (.wakeup _ start) => some start
  | _ => none

/-- The table invariant: every node sits in the bucket of its pid, and no bucket holds
two nodes of one pid. -/
def wakeup_inv (st : wakeup_state) : Prop :=
  (∀ key, ∀ info ∈ st.wakeup_hash key, calc_wakeup_key (unsigned_of_int info.pid) = key) ∧
  ∀ key, (st.wakeup_hash key).Pairwise
    (fun a b => unsigned_of_int a.pid ≠ unsigned_of_int b.pid)

/-! ## Reading the next record of a handle (trace-read.c, `get_next_record`) -/

/-- A record as the reader hands it out (`struct record`): its time stamp, its CPU and
its offset in the file. -/
structure record where
  ts : Nat
  cpu : Int
  offset : Nat
  deriving DecidableEq, Repr

/-- One input of `struct handle_list`. The input handle is the list of the records
`tracecmd_read_next_data` will still deliver, in that order; each of the two event filters
is the verdict `pevent_filter_match` gives on a record; `record` is `none` for NULL. -/
structure handle_list where
  handle : List record
  done : Bool
  record : Option record
  event_filters : TraceRead.record → KShark.filter_ret
  event_filter_out : TraceRead.record → KShark.filter_ret

/-- The `do ... while (record && !found)` loop of `get_next_record` when no CPU list
was given: read records until one passes both filters or the input is exhausted. The
result is the last value of `record` and the input that is left. A record whose include
verdict is `FILTER_NONE` or `FILTER_MATCH` and whose exclude verdict is `FILTER_MATCH` is
freed and skipped; a record with any other include verdict is skipped. -/
def get_next_record_loop (event_filters event_filter_out : record → KShark.filter_ret) :
    List record → Option record × List record
  | [] => (none, [])
  | record :: handle =>
    match event_filters record with
    | .FILTER_NONE | .FILTER_MATCH =>
      if event_filter_out record ≠ .FILTER_MATCH then (some record, handle)
      else get_next_record_loop event_filters event_filter_out handle
    | _ => get_next_record_loop event_filters event_filter_out handle

/-- Model of `get_next_record` without a CPU list (`filter_cpus` is NULL). The result is
the returned record, the value written to `*next_cpu` (`none` when the function returns
before the write) and the handle afterwards. -/
def get_next_record (handles : handle_list) : Option record × Option Int × handle_list :=
  match handles.record with
  | some record => (some record, none, handles)
  | none =>
    if handles.done then (none, none, handles)
    else
      let r := get_next_record_loop handles.event_filters handles.event_filter_out
        handles.handle
      (r.1, some (-1),
        { handles with
          handle := r.2
          record := r.1
          done := (if r.1.isNone then true else handles.done) })

/-- Model of `free_handle_record`: drop the record the handle holds. -/
def free_handle_record (handles : handle_list) : handle_list :=
  match handles.record with
  | none => handles
  | some _ => { handles with record := none }

/-- The acceptance test in the words of the specification: the include verdict is
`FILTER_NONE` or `FILTER_MATCH` and the exclude verdict is not `FILTER_MATCH`. -/
def record_accepted (handles : handle_list) (r : record) : Bool :=
  (decide (handles.event_filters r = .FILTER_NONE) ||
    decide (handles.event_filters r = .FILTER_MATCH)) &&
  !decide (handles.event_filter_out r = .FILTER_MATCH)

/-- A fresh handle on a list of records, with the two filters given. -/
def open_handle (records : List record)
    (event_filters event_filter_out : record → KShark.filter_ret) : handle_list :=
  { handle := records, done := false, record := none,
    event_filters := event_filters, event_filter_out := event_filter_out }

/-! ## The CPU list of the command line (trace-read.c, `parse_cpulist`)
A C string is the list of its characters without the terminating NUL, and a pointer into
it is the list of the characters from there on. -/

/-- The terminating NUL. -/
def NUL : Char := Char.ofNat 0

end TraceRead

/-! # Theorems -/

namespace KShark

/-! ## Properties of `pick_next_cpu` -/

/-- The loop of `pick_next_cpu` returns the value of `next_cpu` it started with, or
the number of a CPU whose list is not empty. -/
theorem pick_next_cpu_from_cases (type : rec_type) :
    ∀ (rec_list : List (List (rec_node type))) (cpu ts : Nat) (next_cpu : Int),
      pick_next_cpu_from type rec_list cpu ts next_cpu = next_cpu ∨
      ∃ i r next, rec_list.getD i [] = r :: next ∧ i < rec_list.length ∧
        pick_next_cpu_from type rec_list cpu ts next_cpu = ((cpu + i : Nat) : Int) := by
  intro rec_list
  induction rec_list with
  | nil => intro cpu ts next_cpu; left; rfl
  | cons l rest ih =>
    intro cpu ts next_cpu
    have shift : ∀ (t : Nat) (nc : Int),
        (∃ i r next, rest.getD i [] = r :: next ∧ i < rest.length ∧
          pick_next_cpu_from type rest (cpu + 1) t nc = ((cpu + 1 + i : Nat) : Int)) →
        ∃ i r next, (l :: rest).getD i [] = r :: next ∧ i < (l :: rest).length ∧
          pick_next_cpu_from type rest (cpu + 1) t nc = ((cpu + i : Nat) : Int) := by
      rintro t nc ⟨i, r, next, h1, h2, h3⟩
      refine ⟨i + 1, r, next, by simpa using h1, by simpa using h2, ?_⟩
      rw [h3]; congr 1; omega
    cases l with
    | nil =>
      simp only [pick_next_cpu_from]
      rcases ih (cpu + 1) ts next_cpu with h | h
      · left; exact h
      · right; exact shift _ _ h
    | cons r next =>
      simp only [pick_next_cpu_from]
      split
      · rcases ih (cpu + 1) (rec_ts type r) (cpu : Int) with h | h
        · right
          exact ⟨0, r, next, by simp, by simp, by rw [h]; simp⟩
        · right; exact shift _ _ h
      · rcases ih (cpu + 1) ts next_cpu with h | h
        · left; exact h
        · right; exact shift _ _ h

/-- The loop of `pick_next_cpu` returns a non-negative CPU number when `next_cpu` is
already one, or when `ts` is still 0 and some list is not empty. -/
theorem pick_next_cpu_from_nonneg (type : rec_type) :
    ∀ (rec_list : List (List (rec_node type))) (cpu ts : Nat) (next_cpu : Int),
      (0 ≤ next_cpu ∨ (ts = 0 ∧ ∃ l ∈ rec_list, l ≠ [])) →
      0 ≤ pick_next_cpu_from type rec_list cpu ts next_cpu := by
  intro rec_list
  induction rec_list with
  | nil =>
    intro cpu ts next_cpu h
    rcases h with h | ⟨_, l, hl, _⟩
    · exact h
    · simp at hl
  | cons l rest ih =>
    intro cpu ts next_cpu h
    cases l with
    | nil =>
      simp only [pick_next_cpu_from]
      apply ih
      rcases h with h | ⟨h0, l, hl, hne⟩
      · left; exact h
      · right
        refine ⟨h0, l, ?_, hne⟩
        rcases List.mem_cons.1 hl with h1 | h1
        · exact absurd h1 hne
        · exact h1
    | cons r next =>
      simp only [pick_next_cpu_from]
      split
      · apply ih; left; exact Int.natCast_nonneg cpu
      · rename_i hc
        apply ih
        rcases h with h | ⟨h0, _⟩
        · left; exact h
        · exact absurd (Or.inl h0) hc

/-- A non-negative result of `pick_next_cpu` is the index of a non-empty list. -/
theorem pick_next_cpu_nonempty (type : rec_type) (rec_list : List (List (rec_node type)))
    (h : 0 ≤ pick_next_cpu type rec_list) :
    ∃ r next, rec_list.getD (pick_next_cpu type rec_list).toNat [] = r :: next ∧
      (pick_next_cpu type rec_list).toNat < rec_list.length := by
  unfold pick_next_cpu at h ⊢
  rcases pick_next_cpu_from_cases type rec_list 0 0 (-1) with h1 | ⟨i, r, next, h1, h2, h3⟩
  · rw [h1] at h; omega
  · rw [h3]
    refine ⟨r, next, ?_, ?_⟩
    · simpa using h1
    · simpa using h2

/-- The result of `pick_next_cpu` is not negative while a list is not empty. -/
theorem pick_next_cpu_nonneg (type : rec_type) (rec_list : List (List (rec_node type)))
    (h : ∃ l ∈ rec_list, l ≠ []) : 0 ≤ pick_next_cpu type rec_list :=
  pick_next_cpu_from_nonneg type rec_list 0 0 (-1) (Or.inr ⟨rfl, h⟩)

/-! ## Properties of the merge loop -/

theorem total_records_nil {α : Type} : total_records ([] : List (List α)) = 0 := rfl

theorem total_records_cons {α : Type} (l : List α) (rest : List (List α)) :
    total_records (l :: rest) = l.length + total_records rest := by
  simp [total_records]

/-- With no record at all, every list is empty. -/
theorem total_records_zero {α : Type} :
    ∀ (lists : List (List α)), total_records lists = 0 → ∀ l ∈ lists, l = [] := by
  intro lists
  induction lists with
  | nil => intro _ l hl; simp at hl
  | cons a rest ih =>
    intro h l hl
    rw [total_records_cons] at h
    rcases List.mem_cons.1 hl with h1 | h1
    · subst h1
      exact List.length_eq_zero.1 (by omega)
    · exact ih (by omega) l h1

/-- With at least one record, some list is not empty. -/
theorem total_records_pos {α : Type} :
    ∀ (lists : List (List α)), 0 < total_records lists → ∃ l ∈ lists, l ≠ [] := by
  intro lists
  induction lists with
  | nil => intro h; simp [total_records] at h
  | cons a rest ih =>
    intro h
    rw [total_records_cons] at h
    cases a with
    | nil =>
      obtain ⟨l, hl, hne⟩ := ih (by simpa using h)
      exact ⟨l, List.mem_cons_of_mem _ hl, hne⟩
    | cons x xs => exact ⟨x :: xs, by simp, by simp⟩

/-- Popping the head of list `c` removes one record. -/
theorem total_records_set {α : Type} :
    ∀ (lists : List (List α)) (c : Nat) (r : α) (next : List α),
      lists.getD c [] = r :: next →
      total_records (lists.set c next) + 1 = total_records lists := by
  intro lists
  induction lists with
  | nil => intro c r next h; simp at h
  | cons a rest ih =>
    intro c r next h
    cases c with
    | zero =>
      simp only [List.getD_cons_zero] at h
      subst h
      simp only [List.set_cons_zero, total_records_cons, List.length_cons]
      omega
    | succ c =>
      simp only [List.getD_cons_succ] at h
      simp only [List.set_cons_succ, total_records_cons]
      have := ih c r next h
      omega

/-- Popping the head `r` of list `c` removes exactly `r` from the records. -/
theorem flatten_set_perm {α : Type} :
    ∀ (lists : List (List α)) (c : Nat) (r : α) (next : List α),
      lists.getD c [] = r :: next →
      (r :: (lists.set c next).flatten).Perm lists.flatten := by
  intro lists
  induction lists with
  | nil => intro c r next h; simp at h
  | cons a rest ih =>
    intro c r next h
    cases c with
    | zero =>
      simp only [List.getD_cons_zero] at h
      subst h
      simp
    | succ c =>
      simp only [List.getD_cons_succ] at h
      simp only [List.set_cons_succ, List.flatten_cons]
      exact (List.perm_middle.symm).trans ((ih c r next h).append_left a)

/-- Reading list `i` after list `c` was replaced. -/
theorem getD_set_lists {α : Type} :
    ∀ (lists : List (List α)) (c i : Nat) (next : List α), c < lists.length →
      (lists.set c next).getD i [] = if i = c then next else lists.getD i [] := by
  intro lists
  induction lists with
  | nil => intro c i next h; simp at h
  | cons a rest ih =>
    intro c i next h
    cases c with
    | zero =>
      cases i with
      | zero => simp
      | succ i => simp
    | succ c =>
      cases i with
      | zero => simp
      | succ i =>
        simp only [List.set_cons_succ, List.getD_cons_succ]
        rw [ih c i next (by simpa using h)]
        simp

/-- One iteration of the merge loop while a record is left: the row written is the
head of the list of the CPU picked, and that list is advanced. -/
theorem merge_loop_succ (type : rec_type) (total : Nat)
    (rec_list : List (List (rec_node type))) (h : ∃ l ∈ rec_list, l ≠ []) :
    ∃ r next, rec_list.getD (pick_next_cpu type rec_list).toNat [] = r :: next ∧
      (pick_next_cpu type rec_list).toNat < rec_list.length ∧
      merge_loop type (total + 1) rec_list =
        (some r :: (merge_loop type total
            (rec_list.set (pick_next_cpu type rec_list).toNat next)).1,
          (merge_loop type total
            (rec_list.set (pick_next_cpu type rec_list).toNat next)).2) := by
  have h0 := pick_next_cpu_nonneg type rec_list h
  obtain ⟨r, next, h1, h2⟩ := pick_next_cpu_nonempty type rec_list h0
  refine ⟨r, next, h1, h2, ?_⟩
  simp only [merge_loop, h0, if_true, h1]

/-- The merge loop run for as many iterations as there are records: every row is
written, the rows are the records of the lists, each once, every list is a
subsequence of the rows, and no record is left in the lists. -/
theorem merge_loop_spec (type : rec_type) :
    ∀ (total : Nat) (rec_list : List (List (rec_node type))),
      total_records rec_list = total →
      ∃ es : List (rec_node type),
        (merge_loop type total rec_list).1 = es.map some ∧
        es.Perm rec_list.flatten ∧
        (∀ i, (rec_list.getD i []).Sublist es) ∧
        (∀ l ∈ (merge_loop type total rec_list).2, l = []) := by
  intro total
  induction total with
  | zero =>
    intro rec_list h
    have hall := total_records_zero rec_list h
    refine ⟨[], rfl, ?_, ?_, ?_⟩
    · have : rec_list.flatten = [] := by
        rw [List.flatten_eq_nil_iff]; exact hall
      rw [this]
    · intro i
      have : rec_list.getD i [] = [] := by
        rw [List.getD_eq_getElem?_getD]
        cases hi : rec_list[i]? with
        | none => rfl
        | some l => exact hall l (List.mem_iff_getElem?.2 ⟨i, hi⟩)
      rw [this]
    · exact hall
  | succ n ih =>
    intro rec_list h
    obtain ⟨r, next, h1, h2, h3⟩ :=
      merge_loop_succ type n rec_list (total_records_pos rec_list (by omega))
    have hset := total_records_set rec_list _ r next h1
    obtain ⟨es, e1, e2, e3, e4⟩ :=
      ih (rec_list.set (pick_next_cpu type rec_list).toNat next) (by omega)
    refine ⟨r :: es, ?_, ?_, ?_, ?_⟩
    · rw [h3]; simp [e1]
    · exact (List.Perm.cons r e2).trans (flatten_set_perm rec_list _ r next h1)
    · intro i
      have hi := e3 i
      rw [getD_set_lists rec_list _ i next h2] at hi
      split at hi
      · rename_i hic
        rw [hic, h1]
        exact List.Sublist.cons₂ r hi
      · exact List.Sublist.cons r hi
    · rw [h3]; exact e4

/-! ## Properties of `get_records` -/

/-- Function `kshark_add_task` changes the task table only. -/
theorem kshark_add_task_tasks (kshark_ctx : kshark_context) (pid : Int) :
    ∃ tasks, (kshark_add_task kshark_ctx pid).2 = { kshark_ctx with tasks := tasks } := by
  unfold kshark_add_task
  simp only
  split
  · exact ⟨kshark_ctx.tasks, rfl⟩
  · exact ⟨_, rfl⟩

/-- The node built for a record does not depend on the task table. -/
theorem get_records_node_tasks (M : kshark_filter_masks) (kshark_ctx : kshark_context)
    (adv_filter : event_filter) (h : kshark_ctx.advanced_event_filter = some adv_filter)
    (tasks : Nat → List Int) (type : rec_type) (rec : pevent_record) :
    ∃ pid, get_records_node M { kshark_ctx with tasks := tasks } type rec =
      some (get_records_value M kshark_ctx adv_filter type rec, pid) := by
  cases type with
  | REC_RECORD => exact ⟨_, rfl⟩
  | REC_ENTRY =>
    refine ⟨(get_records_entry M kshark_ctx adv_filter rec).pid, ?_⟩
    simp only [get_records_node, h, get_records_value]
    rfl

/-- The list built for one CPU holds the node of each record of the stream, in order. -/
theorem get_records_cpu_spec (M : kshark_filter_masks) (kshark_ctx : kshark_context)
    (adv_filter : event_filter) (h : kshark_ctx.advanced_event_filter = some adv_filter)
    (type : rec_type) :
    ∀ (stream : List pevent_record) (tasks : Nat → List Int),
      ∃ tasks1, get_records_cpu M type { kshark_ctx with tasks := tasks } stream =
        some ({ kshark_ctx with tasks := tasks1 },
          stream.map (get_records_value M kshark_ctx adv_filter type)) := by
  intro stream
  induction stream with
  | nil => intro tasks; exact ⟨tasks, rfl⟩
  | cons rec rest ih =>
    intro tasks
    obtain ⟨pid, hn⟩ := get_records_node_tasks M kshark_ctx adv_filter h tasks type rec
    obtain ⟨t1, ht1⟩ := kshark_add_task_tasks { kshark_ctx with tasks := tasks } pid
    obtain ⟨t2, ht2⟩ := ih t1
    refine ⟨t2, ?_⟩
    simp only [get_records_cpu, hn, ht1, ht2, List.map_cons]

theorem total_records_map {α β : Type} (f : α → β) :
    ∀ (lists : List (List α)), total_records (lists.map (List.map f)) = total_records lists := by
  intro lists
  induction lists with
  | nil => rfl
  | cons a rest ih => simp [total_records_cons, ih]

/-- The array built by the loop over the CPUs holds, for each CPU, the nodes of its
stream in order, and the total is the number of records of the file. -/
theorem get_records_cpus_spec (M : kshark_filter_masks) (kshark_ctx : kshark_context)
    (adv_filter : event_filter) (h : kshark_ctx.advanced_event_filter = some adv_filter)
    (type : rec_type) :
    ∀ (streams : List (List pevent_record)) (tasks : Nat → List Int),
      ∃ tasks1, get_records_cpus M type { kshark_ctx with tasks := tasks } streams =
        some ({ kshark_ctx with tasks := tasks1 }, total_records streams,
          streams.map (List.map (get_records_value M kshark_ctx adv_filter type))) := by
  intro streams
  induction streams with
  | nil => intro tasks; exact ⟨tasks, rfl⟩
  | cons stream rest ih =>
    intro tasks
    obtain ⟨t1, ht1⟩ := get_records_cpu_spec M kshark_ctx adv_filter h type stream tasks
    obtain ⟨t2, ht2⟩ := ih t1
    refine ⟨t2, ?_⟩
    simp only [get_records_cpus, ht1, ht2, List.map_cons, total_records_cons,
      List.length_map]

/-- Function `get_records` on an open file. -/
theorem get_records_spec (M : kshark_filter_masks) (kshark_ctx : kshark_context)
    (handle : tracecmd_input) (adv_filter : event_filter)
    (hh : kshark_ctx.handle = some handle)
    (h : kshark_ctx.advanced_event_filter = some adv_filter) (type : rec_type) :
    ∃ tasks1, get_records M kshark_ctx type =
      some ({ kshark_ctx with tasks := tasks1 }, total_records handle.cpus,
        handle.cpus.map (List.map (get_records_value M kshark_ctx adv_filter type))) := by
  obtain ⟨t1, ht1⟩ :=
    get_records_cpus_spec M kshark_ctx adv_filter h type handle.cpus kshark_ctx.tasks
  have hget : get_records M kshark_ctx type =
      get_records_cpus M type kshark_ctx handle.cpus := by
    unfold get_records
    rw [hh]
  refine ⟨t1, ?_⟩
  rw [hget]
  exact ht1

/-! ## Properties of the load functions -/

/-- The entry built for a record copies its offset, CPU, time stamp, event id and pid;
only `visible` depends on the filters. -/
theorem get_records_entry_shape (M : kshark_filter_masks) (kshark_ctx : kshark_context)
    (adv_filter : event_filter) (rec : pevent_record) :
    ∃ v, get_records_entry M kshark_ctx adv_filter rec =
      { visible := v, cpu := rec.cpu, pid := rec.common_pid, event_id := rec.common_type,
        offset := rec.offset, ts := rec.ts } := by
  unfold get_records_entry unset_event_filter_flag kshark_set_entry_values
    pevent_data_type pevent_data_pid
  simp only
  split_ifs <;> exact ⟨_, rfl⟩

theorem get_records_entry_fields (M : kshark_filter_masks) (kshark_ctx : kshark_context)
    (adv_filter : event_filter) (rec : pevent_record) :
    (get_records_entry M kshark_ctx adv_filter rec).ts = rec.ts ∧
    (get_records_entry M kshark_ctx adv_filter rec).cpu = rec.cpu ∧
    (get_records_entry M kshark_ctx adv_filter rec).offset = rec.offset ∧
    (get_records_entry M kshark_ctx adv_filter rec).event_id = rec.common_type ∧
    (get_records_entry M kshark_ctx adv_filter rec).pid = rec.common_pid := by
  obtain ⟨v, hv⟩ := get_records_entry_shape M kshark_ctx adv_filter rec
  rw [hv]
  exact ⟨rfl, rfl, rfl, rfl, rfl⟩

/-- The time stamp of a node is the time stamp of its record. -/
theorem rec_ts_get_records_value (M : kshark_filter_masks) (kshark_ctx : kshark_context)
    (adv_filter : event_filter) (type : rec_type) (rec : pevent_record) :
    rec_ts type (get_records_value M kshark_ctx adv_filter type rec) = rec.ts := by
  cases type with
  | REC_RECORD => rfl
  | REC_ENTRY => exact (get_records_entry_fields M kshark_ctx adv_filter rec).1

/-- Function `kshark_load_data_entries` on an open file: it returns the number of
records of the file and the rows the merge loop builds from the per-CPU entry lists. -/
theorem kshark_load_data_entries_eq (M : kshark_filter_masks) (kshark_ctx : kshark_context)
    (handle : tracecmd_input) (adv_filter : event_filter)
    (hh : kshark_ctx.handle = some handle)
    (ha : kshark_ctx.advanced_event_filter = some adv_filter) :
    ∃ tasks1, kshark_load_data_entries M kshark_ctx =
      some ({ kshark_ctx with tasks := tasks1 }, total_records handle.cpus,
        (merge_loop .REC_ENTRY (total_records handle.cpus)
          (handle.cpus.map (List.map (get_records_entry M kshark_ctx adv_filter)))).1) := by
  obtain ⟨t1, hg⟩ := get_records_spec M kshark_ctx handle adv_filter hh ha .REC_ENTRY
  refine ⟨t1, ?_⟩
  unfold kshark_load_data_entries
  rw [hg]
  rfl

/-- Function `kshark_load_data_records` on an open file: it returns the number of
records of the file and the rows the merge loop builds from the per-CPU streams. -/
theorem kshark_load_data_records_eq (M : kshark_filter_masks) (kshark_ctx : kshark_context)
    (handle : tracecmd_input) (hh : kshark_ctx.handle = some handle) :
    ∃ tasks1, kshark_load_data_records M kshark_ctx =
      some ({ kshark_ctx with tasks := tasks1 }, total_records handle.cpus,
        (merge_loop .REC_RECORD (total_records handle.cpus) handle.cpus).1) := by
  have hrec : ∀ (streams : List (List pevent_record)) (tasks : Nat → List Int),
      ∃ tasks1, get_records_cpus M .REC_RECORD { kshark_ctx with tasks := tasks } streams =
        some ({ kshark_ctx with tasks := tasks1 }, total_records streams, streams) := by
    have hcpu : ∀ (stream : List pevent_record) (tasks : Nat → List Int),
        ∃ tasks1, get_records_cpu M .REC_RECORD { kshark_ctx with tasks := tasks } stream =
          some ({ kshark_ctx with tasks := tasks1 }, stream) := by
      intro stream
      induction stream with
      | nil => intro tasks; exact ⟨tasks, rfl⟩
      | cons rec rest ih =>
        intro tasks
        obtain ⟨t1, ht1⟩ :=
          kshark_add_task_tasks { kshark_ctx with tasks := tasks } (pevent_data_pid rec)
        obtain ⟨t2, ht2⟩ := ih t1
        refine ⟨t2, ?_⟩
        simp only [get_records_cpu, get_records_node, ht1, ht2]
    intro streams
    induction streams with
    | nil => intro tasks; exact ⟨tasks, rfl⟩
    | cons stream rest ih =>
      intro tasks
      obtain ⟨t1, ht1⟩ := hcpu stream tasks
      obtain ⟨t2, ht2⟩ := ih t1
      refine ⟨t2, ?_⟩
      simp only [get_records_cpus, ht1, ht2, total_records_cons]
  obtain ⟨t1, ht1⟩ := hrec handle.cpus kshark_ctx.tasks
  have hget : get_records M kshark_ctx .REC_RECORD =
      get_records_cpus M .REC_RECORD kshark_ctx handle.cpus := by
    unfold get_records
    rw [hh]
  refine ⟨t1, ?_⟩
  unfold kshark_load_data_records
  rw [hget]
  have ht1b : get_records_cpus M .REC_RECORD kshark_ctx handle.cpus =
      some ({ kshark_ctx with tasks := t1 }, total_records handle.cpus, handle.cpus) := ht1
  rw [ht1b]

/-- C4: whatever the time stamps, the array produced by `kshark_load_data_entries`
has as many rows as the file holds records, every row is written, the rows are the
entries of the records of all CPUs, each exactly once, and the entries of each CPU
keep the order of that CPU's list; the same holds for the merge loop on any array of
per-CPU lists, which it leaves empty; and `pick_next_cpu` does not return -1 (it
returns a non-negative number) while a list is not empty. -/
theorem kshark_load_data_entries_keeps_every_record (M : kshark_filter_masks)
    (kshark_ctx : kshark_context) (handle : tracecmd_input) (adv_filter : event_filter)
    (hh : kshark_ctx.handle = some handle)
    (ha : kshark_ctx.advanced_event_filter = some adv_filter) :
    (∃ tasks1 es,
      kshark_load_data_entries M kshark_ctx =
        some ({ kshark_ctx with tasks := tasks1 }, total_records handle.cpus,
          es.map some) ∧
      (es.map some).length = total_records handle.cpus ∧
      es.Perm (handle.cpus.map
        (List.map (get_records_entry M kshark_ctx adv_filter))).flatten ∧
      ∀ stream ∈ handle.cpus,
        (stream.map (get_records_entry M kshark_ctx adv_filter)).Sublist es) ∧
    (∀ (type : rec_type) (rec_list : List (List (rec_node type))),
      ∃ es, (merge_loop type (total_records rec_list) rec_list).1 = es.map some ∧
        es.length = total_records rec_list ∧
        es.Perm rec_list.flatten ∧
        (∀ l ∈ rec_list, l.Sublist es) ∧
        ∀ l ∈ (merge_loop type (total_records rec_list) rec_list).2, l = []) ∧
    (∀ (type : rec_type) (rec_list : List (List (rec_node type))),
      (∃ l ∈ rec_list, l ≠ []) →
        0 ≤ pick_next_cpu type rec_list ∧ pick_next_cpu type rec_list ≠ -1) := by
  have hlen : ∀ {α : Type} (lists : List (List α)) (es : List α),
      es.Perm lists.flatten → es.length = total_records lists := by
    intro α lists es hp
    rw [hp.length_eq, List.length_flatten]
    rfl
  have hsub : ∀ {α : Type} (lists : List (List α)) (es : List α),
      (∀ i, (lists.getD i []).Sublist es) → ∀ l ∈ lists, l.Sublist es := by
    intro α lists es h l hl
    obtain ⟨i, hi⟩ := List.mem_iff_getElem?.1 hl
    have := h i
    rw [List.getD_eq_getElem?_getD, hi] at this
    exact this
  refine ⟨?_, ?_, ?_⟩
  · obtain ⟨t1, hload⟩ := kshark_load_data_entries_eq M kshark_ctx handle adv_filter hh ha
    obtain ⟨es, e1, e2, e3, _⟩ := merge_loop_spec .REC_ENTRY (total_records handle.cpus)
      (handle.cpus.map (List.map (get_records_entry M kshark_ctx adv_filter)))
      (total_records_map _ _)
    refine ⟨t1, es, ?_, ?_, e2, ?_⟩
    · rw [hload, e1]
    · rw [List.length_map, hlen _ es e2, total_records_map]
    · intro stream hs
      exact hsub _ es e3 _ (List.mem_map_of_mem _ hs)
  · intro type rec_list
    obtain ⟨es, e1, e2, e3, e4⟩ :=
      merge_loop_spec type (total_records rec_list) rec_list rfl
    exact ⟨es, e1, hlen _ es e2, e2, hsub _ es e3, e4⟩
  · intro type rec_list h
    have h0 := pick_next_cpu_nonneg type rec_list h
    exact ⟨h0, by omega⟩

/-- Witness for C4: a file with the streams 10, 30, 50 (CPU 0) and 20, 40 (CPU 1). -/
theorem kshark_load_data_entries_keeps_every_record_witness :
    ∃ tasks1 es,
      kshark_load_data_entries ks_masks (open_session interleaved_cpus) =
        some ({ open_session interleaved_cpus with tasks := tasks1 },
          total_records interleaved_cpus, es.map some) ∧
      (es.map some).length = total_records interleaved_cpus ∧
      es.Perm (interleaved_cpus.map (List.map
        (get_records_entry ks_masks (open_session interleaved_cpus)
          adv_filter_unset))).flatten ∧
      ∀ stream ∈ interleaved_cpus,
        (stream.map (get_records_entry ks_masks (open_session interleaved_cpus)
          adv_filter_unset)).Sublist es :=
  (kshark_load_data_entries_keeps_every_record ks_masks (open_session interleaved_cpus)
    { pevent := { nr_events := 0 }, cpus := interleaved_cpus } adv_filter_unset rfl rfl).1

/-- C2 (failing input): with head time stamps 0 on CPU 0 and 5 on CPU 1 the smallest
head is on CPU 0, and `pick_next_cpu` returns 1; with head time stamps 0 on both CPUs
it returns 1, the highest CPU of the tie, not the lowest. Same for both node types. -/
theorem pick_next_cpu_zero_ts_not_minimum :
    pick_next_cpu .REC_ENTRY
        [[kshark_set_entry_values (mk_record 0 0 1 1)],
          [kshark_set_entry_values (mk_record 1 5 1 1)]] = 1 ∧
    pick_next_cpu .REC_ENTRY
        [[kshark_set_entry_values (mk_record 0 0 1 1)],
          [kshark_set_entry_values (mk_record 1 0 1 1)]] = 1 ∧
    pick_next_cpu .REC_RECORD [[mk_record 0 0 1 1], [mk_record 1 5 1 1]] = 1 ∧
    pick_next_cpu .REC_RECORD [[mk_record 0 0 1 1], [mk_record 1 0 1 1]] = 1 := by
  decide

/-- C1 (failing input): CPU 0 holds one record at time 0 and CPU 1 one record at time
5 (each list is non-decreasing); `kshark_load_data_entries` returns 2 rows, the row of
time 5 first and the row of time 0 second, so the time stamps decrease. -/
theorem kshark_load_data_entries_zero_ts_not_sorted :
    (kshark_load_data_entries ks_masks
        (open_session [[mk_record 0 0 1 1], [mk_record 1 5 1 1]])).map
      (fun out => (out.2.1, rows_ts_cpu out.2.2)) =
    some (2, [some (5, 1), some (0, 0)]) := by
  decide

/-- C3 (failing input): CPU 0 and CPU 1 each hold one record at time 0; both
`kshark_load_data_entries` and `kshark_load_data_records` output the record of CPU 1
first and the record of CPU 0 second. With both records at time 100 instead, the
order is CPU 0 then CPU 1. -/
theorem kshark_load_data_zero_ts_tie_order :
    (kshark_load_data_entries ks_masks
        (open_session [[mk_record 0 0 1 1], [mk_record 1 0 1 1]])).map
      (fun out => rows_ts_cpu out.2.2) = some [some (0, 1), some (0, 0)] ∧
    (kshark_load_data_records ks_masks
        (open_session [[mk_record 0 0 1 1], [mk_record 1 0 1 1]])).map
      (fun out => records_ts_cpu out.2.2) = some [some (0, 1), some (0, 0)] ∧
    (kshark_load_data_entries ks_masks
        (open_session [[mk_record 0 100 1 1], [mk_record 1 100 1 1]])).map
      (fun out => rows_ts_cpu out.2.2) = some [some (100, 0), some (100, 1)] ∧
    (kshark_load_data_records ks_masks
        (open_session [[mk_record 0 100 1 1], [mk_record 1 100 1 1]])).map
      (fun out => records_ts_cpu out.2.2) = some [some (100, 0), some (100, 1)] := by
  decide

/-- C5: for an open file whose CPU 0 holds records at times 10, 30, 50 and whose
CPU 1 holds records at times 20, 40, whatever the filters of the session,
`kshark_load_data_entries` returns 5 and the rows are the entries of these records in
the order 10, 20, 30, 40, 50, with CPU ids 0, 1, 0, 1, 0. -/
theorem kshark_load_data_entries_two_cpus_interleaved (M : kshark_filter_masks)
    (kshark_ctx : kshark_context) (handle : tracecmd_input) (adv_filter : event_filter)
    (a b c d e : pevent_record)
    (hh : kshark_ctx.handle = some handle)
    (hf : kshark_ctx.advanced_event_filter = some adv_filter)
    (hcpus : handle.cpus = [[a, b, c], [d, e]])
    (ha : a.ts = 10 ∧ a.cpu = 0) (hb : b.ts = 30 ∧ b.cpu = 0) (hc : c.ts = 50 ∧ c.cpu = 0)
    (hd : d.ts = 20 ∧ d.cpu = 1) (he : e.ts = 40 ∧ e.cpu = 1) :
    ∃ tasks1, kshark_load_data_entries M kshark_ctx =
      some ({ kshark_ctx with tasks := tasks1 }, 5,
        [some (get_records_entry M kshark_ctx adv_filter a),
          some (get_records_entry M kshark_ctx adv_filter d),
          some (get_records_entry M kshark_ctx adv_filter b),
          some (get_records_entry M kshark_ctx adv_filter e),
          some (get_records_entry M kshark_ctx adv_filter c)]) ∧
      rows_ts_cpu
        [some (get_records_entry M kshark_ctx adv_filter a),
          some (get_records_entry M kshark_ctx adv_filter d),
          some (get_records_entry M kshark_ctx adv_filter b),
          some (get_records_entry M kshark_ctx adv_filter e),
          some (get_records_entry M kshark_ctx adv_filter c)] =
        [some (10, 0), some (20, 1), some (30, 0), some (40, 1), some (50, 0)] := by
  obtain ⟨t1, hload⟩ := kshark_load_data_entries_eq M kshark_ctx handle adv_filter hh hf
  have ta := (get_records_entry_fields M kshark_ctx adv_filter a)
  have tb := (get_records_entry_fields M kshark_ctx adv_filter b)
  have tc := (get_records_entry_fields M kshark_ctx adv_filter c)
  have td := (get_records_entry_fields M kshark_ctx adv_filter d)
  have te := (get_records_entry_fields M kshark_ctx adv_filter e)
  refine ⟨t1, ?_, ?_⟩
  · rw [hload, hcpus]
    simp [total_records, merge_loop, pick_next_cpu, pick_next_cpu_from, rec_ts,
      ta.1, tb.1, tc.1, td.1, te.1, ha.1, hb.1, hc.1, hd.1, he.1]
  · simp [rows_ts_cpu, ta.1, tb.1, tc.1, td.1, te.1, ta.2.1, tb.2.1, tc.2.1, td.2.1,
      te.2.1, ha, hb, hc, hd, he]

/-- Witness for C5: the session `open_session` on that file. -/
theorem kshark_load_data_entries_two_cpus_interleaved_witness :
    ∃ tasks1, kshark_load_data_entries ks_masks (open_session interleaved_cpus) =
      some ({ open_session interleaved_cpus with tasks := tasks1 }, 5,
        [some (get_records_entry ks_masks (open_session interleaved_cpus)
            adv_filter_unset (mk_record 0 10 1 1)),
          some (get_records_entry ks_masks (open_session interleaved_cpus)
            adv_filter_unset (mk_record 1 20 1 1)),
          some (get_records_entry ks_masks (open_session interleaved_cpus)
            adv_filter_unset (mk_record 0 30 1 1)),
          some (get_records_entry ks_masks (open_session interleaved_cpus)
            adv_filter_unset (mk_record 1 40 1 1)),
          some (get_records_entry ks_masks (open_session interleaved_cpus)
            adv_filter_unset (mk_record 0 50 1 1))]) :=
  (kshark_load_data_entries_two_cpus_interleaved ks_masks (open_session interleaved_cpus)
    { pevent := { nr_events := 0 }, cpus := interleaved_cpus } adv_filter_unset
    (mk_record 0 10 1 1) (mk_record 0 30 1 1) (mk_record 0 50 1 1)
    (mk_record 1 20 1 1) (mk_record 1 40 1 1)
    rfl rfl rfl ⟨rfl, rfl⟩ ⟨rfl, rfl⟩ ⟨rfl, rfl⟩ ⟨rfl, rfl⟩ ⟨rfl, rfl⟩).imp
    (fun _ h => h.1)

/-! ## Bits of the visibility byte -/

/-- Bit `i` of `x & ~y`. -/
theorem testBit_and_not (x y i : Nat) :
    (and_not x y).testBit i = (x.testBit i && !y.testBit i) := by
  unfold and_not
  rw [Nat.testBit_xor, Nat.testBit_land]
  cases x.testBit i <;> cases y.testBit i <;> rfl

/-- No bit of `y` is left in `x & ~y`. -/
theorem and_not_land_self (x y : Nat) : and_not x y &&& y = 0 := by
  apply Nat.eq_of_testBit_eq
  intro i
  rw [Nat.testBit_land, testBit_and_not, Nat.zero_testBit]
  cases x.testBit i <;> cases y.testBit i <;> rfl

/-- Clearing more bits keeps a cleared mask cleared. -/
theorem and_not_land_of_land (x y m : Nat) (h : x &&& m = 0) : and_not x y &&& m = 0 := by
  apply Nat.eq_of_testBit_eq
  intro i
  have hi := congrArg (fun n => n.testBit i) h
  simp only [Nat.testBit_land, Nat.zero_testBit] at hi
  rw [Nat.testBit_land, testBit_and_not, Nat.zero_testBit]
  cases hx : x.testBit i <;> cases hm : m.testBit i <;> simp_all

/-- The event-view bits are cleared by `x & ~(m | event)`. -/
theorem and_not_lor_land (x m ev : Nat) : and_not x (m ||| ev) &&& ev = 0 := by
  apply Nat.eq_of_testBit_eq
  intro i
  rw [Nat.testBit_land, testBit_and_not, Nat.testBit_lor, Nat.zero_testBit]
  cases x.testBit i <;> cases m.testBit i <;> cases ev.testBit i <;> rfl

/-- The graph-view bits survive `0xFF & ~((mask & ~graph) | event)` when they lie in
the byte and are no event-view bits. -/
theorem graph_bits_kept (mask g ev : Nat) (hg : g &&& 0xFF = g) (hge : g &&& ev = 0) :
    and_not 0xFF (and_not mask g ||| ev) &&& g = g := by
  apply Nat.eq_of_testBit_eq
  intro i
  have h1 := congrArg (fun n => n.testBit i) hg
  have h2 := congrArg (fun n => n.testBit i) hge
  simp only [Nat.testBit_land, Nat.zero_testBit] at h1 h2
  rw [Nat.testBit_land, testBit_and_not, Nat.testBit_lor, testBit_and_not]
  cases hx : g.testBit i <;> cases hm : mask.testBit i <;> cases he : ev.testBit i <;>
    cases hf : (0xFF : Nat).testBit i <;> simp_all

/-- Bits of `g` that are not bits of `y` survive `x & ~y`. -/
theorem and_not_land_kept (x y g : Nat) (hx : x &&& g = g) (hy : y &&& g = 0) :
    and_not x y &&& g = g := by
  apply Nat.eq_of_testBit_eq
  intro i
  have h1 := congrArg (fun n => n.testBit i) hx
  have h2 := congrArg (fun n => n.testBit i) hy
  simp only [Nat.testBit_land, Nat.zero_testBit] at h1 h2
  rw [Nat.testBit_land, testBit_and_not]
  cases hg : g.testBit i <;> cases hxx : x.testBit i <;> cases hyy : y.testBit i <;>
    simp_all

/-! ## Properties of the id filters -/

/-- A show filter accepts an id exactly when it is empty (or absent) or holds the id. -/
theorem filter_find_show_iff (filter : Option tracecmd_filter_id) (id : Int) :
    filter_find filter id true = true ↔ (id_set filter = [] ∨ id ∈ id_set filter) := by
  cases filter with
  | none => simp [filter_find, id_set]
  | some f =>
    cases hf : f.ids with
    | nil => simp [filter_find, id_set, tracecmd_filter_id.count, hf]
    | cons a l =>
      simp [filter_find, id_set, tracecmd_filter_id.count, tracecmd_filter_id_find, hf]

/-- A hide filter accepts an id exactly when it does not hold the id. -/
theorem filter_find_hide_iff (filter : Option tracecmd_filter_id) (id : Int) :
    filter_find filter id false = true ↔ id ∉ id_set filter := by
  cases filter with
  | none => simp [filter_find, id_set]
  | some f =>
    cases hf : f.ids with
    | nil => simp [filter_find, id_set, tracecmd_filter_id.count, hf]
    | cons a l =>
      simp [filter_find, id_set, tracecmd_filter_id.count, tracecmd_filter_id_find, hf]

/-- A filter that is not set accepts every id, as a show set and as a hide set. -/
theorem filter_find_of_not_set (filter : Option tracecmd_filter_id) (id : Int)
    (test : Bool) (h : ¬ filter_is_set filter = true) :
    filter_find filter id test = true := by
  cases filter with
  | none => rfl
  | some g =>
    have hc : g.count = 0 := by simpa [filter_is_set] using h
    simp [filter_find, hc]

/-- C8: `kshark_show_task` is true exactly when the show-task set is empty or holds
the pid, and the hide-task set does not hold it; `kshark_show_event` likewise with the
two event sets. -/
theorem kshark_show_task_event_iff (kshark_ctx : kshark_context) (pid id : Int) :
    (kshark_show_task kshark_ctx pid = true ↔
      ((id_set kshark_ctx.show_task_filter = [] ∨ pid ∈ id_set kshark_ctx.show_task_filter) ∧
        pid ∉ id_set kshark_ctx.hide_task_filter)) ∧
    (kshark_show_event kshark_ctx id = true ↔
      ((id_set kshark_ctx.show_event_filter = [] ∨ id ∈ id_set kshark_ctx.show_event_filter) ∧
        id ∉ id_set kshark_ctx.hide_event_filter)) := by
  unfold kshark_show_task kshark_show_event
  simp only [Bool.and_eq_true, filter_find_show_iff, filter_find_hide_iff, and_self]

/-- C9: `filter_find` returns true for every id and both values of `test` when the
filter is absent or its count is zero. -/
theorem filter_find_empty_accepts (filter : Option tracecmd_filter_id) (id : Int)
    (test : Bool) (h : ∀ f, filter = some f → f.count = 0) :
    filter_find filter id test = true := by
  cases filter with
  | none => rfl
  | some f => simp [filter_find, h f rfl]

/-- Witness for C9: an allocated filter with no id, asked for id 42 as a hide set. -/
theorem filter_find_empty_accepts_witness :
    filter_find (some { ids := [] }) 42 false = true :=
  filter_find_empty_accepts (some { ids := [] }) 42 false (by
    intro f hf
    cases hf
    rfl)

/-! ## Visibility after filtering -/

/-- The loop body of `kshark_filter_entries` keeps every field but `visible`, which
it computes from 0xFF and the two verdicts. -/
theorem kshark_filter_entry_eq (M : kshark_filter_masks) (kshark_ctx : kshark_context)
    (e : kshark_entry) :
    kshark_filter_entry M kshark_ctx e =
      { e with visible :=
          if kshark_show_task kshark_ctx e.pid then
            (if kshark_show_event kshark_ctx e.event_id then 0xFF
              else and_not 0xFF (and_not kshark_ctx.filter_mask M.KS_GRAPH_VIEW_FILTER_MASK |||
                M.KS_EVENT_VIEW_FILTER_MASK))
          else
            and_not (if kshark_show_event kshark_ctx e.event_id then 0xFF
              else and_not 0xFF (and_not kshark_ctx.filter_mask M.KS_GRAPH_VIEW_FILTER_MASK |||
                M.KS_EVENT_VIEW_FILTER_MASK)) kshark_ctx.filter_mask } := by
  unfold kshark_filter_entry unset_event_filter_flag
  cases h1 : kshark_show_event kshark_ctx e.event_id <;>
    cases h2 : kshark_show_task kshark_ctx e.pid <;> simp [h1, h2]

/-- The `REC_ENTRY` case of `get_records` computes `visible` from 0xFF, the verdicts of
the id filters and the verdict of the advanced filter. -/
theorem get_records_entry_visible (M : kshark_filter_masks) (kshark_ctx : kshark_context)
    (adv_filter : event_filter) (rec : pevent_record) :
    (get_records_entry M kshark_ctx adv_filter rec).visible =
      if kshark_show_task kshark_ctx rec.common_pid then
        (if (kshark_show_event kshark_ctx rec.common_type &&
              (if adv_filter.filters ≠ 0 then adv_filter.pevent_filter_match rec
                else filter_ret.FILTER_NONE) == filter_ret.FILTER_MATCH) then 0xFF
          else and_not 0xFF (and_not kshark_ctx.filter_mask M.KS_GRAPH_VIEW_FILTER_MASK |||
            M.KS_EVENT_VIEW_FILTER_MASK))
      else
        and_not (if (kshark_show_event kshark_ctx rec.common_type &&
              (if adv_filter.filters ≠ 0 then adv_filter.pevent_filter_match rec
                else filter_ret.FILTER_NONE) == filter_ret.FILTER_MATCH) then 0xFF
          else and_not 0xFF (and_not kshark_ctx.filter_mask M.KS_GRAPH_VIEW_FILTER_MASK |||
            M.KS_EVENT_VIEW_FILTER_MASK)) kshark_ctx.filter_mask := by
  unfold get_records_entry unset_event_filter_flag kshark_set_entry_values
    pevent_data_type pevent_data_pid
  cases h1 : kshark_show_event kshark_ctx rec.common_type <;>
    cases h2 : kshark_show_task kshark_ctx rec.common_pid <;>
    cases h3 : (if adv_filter.filters ≠ 0 then adv_filter.pevent_filter_match rec
      else filter_ret.FILTER_NONE) <;> simp [h1, h2, h3]

/-- With no advanced filter installed, `get_records` clears the event-view bits of
every entry, whatever the id filters and `filter_mask` are. -/
theorem get_records_entry_event_bit_no_adv (M : kshark_filter_masks)
    (kshark_ctx : kshark_context) (adv_filter : event_filter) (rec : pevent_record)
    (h : adv_filter.filters = 0) :
    (get_records_entry M kshark_ctx adv_filter rec).visible &&&
      M.KS_EVENT_VIEW_FILTER_MASK = 0 := by
  rw [get_records_entry_visible]
  simp only [h, ne_eq, not_true_eq_false, if_false]
  have hne : (filter_ret.FILTER_NONE == filter_ret.FILTER_MATCH) = false := by decide
  simp only [hne, Bool.and_false, Bool.false_eq_true, if_false]
  split
  · exact and_not_lor_land _ _ _
  · exact and_not_land_of_land _ _ _ (and_not_lor_land _ _ _)

/-- C7 (failing input): a file with one record, the four id sets empty and no
advanced filter installed; the entry returned by `kshark_load_data_entries` has
`visible` 0xFB with `filter_mask` 0, 0xFA with `filter_mask` 7 and 0x02 with
`filter_mask` 0xFF, never 0xFF. -/
theorem kshark_load_data_entries_no_filter_not_visible_everywhere :
    visible_load_with_filter ks_masks (open_session [[mk_record 0 100 5 1]]) [] [] [] [] =
      some [0xFB] ∧
    visible_load_with_filter ks_masks
      { open_session [[mk_record 0 100 5 1]] with filter_mask := 7 } [] [] [] [] =
      some [0xFA] ∧
    visible_load_with_filter ks_masks
      { open_session [[mk_record 0 100 5 1]] with filter_mask := 0xFF } [] [] [] [] =
      some [0x02] := by
  decide

/-- C6 (failing input): a file with one record of pid 1, no advanced filter, and the
filter F = show-task set {1}. Loading, installing F and calling
`kshark_filter_entries` gives `visible` 0xFF; loading with F installed gives 0xFB. -/
theorem kshark_filter_entries_differs_from_reload :
    visible_load_then_filter ks_masks (open_session [[mk_record 0 100 5 1]]) [1] [] [] [] =
      some [0xFF] ∧
    visible_load_with_filter ks_masks (open_session [[mk_record 0 100 5 1]]) [1] [] [] [] =
      some [0xFB] := by
  decide

/-- The rows of `kshark_load_data_entries` on an open file are all written, and each
is the entry `get_records` builds for some record of the file. -/
theorem kshark_load_data_entries_rows (M : kshark_filter_masks)
    (kshark_ctx : kshark_context) (handle : tracecmd_input) (adv_filter : event_filter)
    (hh : kshark_ctx.handle = some handle)
    (ha : kshark_ctx.advanced_event_filter = some adv_filter) :
    ∃ (tasks1 : Nat → List Int) (es : List kshark_entry),
      kshark_load_data_entries M kshark_ctx =
        some ({ kshark_ctx with tasks := tasks1 }, total_records handle.cpus,
          es.map some) ∧
      ∀ e ∈ es, ∃ rec, e = get_records_entry M kshark_ctx adv_filter rec := by
  obtain ⟨t1, hload⟩ := kshark_load_data_entries_eq M kshark_ctx handle adv_filter hh ha
  obtain ⟨es, e1, e2, _, _⟩ := merge_loop_spec .REC_ENTRY (total_records handle.cpus)
    (handle.cpus.map (List.map (get_records_entry M kshark_ctx adv_filter)))
    (total_records_map _ _)
  refine ⟨t1, es, ?_, ?_⟩
  · rw [hload, e1]
  · intro e he
    have hmem := e2.subset he
    rw [List.mem_flatten] at hmem
    obtain ⟨l, hl, hel⟩ := hmem
    rw [List.mem_map] at hl
    obtain ⟨stream, _, hs⟩ := hl
    rw [← hs, List.mem_map] at hel
    obtain ⟨rec, _, hr⟩ := hel
    exact ⟨rec, hr.symm⟩

/-- C10 (counterexample): with hide-event set {7}, hide-task set {3} and
`filter_mask` equal to the graph-view bit, the event id 7 is rejected, and the entry of
event 7 and pid 3 ends with `visible` 0xF9 by both paths: the graph-view bit (2) is
cleared, not set. -/
theorem event_filtered_graph_bit_cleared :
    kshark_show_event
      (set_id_filters { open_session [[mk_record 0 100 7 3]] with filter_mask := 2 }
        [] [3] [] [7]) 7 = false ∧
    visible_load_with_filter ks_masks
      { open_session [[mk_record 0 100 7 3]] with filter_mask := 2 } [] [3] [] [7] =
      some [0xF9] ∧
    visible_load_then_filter ks_masks
      { open_session [[mk_record 0 100 7 3]] with filter_mask := 2 } [] [3] [] [7] =
      some [0xF9] ∧
    0xF9 &&& ks_masks.KS_GRAPH_VIEW_FILTER_MASK = 0 := by
  decide

/-- The bits of `visible` computed for an entry rejected by the event filters. -/
theorem event_rejected_bits (M : kshark_filter_masks) (mask : Nat) (task : Bool)
    (hg : M.KS_GRAPH_VIEW_FILTER_MASK &&& 0xFF = M.KS_GRAPH_VIEW_FILTER_MASK)
    (hge : M.KS_GRAPH_VIEW_FILTER_MASK &&& M.KS_EVENT_VIEW_FILTER_MASK = 0) :
    (if task then
        and_not 0xFF (and_not mask M.KS_GRAPH_VIEW_FILTER_MASK ||| M.KS_EVENT_VIEW_FILTER_MASK)
      else and_not (and_not 0xFF
        (and_not mask M.KS_GRAPH_VIEW_FILTER_MASK ||| M.KS_EVENT_VIEW_FILTER_MASK)) mask) &&&
        M.KS_EVENT_VIEW_FILTER_MASK = 0 ∧
    ((task = true ∨ mask &&& M.KS_GRAPH_VIEW_FILTER_MASK = 0) →
      (if task then
        and_not 0xFF (and_not mask M.KS_GRAPH_VIEW_FILTER_MASK ||| M.KS_EVENT_VIEW_FILTER_MASK)
      else and_not (and_not 0xFF
        (and_not mask M.KS_GRAPH_VIEW_FILTER_MASK ||| M.KS_EVENT_VIEW_FILTER_MASK)) mask) &&&
        M.KS_GRAPH_VIEW_FILTER_MASK = M.KS_GRAPH_VIEW_FILTER_MASK) := by
  cases task with
  | true =>
    simp only [if_true]
    exact ⟨and_not_lor_land _ _ _, fun _ => graph_bits_kept _ _ _ hg hge⟩
  | false =>
    simp only [Bool.false_eq_true, if_false, false_or]
    refine ⟨and_not_land_of_land _ _ _ (and_not_lor_land _ _ _), fun h => ?_⟩
    exact and_not_land_kept _ _ _ (graph_bits_kept _ _ _ hg hge) h

/-- C10 (amended): let graph-view be bits of the byte that are no event-view bits.
For every `filter_mask` and every entry whose event id is rejected by the event
id-set filters, after `kshark_filter_entries` (no advanced filter installed) and after
`get_records` for `kshark_load_data_entries`, the event-view bit of `visible` is
cleared, and the graph-view bit is set when the pid of the entry is not rejected by
the task id-set filters or `filter_mask` has no graph-view bit. -/
theorem event_filtered_entry_bits (M : kshark_filter_masks) (kshark_ctx : kshark_context)
    (adv_filter : event_filter)
    (ha : kshark_ctx.advanced_event_filter = some adv_filter)
    (hg : M.KS_GRAPH_VIEW_FILTER_MASK &&& 0xFF = M.KS_GRAPH_VIEW_FILTER_MASK)
    (hge : M.KS_GRAPH_VIEW_FILTER_MASK &&& M.KS_EVENT_VIEW_FILTER_MASK = 0) :
    (adv_filter.filters = 0 → ∀ data : List kshark_entry,
      ∃ out, kshark_filter_entries M kshark_ctx data = some out ∧
        out.length = data.length ∧
        ∀ e ∈ out, kshark_show_event kshark_ctx e.event_id = false →
          e.visible &&& M.KS_EVENT_VIEW_FILTER_MASK = 0 ∧
          ((kshark_show_task kshark_ctx e.pid = true ∨
              kshark_ctx.filter_mask &&& M.KS_GRAPH_VIEW_FILTER_MASK = 0) →
            e.visible &&& M.KS_GRAPH_VIEW_FILTER_MASK = M.KS_GRAPH_VIEW_FILTER_MASK)) ∧
    (∀ handle, kshark_ctx.handle = some handle →
      ∃ (tasks1 : Nat → List Int) (es : List kshark_entry),
        kshark_load_data_entries M kshark_ctx =
          some ({ kshark_ctx with tasks := tasks1 }, total_records handle.cpus,
            es.map some) ∧
        ∀ e ∈ es, kshark_show_event kshark_ctx e.event_id = false →
          e.visible &&& M.KS_EVENT_VIEW_FILTER_MASK = 0 ∧
          ((kshark_show_task kshark_ctx e.pid = true ∨
              kshark_ctx.filter_mask &&& M.KS_GRAPH_VIEW_FILTER_MASK = 0) →
            e.visible &&& M.KS_GRAPH_VIEW_FILTER_MASK = M.KS_GRAPH_VIEW_FILTER_MASK)) := by
  constructor
  · intro hadv data
    by_cases hset : kshark_filter_is_set kshark_ctx = true
    · refine ⟨data.map (kshark_filter_entry M kshark_ctx), ?_, by simp, ?_⟩
      · simp [kshark_filter_entries, ha, hadv, hset]
      · intro e he hev
        rw [List.mem_map] at he
        obtain ⟨e0, _, rfl⟩ := he
        rw [kshark_filter_entry_eq] at hev ⊢
        simp only at hev ⊢
        have hb := event_rejected_bits M kshark_ctx.filter_mask
          (kshark_show_task kshark_ctx e0.pid) hg hge
        simpa [hev] using hb
    · refine ⟨data, ?_, rfl, ?_⟩
      · simp [kshark_filter_entries, ha, hadv, hset]
      · intro e _ hev
        exfalso
        have hshow : kshark_show_event kshark_ctx e.event_id = true := by
          simp only [kshark_filter_is_set, Bool.or_eq_true, not_or] at hset
          obtain ⟨⟨⟨_, _⟩, h3⟩, h4⟩ := hset
          have hf : ∀ (f : Option tracecmd_filter_id) (t : Bool),
              ¬ filter_is_set f = true → filter_find f e.event_id t = true := by
            intro f t hn
            exact filter_find_of_not_set f e.event_id t hn
          simp [kshark_show_event, hf _ _ h3, hf _ _ h4]
        rw [hshow] at hev
        exact Bool.noConfusion hev
  · intro handle hh
    obtain ⟨t1, es, hload, hes⟩ :=
      kshark_load_data_entries_rows M kshark_ctx handle adv_filter hh ha
    refine ⟨t1, es, hload, ?_⟩
    intro e he hev
    obtain ⟨rec, rfl⟩ := hes e he
    obtain ⟨_, _, _, hid, hpid⟩ := get_records_entry_fields M kshark_ctx adv_filter rec
    rw [hid] at hev
    rw [hpid, get_records_entry_visible]
    have hb := event_rejected_bits M kshark_ctx.filter_mask
      (kshark_show_task kshark_ctx rec.common_pid) hg hge
    simpa [hev] using hb


/-- Witness for C10: hide-event set {7} (the id of sched_wakeup), `filter_mask` 7, and
one entry of event 7 passed to `kshark_filter_entries`. -/
theorem event_filtered_entry_bits_witness :
    ∃ out, kshark_filter_entries ks_masks
        (set_id_filters { open_session [[mk_record 0 100 7 1]] with filter_mask := 7 }
          [] [] [] [7])
        [kshark_set_entry_values (mk_record 0 100 7 1)] = some out ∧
      out.length = [kshark_set_entry_values (mk_record 0 100 7 1)].length ∧
      ∀ e ∈ out, kshark_show_event
          (set_id_filters { open_session [[mk_record 0 100 7 1]] with filter_mask := 7 }
            [] [] [] [7]) e.event_id = false →
        e.visible &&& ks_masks.KS_EVENT_VIEW_FILTER_MASK = 0 ∧
        ((kshark_show_task
            (set_id_filters { open_session [[mk_record 0 100 7 1]] with filter_mask := 7 }
              [] [] [] [7]) e.pid = true ∨
          (set_id_filters { open_session [[mk_record 0 100 7 1]] with filter_mask := 7 }
              [] [] [] [7]).filter_mask &&& ks_masks.KS_GRAPH_VIEW_FILTER_MASK = 0) →
          e.visible &&& ks_masks.KS_GRAPH_VIEW_FILTER_MASK =
            ks_masks.KS_GRAPH_VIEW_FILTER_MASK) :=
  (event_filtered_entry_bits ks_masks
    (set_id_filters { open_session [[mk_record 0 100 7 1]] with filter_mask := 7 }
      [] [] [] [7])
    adv_filter_unset rfl (by decide) (by decide)).1 rfl
    [kshark_set_entry_values (mk_record 0 100 7 1)]

/-! ## The pick and the merge when no time stamp is 0 -/

/-- The loop of `pick_next_cpu` when no head time stamp is 0: either no list is
picked, and then `ts` is a lower bound of the heads (or is still 0 and all lists are
empty); or the list picked has the smallest head time stamp, below `ts`, and every
list before it has a strictly larger head time stamp. -/
theorem pick_next_cpu_from_min (type : rec_type) :
    ∀ (rec_list : List (List (rec_node type))) (cpu ts : Nat) (next_cpu : Int),
      (∀ j r next, rec_list.getD j [] = r :: next → rec_ts type r ≠ 0) →
      (pick_next_cpu_from type rec_list cpu ts next_cpu = next_cpu ∧
        ((ts = 0 ∧ ∀ l ∈ rec_list, l = []) ∨
          (ts ≠ 0 ∧ ∀ j r next, rec_list.getD j [] = r :: next → ts ≤ rec_ts type r))) ∨
      ∃ i r next, rec_list.getD i [] = r :: next ∧ i < rec_list.length ∧
        pick_next_cpu_from type rec_list cpu ts next_cpu = ((cpu + i : Nat) : Int) ∧
        (ts = 0 ∨ rec_ts type r < ts) ∧
        ∀ j r1 next1, rec_list.getD j [] = r1 :: next1 →
          rec_ts type r ≤ rec_ts type r1 ∧ (j < i → rec_ts type r < rec_ts type r1) := by
  intro rec_list
  induction rec_list with
  | nil =>
    intro cpu ts next_cpu _
    left
    refine ⟨rfl, ?_⟩
    by_cases h0 : ts = 0
    · left; exact ⟨h0, by simp⟩
    · right; exact ⟨h0, by intro j r next h; simp at h⟩
  | cons l rest ih =>
    intro cpu ts next_cpu hnz
    have hnz_rest : ∀ j r next, rest.getD j [] = r :: next → rec_ts type r ≠ 0 := by
      intro j r next h
      exact hnz (j + 1) r next (by simpa using h)
    cases l with
    | nil =>
      simp only [pick_next_cpu_from]
      rcases ih (cpu + 1) ts next_cpu hnz_rest with ⟨h1, h2⟩ | ⟨i, r, next, h1, h2, h3, h4, h5⟩
      · left
        refine ⟨h1, ?_⟩
        rcases h2 with ⟨h0, hall⟩ | ⟨h0, hall⟩
        · left
          refine ⟨h0, ?_⟩
          intro l hl
          rcases List.mem_cons.1 hl with h | h
          · exact h
          · exact hall l h
        · right
          refine ⟨h0, ?_⟩
          intro j r next h
          cases j with
          | zero => simp at h
          | succ j => exact hall j r next (by simpa using h)
      · right
        refine ⟨i + 1, r, next, by simpa using h1, by simpa using h2, ?_, h4, ?_⟩
        · rw [h3]; congr 1; omega
        · intro j r1 next1 h
          cases j with
          | zero => simp at h
          | succ j =>
            have := h5 j r1 next1 (by simpa using h)
            exact ⟨this.1, fun hj => this.2 (by omega)⟩
    | cons r next =>
      have hr : rec_ts type r ≠ 0 := hnz 0 r next (by simp)
      simp only [pick_next_cpu_from]
      split
      · rename_i hc
        rcases ih (cpu + 1) (rec_ts type r) (cpu : Int) hnz_rest with
          ⟨h1, h2⟩ | ⟨i, r2, next2, h1, h2, h3, h4, h5⟩
        · right
          have hall : ∀ j r1 next1, rest.getD j [] = r1 :: next1 →
              rec_ts type r ≤ rec_ts type r1 := by
            rcases h2 with ⟨h0, _⟩ | ⟨_, hall⟩
            · exact absurd h0 hr
            · exact hall
          refine ⟨0, r, next, by simp, by simp, by rw [h1]; simp, hc, ?_⟩
          intro j r1 next1 h
          cases j with
          | zero =>
            simp only [List.getD_cons_zero, List.cons.injEq] at h
            rw [h.1]
            exact ⟨le_refl _, fun hj => absurd hj (by omega)⟩
          | succ j =>
            exact ⟨hall j r1 next1 (by simpa using h), fun hj => absurd hj (by omega)⟩
        · right
          have hlt : rec_ts type r2 < rec_ts type r := by
            rcases h4 with h0 | h
            · exact absurd h0 hr
            · exact h
          refine ⟨i + 1, r2, next2, by simpa using h1, by simpa using h2, ?_, ?_, ?_⟩
          · rw [h3]; congr 1; omega
          · rcases hc with h0 | h
            · left; exact h0
            · right; omega
          · intro j r1 next1 h
            cases j with
            | zero =>
              simp only [List.getD_cons_zero, List.cons.injEq] at h
              rw [← h.1]
              exact ⟨by omega, fun _ => hlt⟩
            | succ j =>
              have := h5 j r1 next1 (by simpa using h)
              exact ⟨this.1, fun hj => this.2 (by omega)⟩
      · rename_i hc
        have hts : ts ≠ 0 ∧ ts ≤ rec_ts type r := by
          constructor
          · intro h0; exact hc (Or.inl h0)
          · by_contra hlt; exact hc (Or.inr (by omega))
        rcases ih (cpu + 1) ts next_cpu hnz_rest with
          ⟨h1, h2⟩ | ⟨i, r2, next2, h1, h2, h3, h4, h5⟩
        · left
          refine ⟨h1, Or.inr ⟨hts.1, ?_⟩⟩
          have hall : ∀ j r1 next1, rest.getD j [] = r1 :: next1 → ts ≤ rec_ts type r1 := by
            rcases h2 with ⟨h0, _⟩ | ⟨_, hall⟩
            · exact absurd h0 hts.1
            · exact hall
          intro j r1 next1 h
          cases j with
          | zero =>
            simp only [List.getD_cons_zero, List.cons.injEq] at h
            rw [← h.1]
            exact hts.2
          | succ j => exact hall j r1 next1 (by simpa using h)
        · right
          have hlt : rec_ts type r2 < ts := by
            rcases h4 with h0 | h
            · exact absurd h0 hts.1
            · exact h
          refine ⟨i + 1, r2, next2, by simpa using h1, by simpa using h2, ?_, Or.inr hlt, ?_⟩
          · rw [h3]; congr 1; omega
          · intro j r1 next1 h
            cases j with
            | zero =>
              simp only [List.getD_cons_zero, List.cons.injEq] at h
              rw [← h.1]
              exact ⟨by omega, fun _ => by omega⟩
            | succ j =>
              have := h5 j r1 next1 (by simpa using h)
              exact ⟨this.1, fun hj => this.2 (by omega)⟩

/-- When no head time stamp is 0 and a list is not empty, `pick_next_cpu` returns the
lowest CPU among those whose head has the smallest time stamp. -/
theorem pick_next_cpu_min (type : rec_type) (rec_list : List (List (rec_node type)))
    (hnz : ∀ j r next, rec_list.getD j [] = r :: next → rec_ts type r ≠ 0)
    (hne : ∃ l ∈ rec_list, l ≠ []) :
    ∃ i r next, rec_list.getD i [] = r :: next ∧ i < rec_list.length ∧
      pick_next_cpu type rec_list = (i : Int) ∧
      ∀ j r1 next1, rec_list.getD j [] = r1 :: next1 →
        rec_ts type r ≤ rec_ts type r1 ∧ (j < i → rec_ts type r < rec_ts type r1) := by
  unfold pick_next_cpu
  rcases pick_next_cpu_from_min type rec_list 0 0 (-1) hnz with
    ⟨_, h2⟩ | ⟨i, r, next, h1, h2, h3, _, h5⟩
  · exfalso
    obtain ⟨l, hl, hlne⟩ := hne
    rcases h2 with ⟨_, hall⟩ | ⟨h0, _⟩
    · exact hlne (hall l hl)
    · exact h0 rfl
  · exact ⟨i, r, next, h1, h2, by rw [h3]; simp, h5⟩

/-- The merge loop when no time stamp is 0 and every per-CPU list is non-decreasing:
the rows are non-decreasing in time, and, when the nodes of list `j` carry the CPU
number `j` (`tagged`), rows with equal time stamps are ordered by CPU number. The
lists are read by index. -/
theorem merge_loop_sorted_index (type : rec_type) (tagged : Prop) :
    ∀ (total : Nat) (rec_list : List (List (rec_node type))),
      total_records rec_list = total →
      (∀ j, (rec_list.getD j []).Pairwise (fun a b => rec_ts type a ≤ rec_ts type b)) →
      (∀ j, ∀ x ∈ rec_list.getD j [], rec_ts type x ≠ 0) →
      (tagged → ∀ j, ∀ x ∈ rec_list.getD j [], rec_cpu type x = (j : Int)) →
      ∀ es : List (rec_node type), (merge_loop type total rec_list).1 = es.map some →
        es.Pairwise (fun a b => rec_ts type a ≤ rec_ts type b ∧
          (tagged → rec_ts type a = rec_ts type b → rec_cpu type a ≤ rec_cpu type b)) := by
  intro total
  induction total with
  | zero =>
    intro rec_list _ _ _ _ es hes
    cases es with
    | nil => exact List.Pairwise.nil
    | cons a l => simp [merge_loop] at hes
  | succ n ih =>
    intro rec_list htot h1 h2 h3 es hes
    have hne := total_records_pos rec_list (by omega)
    obtain ⟨i, r, next, hi, hlen, hpick, hmin⟩ :=
      pick_next_cpu_min type rec_list
        (fun j r next h => h2 j r (by rw [h]; simp)) hne
    obtain ⟨r0, next0, hc, _, hstep⟩ := merge_loop_succ type n rec_list hne
    have htoNat : (pick_next_cpu type rec_list).toNat = i := by rw [hpick]; simp
    rw [htoNat] at hc hstep
    rw [hi] at hc
    obtain ⟨hr, hnext⟩ := List.cons.inj hc
    subst hr hnext
    have hset := total_records_set rec_list i r next hi
    have hget : ∀ j, (rec_list.set i next).getD j [] =
        if j = i then next else rec_list.getD j [] :=
      fun j => getD_set_lists rec_list i j next hlen
    have hsub : ∀ j, ∀ x ∈ (rec_list.set i next).getD j [], x ∈ rec_list.getD j [] := by
      intro j x hx
      rw [hget] at hx
      split at hx
      · rename_i hji
        rw [hji, hi]
        exact List.mem_cons_of_mem _ hx
      · exact hx
    obtain ⟨es1, e1, e2, _, _⟩ := merge_loop_spec type n (rec_list.set i next) (by omega)
    rw [hstep, e1] at hes
    cases es with
    | nil => simp at hes
    | cons a es2 =>
      simp only [List.map_cons, List.cons.injEq, Option.some.injEq] at hes
      obtain ⟨ha, hes2⟩ := hes
      have hes_eq : es1 = es2 :=
        List.map_injective_iff.2 (Option.some_injective _) hes2
      subst ha hes_eq
      rw [List.pairwise_cons]
      constructor
      · intro x hx
        have hxm := e2.subset hx
        rw [List.mem_flatten] at hxm
        obtain ⟨l, hl, hxl⟩ := hxm
        obtain ⟨j, hj⟩ := List.mem_iff_getElem?.1 hl
        have hlj : (rec_list.set i next).getD j [] = l := by
          rw [List.getD_eq_getElem?_getD, hj]; rfl
        rw [← hlj, hget] at hxl
        by_cases hji : j = i
        · rw [if_pos hji] at hxl
          have hp := h1 i
          rw [hi, List.pairwise_cons] at hp
          refine ⟨hp.1 x hxl, fun ht _ => ?_⟩
          have ca := h3 ht i r (by rw [hi]; simp)
          have cx := h3 ht i x (by rw [hi]; exact List.mem_cons_of_mem _ hxl)
          rw [ca, cx]
        · rw [if_neg hji] at hxl
          cases hl0 : rec_list.getD j [] with
          | nil => rw [hl0] at hxl; simp at hxl
          | cons hd tl =>
            have hm := hmin j hd tl hl0
            have hp := h1 j
            rw [hl0, List.pairwise_cons] at hp
            rw [hl0] at hxl
            have hhx : rec_ts type hd ≤ rec_ts type x := by
              rcases List.mem_cons.1 hxl with h | h
              · rw [h]
              · exact hp.1 x h
            refine ⟨le_trans hm.1 hhx, fun ht heq => ?_⟩
            have ca := h3 ht i r (by rw [hi]; simp)
            have cx := h3 ht j x (by rw [hl0]; exact hxl)
            rw [ca, cx]
            have : ¬ j < i := by
              intro hlt
              have := hm.2 hlt
              omega
            omega
      · apply ih (rec_list.set i next) (by omega) _ _ _ es1 e1
        · intro j
          rw [hget]
          split
          · have hp := h1 i
            rw [hi, List.pairwise_cons] at hp
            exact hp.2
          · exact h1 j
        · intro j x hx
          exact h2 j x (hsub j x hx)
        · intro ht j x hx
          exact h3 ht j x (hsub j x hx)

/-- Reading list `j` of an array of lists mapped element by element. -/
theorem getD_map_map {α β : Type} (f : α → β) (lists : List (List α)) (j : Nat) :
    (lists.map (List.map f)).getD j [] = (lists.getD j []).map f := by
  rw [List.getD_eq_getElem?_getD, List.getD_eq_getElem?_getD, List.getElem?_map]
  cases lists[j]? <;> rfl

/-- A property of all the lists of an array holds for the list read at any index,
when it holds for the empty list. -/
theorem getD_of_forall_mem {α : Type} (P : List α → Prop) (lists : List (List α))
    (h0 : P []) (h : ∀ l ∈ lists, P l) (j : Nat) : P (lists.getD j []) := by
  rw [List.getD_eq_getElem?_getD]
  cases hj : lists[j]? with
  | none => exact h0
  | some l => exact h l (List.mem_iff_getElem?.2 ⟨j, hj⟩)

/-- When no record of the file has time stamp 0 and the stream of every CPU is
non-decreasing in time, the rows of `kshark_load_data_entries` are non-decreasing in
time; when moreover the records of stream `j` carry the CPU number `j`, rows with
equal time stamps are ordered by CPU number. -/
theorem kshark_load_data_entries_sorted_of_nonzero (M : kshark_filter_masks)
    (kshark_ctx : kshark_context) (handle : tracecmd_input) (adv_filter : event_filter)
    (hh : kshark_ctx.handle = some handle)
    (ha : kshark_ctx.advanced_event_filter = some adv_filter)
    (hs : ∀ stream ∈ handle.cpus, stream.Pairwise (fun a b => a.ts ≤ b.ts))
    (hz : ∀ stream ∈ handle.cpus, ∀ rec ∈ stream, rec.ts ≠ 0) :
    ∃ (tasks1 : Nat → List Int) (es : List kshark_entry),
      kshark_load_data_entries M kshark_ctx =
        some ({ kshark_ctx with tasks := tasks1 }, total_records handle.cpus,
          es.map some) ∧
      es.Pairwise (fun a b => a.ts ≤ b.ts ∧
        ((∀ j, ∀ rec ∈ handle.cpus.getD j [], rec.cpu = (j : Int)) →
          a.ts = b.ts → a.cpu ≤ b.cpu)) := by
  obtain ⟨t1, hload⟩ := kshark_load_data_entries_eq M kshark_ctx handle adv_filter hh ha
  obtain ⟨es, e1, _, _, _⟩ := merge_loop_spec .REC_ENTRY (total_records handle.cpus)
    (handle.cpus.map (List.map (get_records_entry M kshark_ctx adv_filter)))
    (total_records_map _ _)
  refine ⟨t1, es, by rw [hload, e1], ?_⟩
  have hf := get_records_entry_fields M kshark_ctx adv_filter
  refine merge_loop_sorted_index .REC_ENTRY
    (∀ j, ∀ rec ∈ handle.cpus.getD j [], rec.cpu = (j : Int))
    (total_records handle.cpus) _ (total_records_map _ _) ?_ ?_ ?_ es e1
  · intro j
    rw [getD_map_map, List.pairwise_map]
    have hp := getD_of_forall_mem
      (fun l : List pevent_record => l.Pairwise (fun a b => a.ts ≤ b.ts))
      handle.cpus List.Pairwise.nil hs j
    refine hp.imp ?_
    intro a b hab
    show (get_records_entry M kshark_ctx adv_filter a).ts ≤
      (get_records_entry M kshark_ctx adv_filter b).ts
    rw [(hf a).1, (hf b).1]
    exact hab
  · intro j x hx
    rw [getD_map_map, List.mem_map] at hx
    obtain ⟨rec, hrec, rfl⟩ := hx
    show (get_records_entry M kshark_ctx adv_filter rec).ts ≠ 0
    rw [(hf rec).1]
    have hp := getD_of_forall_mem
      (fun l : List pevent_record => ∀ rec ∈ l, rec.ts ≠ 0)
      handle.cpus (by intro r hr; simp at hr) hz j
    exact hp rec hrec
  · intro ht j x hx
    rw [getD_map_map, List.mem_map] at hx
    obtain ⟨rec, hrec, rfl⟩ := hx
    show (get_records_entry M kshark_ctx adv_filter rec).cpu = (j : Int)
    rw [(hf rec).2.1]
    exact ht j rec hrec

/-- The same for `kshark_load_data_records`. -/
theorem kshark_load_data_records_sorted_of_nonzero (M : kshark_filter_masks)
    (kshark_ctx : kshark_context) (handle : tracecmd_input)
    (hh : kshark_ctx.handle = some handle)
    (hs : ∀ stream ∈ handle.cpus, stream.Pairwise (fun a b => a.ts ≤ b.ts))
    (hz : ∀ stream ∈ handle.cpus, ∀ rec ∈ stream, rec.ts ≠ 0) :
    ∃ (tasks1 : Nat → List Int) (es : List pevent_record),
      kshark_load_data_records M kshark_ctx =
        some ({ kshark_ctx with tasks := tasks1 }, total_records handle.cpus,
          es.map some) ∧
      es.Pairwise (fun a b => a.ts ≤ b.ts ∧
        ((∀ j, ∀ rec ∈ handle.cpus.getD j [], rec.cpu = (j : Int)) →
          a.ts = b.ts → a.cpu ≤ b.cpu)) := by
  obtain ⟨t1, hload⟩ := kshark_load_data_records_eq M kshark_ctx handle hh
  obtain ⟨es, e1, _, _, _⟩ :=
    merge_loop_spec .REC_RECORD (total_records handle.cpus) handle.cpus rfl
  refine ⟨t1, es, by rw [hload, e1], ?_⟩
  refine merge_loop_sorted_index .REC_RECORD
    (∀ j, ∀ rec ∈ handle.cpus.getD j [], rec.cpu = (j : Int))
    (total_records handle.cpus) handle.cpus rfl ?_ ?_ ?_ es e1
  · intro j
    exact getD_of_forall_mem
      (fun l : List pevent_record => l.Pairwise (fun a b => a.ts ≤ b.ts))
      handle.cpus List.Pairwise.nil hs j
  · intro j x hx
    exact getD_of_forall_mem
      (fun l : List pevent_record => ∀ rec ∈ l, rec.ts ≠ 0)
      handle.cpus (by intro r hr; simp at hr) hz j x hx
  · intro ht j x hx
    exact ht j x hx

/-! ## Task filtering and the advanced filter -/

/-- C11: for every `filter_mask` and every entry whose pid is rejected by the task
id-set filters, every bit of `filter_mask` is cleared in `visible` after
`kshark_filter_entries` has applied the filters (no advanced filter installed) and after
`get_records` for `kshark_load_data_entries` (whatever the advanced filter). -/
theorem task_filtered_entry_mask_bits (M : kshark_filter_masks)
    (kshark_ctx : kshark_context) (adv_filter : event_filter)
    (ha : kshark_ctx.advanced_event_filter = some adv_filter) :
    (adv_filter.filters = 0 → ∀ data : List kshark_entry,
      ∃ out, kshark_filter_entries M kshark_ctx data = some out ∧
        out.length = data.length ∧
        ∀ e ∈ out, kshark_show_task kshark_ctx e.pid = false →
          e.visible &&& kshark_ctx.filter_mask = 0) ∧
    (∀ handle, kshark_ctx.handle = some handle →
      ∃ (tasks1 : Nat → List Int) (es : List kshark_entry),
        kshark_load_data_entries M kshark_ctx =
          some ({ kshark_ctx with tasks := tasks1 }, total_records handle.cpus,
            es.map some) ∧
        ∀ e ∈ es, kshark_show_task kshark_ctx e.pid = false →
          e.visible &&& kshark_ctx.filter_mask = 0) := by
  constructor
  · intro hadv data
    by_cases hset : kshark_filter_is_set kshark_ctx = true
    · refine ⟨data.map (kshark_filter_entry M kshark_ctx), ?_, by simp, ?_⟩
      · simp [kshark_filter_entries, ha, hadv, hset]
      · intro e he htask
        rw [List.mem_map] at he
        obtain ⟨e0, _, rfl⟩ := he
        rw [kshark_filter_entry_eq] at htask ⊢
        simp only at htask ⊢
        rw [htask]
        simp only [Bool.false_eq_true, if_false]
        exact and_not_land_self _ _
    · refine ⟨data, ?_, rfl, ?_⟩
      · simp [kshark_filter_entries, ha, hadv, hset]
      · intro e _ htask
        exfalso
        have hshow : kshark_show_task kshark_ctx e.pid = true := by
          simp only [kshark_filter_is_set, Bool.or_eq_true, not_or] at hset
          obtain ⟨⟨⟨h1, h2⟩, _⟩, _⟩ := hset
          have hf : ∀ (f : Option tracecmd_filter_id) (t : Bool),
              ¬ filter_is_set f = true → filter_find f e.pid t = true := by
            intro f t hn
            exact filter_find_of_not_set f e.pid t hn
          simp [kshark_show_task, hf _ _ h1, hf _ _ h2]
        rw [hshow] at htask
        exact Bool.noConfusion htask
  · intro handle hh
    obtain ⟨t1, es, hload, hes⟩ :=
      kshark_load_data_entries_rows M kshark_ctx handle adv_filter hh ha
    refine ⟨t1, es, hload, ?_⟩
    intro e he htask
    obtain ⟨rec, rfl⟩ := hes e he
    obtain ⟨_, _, _, _, hpid⟩ := get_records_entry_fields M kshark_ctx adv_filter rec
    rw [hpid] at htask
    rw [get_records_entry_visible, htask]
    simp only [Bool.false_eq_true, if_false]
    exact and_not_land_self _ _

/-- Witness for C11: hide-task set {3}, `filter_mask` 7, and a file with one record of
pid 3, loaded by `kshark_load_data_entries`. -/
theorem task_filtered_entry_mask_bits_witness :
    ∃ (tasks1 : Nat → List Int) (es : List kshark_entry),
      kshark_load_data_entries ks_masks
          (set_id_filters { open_session [[mk_record 0 100 7 3]] with filter_mask := 7 }
            [] [3] [] []) =
        some ({ set_id_filters
            { open_session [[mk_record 0 100 7 3]] with filter_mask := 7 }
            [] [3] [] [] with tasks := tasks1 },
          total_records [[mk_record 0 100 7 3]], es.map some) ∧
      ∀ e ∈ es, kshark_show_task
          (set_id_filters { open_session [[mk_record 0 100 7 3]] with filter_mask := 7 }
            [] [3] [] []) e.pid = false →
        e.visible &&&
          (set_id_filters { open_session [[mk_record 0 100 7 3]] with filter_mask := 7 }
            [] [3] [] []).filter_mask = 0 :=
  (task_filtered_entry_mask_bits ks_masks
    (set_id_filters { open_session [[mk_record 0 100 7 3]] with filter_mask := 7 }
      [] [3] [] [])
    adv_filter_unset rfl).2
    { pevent := { nr_events := 0 }, cpus := [[mk_record 0 100 7 3]] } rfl

/-- C12: when an advanced filter is installed (`filters` is not 0),
`kshark_filter_entries` returns with the array as it was, whatever the entries and the
id-set filters are. -/
theorem kshark_filter_entries_advanced_noop (M : kshark_filter_masks)
    (kshark_ctx : kshark_context) (adv_filter : event_filter) (data : List kshark_entry)
    (ha : kshark_ctx.advanced_event_filter = some adv_filter)
    (hf : adv_filter.filters ≠ 0) :
    kshark_filter_entries M kshark_ctx data = some data := by
  simp [kshark_filter_entries, ha, hf]

/-- Witness for C12: hide-task set {3}, an installed advanced filter, one entry of
pid 3. -/
theorem kshark_filter_entries_advanced_noop_witness :
    kshark_filter_entries ks_masks
      { set_id_filters (open_session []) [] [3] [] [] with
        advanced_event_filter := some adv_filter_set }
      [kshark_set_entry_values (mk_record 0 100 7 3)] =
    some [kshark_set_entry_values (mk_record 0 100 7 3)] :=
  kshark_filter_entries_advanced_noop ks_masks
    { set_id_filters (open_session []) [] [3] [] [] with
      advanced_event_filter := some adv_filter_set }
    adv_filter_set [kshark_set_entry_values (mk_record 0 100 7 3)] rfl (by decide)

/-! ## Properties of the task table -/

/-- The key is a bucket number. -/
theorem knuth_hash8_lt (val : Nat) : knuth_hash8 val < KS_TASK_HASH_SIZE := by
  unfold knuth_hash8 KS_TASK_HASH_SIZE
  omega

/-- The key of a pid is `(pid * 157) mod 256`. -/
theorem knuth_hash8_to_uint32 (pid : Int) :
    ((knuth_hash8 (to_uint32 pid) : Nat) : Int) = (pid * 157) % 256 := by
  unfold knuth_hash8 to_uint32
  have h : (2 : Int) ^ 32 = 4294967296 := by norm_num
  rw [h]
  omega

/-- Function `kshark_find_task` finds the node of a pid exactly when the bucket holds
the pid. -/
theorem kshark_find_task_eq (kshark_ctx : kshark_context) (key : Nat) (pid : Int) :
    kshark_find_task kshark_ctx key pid =
      if pid ∈ kshark_ctx.tasks key then some pid else none := by
  unfold kshark_find_task
  induction kshark_ctx.tasks key with
  | nil => simp
  | cons a l ih =>
    by_cases h : a = pid
    · subst h; simp
    · have h2 : ¬ pid = a := fun e => h e.symm
      simp [List.find?_cons, h, h2, ih]

/-- The pids of a bucket after `kshark_add_task`. -/
theorem kshark_add_task_mem (kshark_ctx : kshark_context) (pid p : Int) (i : Nat) :
    p ∈ (kshark_add_task kshark_ctx pid).2.tasks i ↔
      (p ∈ kshark_ctx.tasks i ∨ (p = pid ∧ i = knuth_hash8 (to_uint32 pid))) := by
  unfold kshark_add_task
  simp only [kshark_find_task_eq]
  by_cases h : pid ∈ kshark_ctx.tasks (knuth_hash8 (to_uint32 pid))
  · simp only [h, if_true]
    constructor
    · intro hp; exact Or.inl hp
    · rintro (hp | ⟨rfl, rfl⟩)
      · exact hp
      · exact h
  · simp only [h, if_false]
    by_cases hi : i = knuth_hash8 (to_uint32 pid)
    · subst hi
      simp only [if_true, List.mem_cons, and_true]
      tauto
    · simp [hi]

/-- Function `kshark_add_task` keeps the invariant of the task table. -/
theorem kshark_add_task_inv (kshark_ctx : kshark_context) (pid : Int)
    (h : task_table_inv kshark_ctx.tasks) :
    task_table_inv (kshark_add_task kshark_ctx pid).2.tasks := by
  unfold kshark_add_task
  simp only [kshark_find_task_eq]
  by_cases hm : pid ∈ kshark_ctx.tasks (knuth_hash8 (to_uint32 pid))
  · simpa only [hm, if_true] using h
  · simp only [hm, if_false]
    intro i
    by_cases hi : i = knuth_hash8 (to_uint32 pid)
    · subst hi
      simp only [if_true]
      refine ⟨?_, List.nodup_cons.2 ⟨hm, (h _).2⟩⟩
      intro p hp
      rcases List.mem_cons.1 hp with rfl | hp
      · rfl
      · exact (h _).1 p hp
    · simpa only [hi, if_false] using h i

/-- Adding a pid that the table holds returns the node of that pid and changes
nothing. -/
theorem kshark_add_task_present (kshark_ctx : kshark_context) (pid : Int) (i : Nat)
    (h : task_table_inv kshark_ctx.tasks) (hp : pid ∈ kshark_ctx.tasks i) :
    kshark_add_task kshark_ctx pid = (some pid, kshark_ctx) := by
  have hi : knuth_hash8 (to_uint32 pid) = i := (h i).1 pid hp
  unfold kshark_add_task
  simp only [kshark_find_task_eq, hi, hp, if_true]

/-- The pids of a bucket after a sequence of `kshark_add_task` calls. -/
theorem add_tasks_mem (pids : List Int) :
    ∀ (kshark_ctx : kshark_context) (p : Int) (i : Nat),
      p ∈ (add_tasks kshark_ctx pids).tasks i ↔
        (p ∈ kshark_ctx.tasks i ∨ (p ∈ pids ∧ i = knuth_hash8 (to_uint32 p))) := by
  induction pids with
  | nil => intro c p i; simp [add_tasks]
  | cons q rest ih =>
    intro c p i
    have hstep : add_tasks c (q :: rest) = add_tasks (kshark_add_task c q).2 rest := rfl
    rw [hstep, ih, kshark_add_task_mem]
    constructor
    · rintro ((h | ⟨rfl, h⟩) | ⟨h1, h2⟩)
      · exact Or.inl h
      · exact Or.inr ⟨List.mem_cons_self _ _, h⟩
      · exact Or.inr ⟨List.mem_cons_of_mem _ h1, h2⟩
    · rintro (h | ⟨h1, h2⟩)
      · exact Or.inl (Or.inl h)
      · rcases List.mem_cons.1 h1 with rfl | h1
        · exact Or.inl (Or.inr ⟨rfl, h2⟩)
        · exact Or.inr ⟨h1, h2⟩

/-- A sequence of `kshark_add_task` calls keeps the invariant of the task table. -/
theorem add_tasks_inv (pids : List Int) :
    ∀ (kshark_ctx : kshark_context), task_table_inv kshark_ctx.tasks →
      task_table_inv (add_tasks kshark_ctx pids).tasks := by
  induction pids with
  | nil => intro c h; exact h
  | cons q rest ih =>
    intro c h
    exact ih _ (kshark_add_task_inv c q h)

/-- A sequence of `kshark_add_task` calls changes the task table only. -/
theorem add_tasks_tasks (pids : List Int) :
    ∀ (kshark_ctx : kshark_context),
      ∃ tasks, add_tasks kshark_ctx pids = { kshark_ctx with tasks := tasks } := by
  induction pids with
  | nil => intro c; exact ⟨c.tasks, rfl⟩
  | cons q rest ih =>
    intro c
    obtain ⟨t1, ht1⟩ := kshark_add_task_tasks c q
    obtain ⟨t2, ht2⟩ := ih { c with tasks := t1 }
    refine ⟨t2, ?_⟩
    have hstep : add_tasks c (q :: rest) = add_tasks (kshark_add_task c q).2 rest := rfl
    rw [hstep, ht1, ht2]

/-- Storing at index `n` of an array and reading its first `n + 1` elements. -/
theorem take_succ_set {α : Type} :
    ∀ (l : List α) (n : Nat) (a : α), n < l.length →
      (l.set n a).take (n + 1) = l.take n ++ [a] := by
  intro l
  induction l with
  | nil => intro n a h; simp at h
  | cons x xs ih =>
    intro n a h
    cases n with
    | zero => simp
    | succ n =>
      simp only [List.set_cons_succ, List.take_succ_cons, List.cons_append]
      rw [ih n a (by simpa using h)]

/-- The loop over one bucket appends the pids of the bucket to the pids stored, and
every store is below the capacity. -/
theorem get_task_pids_list_spec :
    ∀ (l : List Int) (st : task_pids_state),
      st.pids.length = st.pid_size → st.pid_count < st.pid_size →
      ∃ st1, get_task_pids_list l st = some st1 ∧
        st1.pids.length = st1.pid_size ∧ st1.pid_count < st1.pid_size ∧
        st1.pids.take st1.pid_count = st.pids.take st.pid_count ++ l := by
  intro l
  induction l with
  | nil => intro st h1 h2; exact ⟨st, rfl, h1, h2, by simp⟩
  | cons pid next ih =>
    intro st h1 h2
    simp only [get_task_pids_list, h2, if_true]
    have hset : ((st.pids.set st.pid_count pid).take (st.pid_count + 1)) =
        st.pids.take st.pid_count ++ [pid] :=
      take_succ_set st.pids st.pid_count pid (by omega)
    split
    · rename_i hge
      obtain ⟨st1, e1, e2, e3, e4⟩ := ih
        { pids := st.pids.set st.pid_count pid ++
            List.replicate (st.pid_size * 2 - (st.pids.set st.pid_count pid).length) 0
          pid_count := st.pid_count + 1
          pid_size := st.pid_size * 2 }
        (by simp only [List.length_append, List.length_set, List.length_replicate]; omega)
        (by simp only; omega)
      refine ⟨st1, e1, e2, e3, ?_⟩
      rw [e4]
      simp only
      rw [List.take_append_of_le_length (by simp only [List.length_set]; omega), hset]
      simp
    · obtain ⟨st1, e1, e2, e3, e4⟩ := ih
        { st with pids := st.pids.set st.pid_count pid, pid_count := st.pid_count + 1 }
        (by simp only [List.length_set]; exact h1)
        (by simp only; omega)
      refine ⟨st1, e1, e2, e3, ?_⟩
      rw [e4]
      simp only
      rw [hset]
      simp

/-- The loop over the buckets appends the pids of the buckets `i`, ..., `i + n - 1`,
in this order. -/
theorem get_task_pids_buckets_spec (tasks : Nat → List Int) :
    ∀ (n i : Nat) (st : task_pids_state),
      st.pids.length = st.pid_size → st.pid_count < st.pid_size →
      ∃ st1, get_task_pids_buckets tasks n i st = some st1 ∧
        st1.pids.length = st1.pid_size ∧ st1.pid_count < st1.pid_size ∧
        st1.pids.take st1.pid_count =
          st.pids.take st.pid_count ++ ((List.range' i n).map tasks).flatten := by
  intro n
  induction n with
  | zero => intro i st h1 h2; exact ⟨st, rfl, h1, h2, by simp⟩
  | succ n ih =>
    intro i st h1 h2
    obtain ⟨st1, e1, e2, e3, e4⟩ := get_task_pids_list_spec (tasks i) st h1 h2
    obtain ⟨st2, f1, f2, f3, f4⟩ := ih (i + 1) st1 e2 e3
    refine ⟨st2, ?_, f2, f3, ?_⟩
    · simp only [get_task_pids_buckets, e1, f1]
    · rw [f4, e4, List.range'_succ]
      simp

/-- Function `kshark_get_task_pids` on a table with at least one node returns the pids
of the buckets 0 to 255, in this order, and their number; on a table without a node it
takes the `fail` exit. No store is at or beyond the capacity. -/
theorem kshark_get_task_pids_eq (kshark_ctx : kshark_context) :
    kshark_get_task_pids kshark_ctx =
      if ((List.range' 0 KS_TASK_HASH_SIZE).map kshark_ctx.tasks).flatten = [] then
        some { ret := -ENOMEM, pids := none, freed_twice := true }
      else
        some { ret := ((((List.range' 0 KS_TASK_HASH_SIZE).map
                kshark_ctx.tasks).flatten.length : Nat) : Int)
               pids := some ((List.range' 0 KS_TASK_HASH_SIZE).map kshark_ctx.tasks).flatten
               freed_twice := false } := by
  obtain ⟨st1, e1, e2, e3, e4⟩ := get_task_pids_buckets_spec kshark_ctx.tasks
    KS_TASK_HASH_SIZE 0
    { pids := List.replicate KS_TASK_HASH_SIZE 0, pid_count := 0,
      pid_size := KS_TASK_HASH_SIZE }
    (by simp) (by simp [KS_TASK_HASH_SIZE])
  simp only [List.take_zero, List.nil_append] at e4
  unfold kshark_get_task_pids
  rw [e1]
  simp only
  rw [e4]
  have hlen := congrArg List.length e4
  rw [List.length_take] at hlen
  have hcount : st1.pid_count =
      ((List.range' 0 KS_TASK_HASH_SIZE).map kshark_ctx.tasks).flatten.length := by omega
  rw [hcount]
  by_cases hnil : ((List.range' 0 KS_TASK_HASH_SIZE).map kshark_ctx.tasks).flatten = []
  · rw [if_pos hnil, hnil]
    rfl
  · have hpos : ((List.range' 0 KS_TASK_HASH_SIZE).map kshark_ctx.tasks).flatten.length * 4
        ≠ 0 := by
      have := List.length_pos.2 hnil
      omega
    rw [if_neg hnil, if_neg hpos]

/-- Under the invariant of the task table, the pids of the buckets 0 to 255 are
pairwise different. -/
theorem task_table_nodup (tasks : Nat → List Int) (h : task_table_inv tasks) (n : Nat) :
    (((List.range' 0 n).map tasks).flatten).Nodup := by
  rw [List.nodup_flatten]
  constructor
  · intro l hl
    rw [List.mem_map] at hl
    obtain ⟨i, _, rfl⟩ := hl
    exact (h i).2
  · rw [List.pairwise_map]
    refine (List.pairwise_lt_range' 0 n).imp ?_
    intro i j hij p hp1 hp2
    have e1 := (h i).1 p hp1
    have e2 := (h j).1 p hp2
    omega

/-- The pids listed from the buckets 0 to 255. -/
theorem task_table_mem (tasks : Nat → List Int) (p : Int) :
    p ∈ ((List.range' 0 KS_TASK_HASH_SIZE).map tasks).flatten ↔
      ∃ i, i < KS_TASK_HASH_SIZE ∧ p ∈ tasks i := by
  simp only [List.mem_flatten, List.mem_map, List.mem_range']
  constructor
  · rintro ⟨l, ⟨i, ⟨k, hk, rfl⟩, rfl⟩, hp⟩
    exact ⟨0 + 1 * k, by omega, hp⟩
  · rintro ⟨i, hi, hp⟩
    exact ⟨tasks i, ⟨i, ⟨i, hi, by omega⟩, rfl⟩, hp⟩

/-- C13 (failing input): on a task table without a node, which is what the empty
sequence of `kshark_add_task` calls leaves, `kshark_get_task_pids` does not return 0: its
last `realloc` has size 0, so it takes the `fail` exit, releases the block a second time
and returns `-ENOMEM` with `*pids` set to `NULL`. After a sequence that adds at least one
pid it returns the number of distinct pids added and an array that holds exactly these
pids, each once, and no store was at or beyond the capacity `pid_size`. -/
theorem kshark_get_task_pids_empty_table_enomem (kshark_ctx : kshark_context)
    (pids : List Int) (h0 : ∀ i, kshark_ctx.tasks i = []) :
    (pids = [] →
      kshark_get_task_pids (add_tasks kshark_ctx pids) =
        some { ret := -ENOMEM, pids := none, freed_twice := true }) ∧
    (pids ≠ [] →
      ∃ arr : List Int,
        kshark_get_task_pids (add_tasks kshark_ctx pids) =
          some { ret := (arr.length : Int), pids := some arr, freed_twice := false } ∧
        arr.length = pids.dedup.length ∧
        arr.Nodup ∧
        (∀ pid, pid ∈ arr ↔ pid ∈ pids) ∧
        arr.Perm pids.dedup) := by
  have hinv0 : task_table_inv kshark_ctx.tasks := by
    intro i
    rw [h0 i]
    exact ⟨by intro p hp; simp at hp, List.nodup_nil⟩
  have hinv := add_tasks_inv pids kshark_ctx hinv0
  have hnodup := task_table_nodup _ hinv KS_TASK_HASH_SIZE
  have hmem : ∀ pid, pid ∈ ((List.range' 0 KS_TASK_HASH_SIZE).map
      (add_tasks kshark_ctx pids).tasks).flatten ↔ pid ∈ pids := by
    intro pid
    rw [task_table_mem]
    constructor
    · rintro ⟨i, _, hp⟩
      rw [add_tasks_mem, h0 i] at hp
      rcases hp with hp | ⟨hp, _⟩
      · simp at hp
      · exact hp
    · intro hp
      exact ⟨knuth_hash8 (to_uint32 pid), knuth_hash8_lt _,
        (add_tasks_mem pids kshark_ctx pid _).2 (Or.inr ⟨hp, rfl⟩)⟩
  have hperm : (((List.range' 0 KS_TASK_HASH_SIZE).map
      (add_tasks kshark_ctx pids).tasks).flatten).Perm pids.dedup := by
    rw [List.perm_ext_iff_of_nodup hnodup (List.nodup_dedup pids)]
    intro a
    rw [hmem, List.mem_dedup]
  constructor
  · intro hnil
    have hflat : ((List.range' 0 KS_TASK_HASH_SIZE).map
        (add_tasks kshark_ctx pids).tasks).flatten = [] :=
      List.eq_nil_iff_forall_not_mem.2 (fun a ha => by
        have := (hmem a).1 ha
        rw [hnil] at this
        simp at this)
    rw [kshark_get_task_pids_eq, if_pos hflat]
  · intro hne
    obtain ⟨pid, hpid⟩ := List.exists_mem_of_ne_nil pids hne
    have hflat : ((List.range' 0 KS_TASK_HASH_SIZE).map
        (add_tasks kshark_ctx pids).tasks).flatten ≠ [] :=
      List.ne_nil_of_mem ((hmem pid).2 hpid)
    refine ⟨_, ?_, hperm.length_eq, hnodup, hmem, hperm⟩
    rw [kshark_get_task_pids_eq, if_neg hflat]

/-- Witness for C13: no call at all on the empty table of a new session, and the calls
for pids 1, 2, 1, 257, 3, -1, 2 on it. -/
theorem kshark_get_task_pids_empty_table_enomem_witness :
    kshark_get_task_pids (add_tasks (open_session []) []) =
      some { ret := -12, pids := none, freed_twice := true } ∧
    ∃ arr : List Int,
      kshark_get_task_pids (add_tasks (open_session []) [1, 2, 1, 257, 3, -1, 2]) =
        some { ret := (arr.length : Int), pids := some arr, freed_twice := false } ∧
      arr.length = ([1, 2, 1, 257, 3, -1, 2] : List Int).dedup.length ∧
      arr.Nodup ∧
      (∀ pid, pid ∈ arr ↔ pid ∈ ([1, 2, 1, 257, 3, -1, 2] : List Int)) ∧
      arr.Perm ([1, 2, 1, 257, 3, -1, 2] : List Int).dedup :=
  ⟨(kshark_get_task_pids_empty_table_enomem (open_session []) [] (fun _ => rfl)).1 rfl,
    (kshark_get_task_pids_empty_table_enomem (open_session []) [1, 2, 1, 257, 3, -1, 2]
      (fun _ => rfl)).2 (by decide)⟩

/-- C14: after any sequence of `kshark_add_task` calls on an empty task table, every
node sits in the bucket `knuth_hash8(pid)`, which is `(pid * 157) mod 256`, no bucket
holds a pid twice (so no pid occurs in more than one node), and a further call for a
pid of the table returns the node of that pid and leaves the table as it is. -/
theorem kshark_add_task_keeps_table_invariant (kshark_ctx : kshark_context)
    (pids : List Int) (h0 : ∀ i, kshark_ctx.tasks i = []) :
    (∀ i, ∀ pid ∈ (add_tasks kshark_ctx pids).tasks i,
      i = knuth_hash8 (to_uint32 pid) ∧ (i : Int) = (pid * 157) % 256) ∧
    (∀ i, ((add_tasks kshark_ctx pids).tasks i).Nodup) ∧
    (∀ i j pid, pid ∈ (add_tasks kshark_ctx pids).tasks i →
      pid ∈ (add_tasks kshark_ctx pids).tasks j → i = j) ∧
    (∀ i, ∀ pid ∈ (add_tasks kshark_ctx pids).tasks i,
      kshark_add_task (add_tasks kshark_ctx pids) pid =
        (some pid, add_tasks kshark_ctx pids)) := by
  have hinv0 : task_table_inv kshark_ctx.tasks := by
    intro i
    rw [h0 i]
    exact ⟨by intro p hp; simp at hp, List.nodup_nil⟩
  have hinv := add_tasks_inv pids kshark_ctx hinv0
  refine ⟨?_, fun i => (hinv i).2, ?_, ?_⟩
  · intro i pid hp
    have hi := (hinv i).1 pid hp
    refine ⟨hi.symm, ?_⟩
    rw [← hi]
    exact knuth_hash8_to_uint32 pid
  · intro i j pid hi hj
    rw [← (hinv i).1 pid hi, ← (hinv j).1 pid hj]
  · intro i pid hp
    exact kshark_add_task_present _ pid i hinv hp

/-- Witness for C14: the calls for pids 1, 257, -1, 1 on the empty table of a new
session. -/
theorem kshark_add_task_keeps_table_invariant_witness :
    (∀ i, ∀ pid ∈ (add_tasks (open_session []) [1, 257, -1, 1]).tasks i,
      i = knuth_hash8 (to_uint32 pid) ∧ (i : Int) = (pid * 157) % 256) ∧
    (∀ i, ((add_tasks (open_session []) [1, 257, -1, 1]).tasks i).Nodup) ∧
    (∀ i j pid, pid ∈ (add_tasks (open_session []) [1, 257, -1, 1]).tasks i →
      pid ∈ (add_tasks (open_session []) [1, 257, -1, 1]).tasks j → i = j) ∧
    (∀ i, ∀ pid ∈ (add_tasks (open_session []) [1, 257, -1, 1]).tasks i,
      kshark_add_task (add_tasks (open_session []) [1, 257, -1, 1]) pid =
        (some pid, add_tasks (open_session []) [1, 257, -1, 1])) :=
  kshark_add_task_keeps_table_invariant (open_session []) [1, 257, -1, 1] (fun _ => rfl)

/-! ## The task table after a load -/

/-- The pid that `get_records` passes to `kshark_add_task` is the pid of the record. -/
theorem get_records_node_pid (M : kshark_filter_masks) (kshark_ctx : kshark_context)
    (adv_filter : event_filter) (h : kshark_ctx.advanced_event_filter = some adv_filter)
    (type : rec_type) (rec : pevent_record) :
    ∃ node, get_records_node M kshark_ctx type rec = some (node, pevent_data_pid rec) := by
  cases type with
  | REC_RECORD => exact ⟨rec, rfl⟩
  | REC_ENTRY =>
    have hp := (get_records_entry_fields M kshark_ctx adv_filter rec).2.2.2.2
    refine ⟨get_records_entry M kshark_ctx adv_filter rec, ?_⟩
    unfold get_records_node
    rw [h]
    simp only
    rw [hp]
    rfl

/-- Function `kshark_add_task` keeps the advanced filter of the session. -/
theorem kshark_add_task_adv (kshark_ctx : kshark_context) (pid : Int) :
    (kshark_add_task kshark_ctx pid).2.advanced_event_filter =
      kshark_ctx.advanced_event_filter := by
  obtain ⟨t, ht⟩ := kshark_add_task_tasks kshark_ctx pid
  rw [ht]

/-- A sequence of `kshark_add_task` calls keeps the advanced filter of the session. -/
theorem add_tasks_adv (pids : List Int) :
    ∀ kshark_ctx : kshark_context,
      (add_tasks kshark_ctx pids).advanced_event_filter =
        kshark_ctx.advanced_event_filter := by
  induction pids with
  | nil => intro c; rfl
  | cons q rest ih =>
    intro c
    have hstep : add_tasks c (q :: rest) = add_tasks (kshark_add_task c q).2 rest := rfl
    rw [hstep, ih, kshark_add_task_adv]

/-- A sequence of `kshark_add_task` calls for two sequences of pids in a row. -/
theorem add_tasks_append (kshark_ctx : kshark_context) (a b : List Int) :
    add_tasks kshark_ctx (a ++ b) = add_tasks (add_tasks kshark_ctx a) b := by
  unfold add_tasks
  rw [List.foldl_append]

/-- The loop of `get_records` over one CPU calls `kshark_add_task` for the pid of each
record of the stream, in order. -/
theorem get_records_cpu_tasks (M : kshark_filter_masks) (adv_filter : event_filter)
    (type : rec_type) :
    ∀ (stream : List pevent_record) (kshark_ctx : kshark_context),
      kshark_ctx.advanced_event_filter = some adv_filter →
      ∃ nodes, get_records_cpu M type kshark_ctx stream =
        some (add_tasks kshark_ctx (stream.map pevent_data_pid), nodes) := by
  intro stream
  induction stream with
  | nil => intro c _; exact ⟨[], rfl⟩
  | cons rec rest ih =>
    intro c h
    obtain ⟨node, hn⟩ := get_records_node_pid M c adv_filter h type rec
    obtain ⟨nodes, hnodes⟩ := ih (kshark_add_task c (pevent_data_pid rec)).2
      (by rw [kshark_add_task_adv]; exact h)
    refine ⟨node :: nodes, ?_⟩
    have hstep : add_tasks c ((rec :: rest).map pevent_data_pid) =
        add_tasks (kshark_add_task c (pevent_data_pid rec)).2
          (rest.map pevent_data_pid) := rfl
    rw [hstep]
    unfold get_records_cpu
    rw [hn]
    simp only
    rw [hnodes]

/-- The loop of `get_records` over the CPUs calls `kshark_add_task` for the pid of
each record of the file. -/
theorem get_records_cpus_tasks (M : kshark_filter_masks) (adv_filter : event_filter)
    (type : rec_type) :
    ∀ (streams : List (List pevent_record)) (kshark_ctx : kshark_context),
      kshark_ctx.advanced_event_filter = some adv_filter →
      ∃ total lists, get_records_cpus M type kshark_ctx streams =
        some (add_tasks kshark_ctx (streams.flatten.map pevent_data_pid),
          total, lists) := by
  intro streams
  induction streams with
  | nil => intro c _; exact ⟨0, [], rfl⟩
  | cons stream rest ih =>
    intro c h
    obtain ⟨nodes, hnodes⟩ := get_records_cpu_tasks M adv_filter type stream c h
    obtain ⟨total, lists, hrest⟩ := ih (add_tasks c (stream.map pevent_data_pid))
      (by rw [add_tasks_adv]; exact h)
    refine ⟨nodes.length + total, nodes :: lists, ?_⟩
    rw [List.flatten_cons, List.map_append, add_tasks_append]
    unfold get_records_cpus
    rw [hnodes]
    simp only
    rw [hrest]

/-- Function `get_records` on an open file leaves the session with one
`kshark_add_task` call made for the pid of each record of the file. -/
theorem get_records_tasks (M : kshark_filter_masks) (kshark_ctx : kshark_context)
    (handle : tracecmd_input) (adv_filter : event_filter)
    (hh : kshark_ctx.handle = some handle)
    (h : kshark_ctx.advanced_event_filter = some adv_filter) (type : rec_type) :
    ∃ total lists, get_records M kshark_ctx type =
      some (add_tasks kshark_ctx (handle.cpus.flatten.map pevent_data_pid),
        total, lists) := by
  obtain ⟨total, lists, ht⟩ :=
    get_records_cpus_tasks M adv_filter type handle.cpus kshark_ctx h
  have hget : get_records M kshark_ctx type =
      get_records_cpus M type kshark_ctx handle.cpus := by
    unfold get_records
    rw [hh]
  exact ⟨total, lists, by rw [hget]; exact ht⟩

/-- After `kshark_open` every bucket of the task table is empty, whatever the table
held and whether or not the file could be opened. -/
theorem kshark_open_tasks_empty (kshark_ctx : kshark_context)
    (opened : Option tracecmd_input) (mutex_ok : Bool) (i : Nat)
    (hi : i < KS_TASK_HASH_SIZE) :
    (kshark_open kshark_ctx opened mutex_ok).2.tasks i = [] := by
  unfold kshark_open kshark_free_task_list
  cases opened <;> cases mutex_ok <;> simp [hi]

/-- The pids of the task table after a sequence of `kshark_add_task` calls on a table
whose buckets are empty: the pids of the sequence. -/
theorem add_tasks_mem_of_empty (kshark_ctx : kshark_context) (pids : List Int)
    (h0 : ∀ i, i < KS_TASK_HASH_SIZE → kshark_ctx.tasks i = []) (pid : Int) :
    (∃ i, i < KS_TASK_HASH_SIZE ∧ pid ∈ (add_tasks kshark_ctx pids).tasks i) ↔
      pid ∈ pids := by
  constructor
  · rintro ⟨i, hi, hp⟩
    rw [add_tasks_mem, h0 i hi] at hp
    rcases hp with hp | ⟨hp, _⟩
    · simp at hp
    · exact hp
  · intro hp
    exact ⟨knuth_hash8 (to_uint32 pid), knuth_hash8_lt _,
      (add_tasks_mem pids kshark_ctx pid _).2 (Or.inr ⟨hp, rfl⟩)⟩

/-- C15: whatever the task table held before, after `kshark_open` every bucket is
empty; and when the file is opened, a following `kshark_load_data_entries` or
`kshark_load_data_records` leaves in the table exactly the pids of the records of that
file. -/
theorem kshark_open_rebuilds_task_table (M : kshark_filter_masks)
    (kshark_ctx : kshark_context) (handle : tracecmd_input) :
    (∀ (opened : Option tracecmd_input) (mutex_ok : Bool) (i : Nat),
      i < KS_TASK_HASH_SIZE → (kshark_open kshark_ctx opened mutex_ok).2.tasks i = []) ∧
    (kshark_open kshark_ctx (some handle) true).1 = true ∧
    (∃ ctx1 total rows,
      kshark_load_data_entries M (kshark_open kshark_ctx (some handle) true).2 =
        some (ctx1, total, rows) ∧
      ∀ pid, (∃ i, i < KS_TASK_HASH_SIZE ∧ pid ∈ ctx1.tasks i) ↔
        ∃ rec ∈ handle.cpus.flatten, pevent_data_pid rec = pid) ∧
    (∃ ctx1 total rows,
      kshark_load_data_records M (kshark_open kshark_ctx (some handle) true).2 =
        some (ctx1, total, rows) ∧
      ∀ pid, (∃ i, i < KS_TASK_HASH_SIZE ∧ pid ∈ ctx1.tasks i) ↔
        ∃ rec ∈ handle.cpus.flatten, pevent_data_pid rec = pid) := by
  have hmem : ∀ pid, (∃ i, i < KS_TASK_HASH_SIZE ∧
      pid ∈ (add_tasks (kshark_open kshark_ctx (some handle) true).2
        (handle.cpus.flatten.map pevent_data_pid)).tasks i) ↔
      ∃ rec ∈ handle.cpus.flatten, pevent_data_pid rec = pid := by
    intro pid
    rw [add_tasks_mem_of_empty _ _
      (fun i hi => kshark_open_tasks_empty kshark_ctx (some handle) true i hi)]
    simp only [List.mem_map]
  refine ⟨fun opened mutex_ok i hi => kshark_open_tasks_empty _ _ _ i hi, rfl, ?_, ?_⟩
  · obtain ⟨total, lists, hg⟩ := get_records_tasks M
      (kshark_open kshark_ctx (some handle) true).2 handle pevent_filter_alloc rfl rfl
      .REC_ENTRY
    refine ⟨_, total, (merge_loop .REC_ENTRY total lists).1, ?_, hmem⟩
    unfold kshark_load_data_entries
    rw [hg]
  · obtain ⟨total, lists, hg⟩ := get_records_tasks M
      (kshark_open kshark_ctx (some handle) true).2 handle pevent_filter_alloc rfl rfl
      .REC_RECORD
    refine ⟨_, total, (merge_loop .REC_RECORD total lists).1, ?_, hmem⟩
    unfold kshark_load_data_records
    rw [hg]

/-! ## Failure of `get_records` -/

/-- When `get_records` succeeds and the rows can be allocated, the statements after
the call return the total and the rows of `kshark_load_data_entries`. -/
theorem kshark_load_data_entries_rest_ok (M : kshark_filter_masks)
    (kshark_ctx ctx1 : kshark_context) (total : Nat)
    (rec_list : List (List (rec_node .REC_ENTRY)))
    (h : get_records M kshark_ctx .REC_ENTRY = some (ctx1, total, rec_list))
    (hsize : total * 8 < 2 ^ 64) :
    kshark_load_data_entries_rest { total := total, rec_list := some rec_list } true =
      .returned (to_ssize_t total) (some (merge_loop .REC_ENTRY total rec_list).1) ∧
    kshark_load_data_entries M kshark_ctx =
      some (ctx1, total, (merge_loop .REC_ENTRY total rec_list).1) := by
  constructor
  · have hs : decide (total * 8 < 2 ^ 64) = true := decide_eq_true hsize
    simp only [kshark_load_data_entries_rest, Nat.not_lt_zero, if_false, hs, Bool.and_self,
      if_true]
  · unfold kshark_load_data_entries
    rw [h]

/-- C16 (failing input): `get_records` fails and returns `-ENOMEM`. Its return type is
`size_t`, so the caller's `total` is 2^64 - 12, the test `total < 0` is false, and
`kshark_load_data_entries` goes on: the request for `total` rows fails, and at
`fail_free` the record list, which `get_records` did not set, is read. It does not
return `-ENOMEM` from the `total < 0` test. -/
theorem kshark_load_data_entries_misses_enomem :
    (get_records_enomem .REC_ENTRY).total = 2 ^ 64 - 12 ∧
    ¬ (get_records_enomem .REC_ENTRY).total < 0 ∧
    (∀ calloc_ok : Bool,
      kshark_load_data_entries_rest (get_records_enomem .REC_ENTRY) calloc_ok =
        .undefined) ∧
    (∀ calloc_ok : Bool,
      kshark_load_data_entries_rest (get_records_enomem .REC_ENTRY) calloc_ok ≠
        .returned (-ENOMEM) none) := by
  have htotal : (get_records_enomem .REC_ENTRY).total = 2 ^ 64 - 12 := by decide
  have hund : ∀ calloc_ok : Bool,
      kshark_load_data_entries_rest (get_records_enomem .REC_ENTRY) calloc_ok =
        .undefined := by
    intro calloc_ok
    unfold kshark_load_data_entries_rest
    rw [htotal]
    cases calloc_ok <;> rfl
  refine ⟨htotal, Nat.not_lt_zero _, hund, ?_⟩
  intro calloc_ok
  rw [hund calloc_ok]
  intro h
  cases h

/-! ## Closing a file -/

/-- C19: on a session with an open file (and four allocated id filters) `kshark_close`
leaves the four id filters empty, no advanced filter, and `handle` and `pevent`
`NULL`; on a session with no open file it changes nothing; hence closing a second time
changes nothing. -/
theorem kshark_close_resets_session (kshark_ctx : kshark_context) :
    (∀ handle show_task hide_task show_event hide_event,
      kshark_ctx.handle = some handle →
      kshark_ctx.show_task_filter = some show_task →
      kshark_ctx.hide_task_filter = some hide_task →
      kshark_ctx.show_event_filter = some show_event →
      kshark_ctx.hide_event_filter = some hide_event →
      ∃ ctx1, kshark_close kshark_ctx = some ctx1 ∧
        ctx1.show_task_filter = some { ids := [] } ∧
        ctx1.hide_task_filter = some { ids := [] } ∧
        ctx1.show_event_filter = some { ids := [] } ∧
        ctx1.hide_event_filter = some { ids := [] } ∧
        kshark_filter_is_set ctx1 = false ∧
        ctx1.advanced_event_filter = none ∧
        ctx1.handle = none ∧
        ctx1.pevent = none ∧
        ctx1.tasks = kshark_ctx.tasks ∧
        ctx1.filter_mask = kshark_ctx.filter_mask) ∧
    (kshark_ctx.handle = none → kshark_close kshark_ctx = some kshark_ctx) ∧
    (∀ ctx1, kshark_close kshark_ctx = some ctx1 → kshark_close ctx1 = some ctx1) := by
  refine ⟨?_, ?_, ?_⟩
  · intro handle st ht se he hh h1 h2 h3 h4
    refine ⟨{ kshark_ctx with
        show_task_filter := some (tracecmd_filter_id_clear st)
        hide_task_filter := some (tracecmd_filter_id_clear ht)
        show_event_filter := some (tracecmd_filter_id_clear se)
        hide_event_filter := some (tracecmd_filter_id_clear he)
        advanced_event_filter := none
        handle := none
        pevent := none }, ?_, rfl, rfl, rfl, rfl, rfl, rfl, rfl, rfl, rfl, rfl⟩
    unfold kshark_close
    rw [hh, h1, h2, h3, h4]
  · intro hh
    unfold kshark_close
    rw [hh]
  · intro ctx1 hc
    cases hh : kshark_ctx.handle with
    | none =>
      have : kshark_close kshark_ctx = some kshark_ctx := by
        unfold kshark_close
        rw [hh]
      rw [this] at hc
      cases hc
      exact this
    | some handle =>
      have hnone : ctx1.handle = none := by
        unfold kshark_close at hc
        rw [hh] at hc
        simp only at hc
        split at hc
        · cases hc
          rfl
        · cases hc
      unfold kshark_close
      rw [hnone]

/-- Witness for C19: a session with an open file, hide-task set {3} and hide-event set
{7}. -/
theorem kshark_close_resets_session_witness :
    ∃ ctx1, kshark_close (set_id_filters (open_session interleaved_cpus) [] [3] [] [7]) =
        some ctx1 ∧
      ctx1.show_task_filter = some { ids := [] } ∧
      ctx1.hide_task_filter = some { ids := [] } ∧
      ctx1.show_event_filter = some { ids := [] } ∧
      ctx1.hide_event_filter = some { ids := [] } ∧
      kshark_filter_is_set ctx1 = false ∧
      ctx1.advanced_event_filter = none ∧
      ctx1.handle = none ∧
      ctx1.pevent = none ∧
      ctx1.tasks = (set_id_filters (open_session interleaved_cpus) [] [3] [] [7]).tasks ∧
      ctx1.filter_mask =
        (set_id_filters (open_session interleaved_cpus) [] [3] [] [7]).filter_mask :=
  (kshark_close_resets_session
    (set_id_filters (open_session interleaved_cpus) [] [3] [] [7])).1
    { pevent := { nr_events := 0 }, cpus := interleaved_cpus }
    { ids := [] } { ids := [3] } { ids := [] } { ids := [7] } rfl rfl rfl rfl rfl

/-! ## The process-wide session -/

/-- C20: `kshark_instance` called with a pointer to `NULL`. When the handler is set,
it gives the session of the handler and changes neither the heap nor the handler.
When the handler is `NULL`, it gives a new session, the default one (`filter_mask` 0,
four empty id filters), allocated at the address `calloc` returned, which becomes the
handler, and no other session changes. A second call with `NULL` gives the session the
first call gave and leaves the heap as it is. The value returned is true when the
thread's buffer is, or can be, allocated. -/
theorem kshark_instance_null_obtains_session (p : kshark_process) (new_ctx : Nat)
    (seq_alloc_ok : Bool) :
    (∀ h, p.kshark_context_handler = some h →
      kshark_instance p none new_ctx seq_alloc_ok =
        some ((init_thread_seq p seq_alloc_ok).1, some h,
          { p with seq_buffer := (init_thread_seq p seq_alloc_ok).1 })) ∧
    (p.kshark_context_handler = none →
      ∃ p1, kshark_instance p none new_ctx seq_alloc_ok =
          some ((p.seq_buffer || seq_alloc_ok), some new_ctx, p1) ∧
        p1.kshark_context_handler = some new_ctx ∧
        p1.heap new_ctx = some default_context ∧
        (∀ b, b ≠ new_ctx → p1.heap b = p.heap b) ∧
        default_context.filter_mask = 0 ∧
        kshark_filter_is_set default_context = false) ∧
    (∃ ret1 out1 p1, kshark_instance p none new_ctx seq_alloc_ok =
        some (ret1, some out1, p1) ∧
      p1.kshark_context_handler = some out1 ∧
      ∀ (new_ctx2 : Nat) (seq_alloc_ok2 : Bool),
        ∃ ret2 p2, kshark_instance p1 none new_ctx2 seq_alloc_ok2 =
            some (ret2, some out1, p2) ∧
          p2.heap = p1.heap ∧
          p2.kshark_context_handler = some out1) := by
  have hset : ∀ (q : kshark_process) (h : Nat) (a : Nat) (ok : Bool),
      q.kshark_context_handler = some h →
      kshark_instance q none a ok =
        some ((init_thread_seq q ok).1, some h,
          { q with seq_buffer := (init_thread_seq q ok).1 }) := by
    intro q h a ok hq
    cases q with
    | mk heap handler sb =>
      simp only at hq
      subst hq
      cases sb <;> cases ok <;> rfl
  have hnew : p.kshark_context_handler = none →
      kshark_instance p none new_ctx seq_alloc_ok =
        some ((p.seq_buffer || seq_alloc_ok), some new_ctx,
          { heap := fun b => if b = new_ctx then some default_context else p.heap b
            kshark_context_handler := some new_ctx
            seq_buffer := (p.seq_buffer || seq_alloc_ok) }) := by
    intro hp
    cases p with
    | mk heap handler sb =>
      simp only at hp
      subst hp
      cases sb <;> cases seq_alloc_ok <;> rfl
  refine ⟨fun h hp => hset p h new_ctx seq_alloc_ok hp, ?_, ?_⟩
  · intro hp
    refine ⟨_, hnew hp, rfl, by simp, ?_, rfl, rfl⟩
    intro b hb
    simp [hb]
  · cases hp : p.kshark_context_handler with
    | some h =>
      refine ⟨_, h, _, hset p h new_ctx seq_alloc_ok hp, hp, ?_⟩
      intro a2 ok2
      exact ⟨_, _, hset _ h a2 ok2 hp, rfl, hp⟩
    | none =>
      refine ⟨_, new_ctx, _, hnew hp, rfl, ?_⟩
      intro a2 ok2
      exact ⟨_, _, hset _ new_ctx a2 ok2 rfl, rfl, rfl⟩

/-! ## The pick and the in-place filter, reference statements -/

/-- C22: `pick_next_cpu` returns -1 exactly when every per-CPU list is empty; and
when no head time stamp is 0 and some list is not empty, it returns the index of a list
whose head time stamp is the smallest of all heads, every list before it having a
strictly larger head time stamp (the least index of the minimum). -/
theorem pick_next_cpu_result (type : rec_type) (rec_list : List (List (rec_node type))) :
    (pick_next_cpu type rec_list = -1 ↔ ∀ l ∈ rec_list, l = []) ∧
    ((∀ j r next, rec_list.getD j [] = r :: next → rec_ts type r ≠ 0) →
      (∃ l ∈ rec_list, l ≠ []) →
      ∃ i r next, rec_list.getD i [] = r :: next ∧ i < rec_list.length ∧
        pick_next_cpu type rec_list = (i : Int) ∧
        ∀ j r1 next1, rec_list.getD j [] = r1 :: next1 →
          rec_ts type r ≤ rec_ts type r1 ∧ (j < i → rec_ts type r < rec_ts type r1)) := by
  refine ⟨⟨?_, ?_⟩, fun hnz hne => pick_next_cpu_min type rec_list hnz hne⟩
  · intro h l hl
    by_contra hne
    have h0 := pick_next_cpu_nonneg type rec_list ⟨l, hl, hne⟩
    omega
  · intro hall
    unfold pick_next_cpu
    rcases pick_next_cpu_from_cases type rec_list 0 0 (-1) with h | ⟨i, r, next, h1, h2, _⟩
    · exact h
    · exfalso
      have hmem : rec_list.getD i [] ∈ rec_list := by
        rw [List.getD_eq_getElem?_getD, List.getElem?_eq_getElem h2]
        exact List.getElem_mem h2
      have := hall _ hmem
      rw [h1] at this
      exact List.cons_ne_nil _ _ this

/-- Witness for C22: heads 30 (CPU 0), none (CPU 1), 20 (CPU 2) and 20 (CPU 3). -/
theorem pick_next_cpu_result_witness :
    pick_next_cpu .REC_RECORD
      [[mk_record 0 30 1 1], [], [mk_record 2 20 1 1], [mk_record 3 20 1 1]] = 2 ∧
    pick_next_cpu .REC_RECORD [[], []] = -1 ∧
    ((pick_next_cpu .REC_RECORD [[], []] = -1 ↔
      ∀ l ∈ ([[], []] : List (List (rec_node .REC_RECORD))), l = [])) :=
  ⟨by decide, by decide, (pick_next_cpu_result .REC_RECORD [[], []]).1⟩

/-- Clearing no bit. -/
theorem and_not_zero (x : Nat) : and_not x 0 = x := by
  simp [and_not]

/-- A filter is set exactly when its id set is not empty. -/
theorem filter_is_set_iff (filter : Option tracecmd_filter_id) :
    filter_is_set filter = true ↔ id_set filter ≠ [] := by
  cases filter with
  | none => simp [filter_is_set, id_set]
  | some f =>
    cases hf : f.ids with
    | nil => simp [filter_is_set, id_set, tracecmd_filter_id.count, hf]
    | cons a l => simp [filter_is_set, id_set, tracecmd_filter_id.count, hf]

/-- C23: with no advanced filter installed, `kshark_filter_entries` gives every entry
the visible byte of the reference definition `0xFF & ~A & ~B` when at least one of the
four id sets is not empty, whatever `visible` was before, and changes nothing else;
when the four id sets are empty it leaves the array as it was. -/
theorem kshark_filter_entries_reference (M : kshark_filter_masks)
    (kshark_ctx : kshark_context) (adv_filter : event_filter) (data : List kshark_entry)
    (ha : kshark_ctx.advanced_event_filter = some adv_filter)
    (hf : adv_filter.filters = 0) :
    ((id_set kshark_ctx.show_task_filter ≠ [] ∨ id_set kshark_ctx.hide_task_filter ≠ [] ∨
        id_set kshark_ctx.show_event_filter ≠ [] ∨
        id_set kshark_ctx.hide_event_filter ≠ []) →
      kshark_filter_entries M kshark_ctx data =
        some (data.map (fun e => { e with visible := visible_reference M kshark_ctx e }))) ∧
    ((id_set kshark_ctx.show_task_filter = [] ∧ id_set kshark_ctx.hide_task_filter = [] ∧
        id_set kshark_ctx.show_event_filter = [] ∧
        id_set kshark_ctx.hide_event_filter = []) →
      kshark_filter_entries M kshark_ctx data = some data) := by
  constructor
  · intro hset
    have hs : kshark_filter_is_set kshark_ctx = true := by
      simp only [kshark_filter_is_set, Bool.or_eq_true, filter_is_set_iff]
      tauto
    have hmap : data.map (kshark_filter_entry M kshark_ctx) =
        data.map (fun e => { e with visible := visible_reference M kshark_ctx e }) := by
      apply List.map_congr_left
      intro e _
      rw [kshark_filter_entry_eq]
      unfold visible_reference
      cases h1 : kshark_show_event kshark_ctx e.event_id <;>
        cases h2 : kshark_show_task kshark_ctx e.pid <;> simp [and_not_zero]
    simp [kshark_filter_entries, ha, hf, hs, hmap]
  · rintro ⟨h1, h2, h3, h4⟩
    have hs : kshark_filter_is_set kshark_ctx = false := by
      have e1 : filter_is_set kshark_ctx.show_task_filter = false := by
        rw [← Bool.not_eq_true, filter_is_set_iff]; simp [h1]
      have e2 : filter_is_set kshark_ctx.hide_task_filter = false := by
        rw [← Bool.not_eq_true, filter_is_set_iff]; simp [h2]
      have e3 : filter_is_set kshark_ctx.show_event_filter = false := by
        rw [← Bool.not_eq_true, filter_is_set_iff]; simp [h3]
      have e4 : filter_is_set kshark_ctx.hide_event_filter = false := by
        rw [← Bool.not_eq_true, filter_is_set_iff]; simp [h4]
      simp [kshark_filter_is_set, e1, e2, e3, e4]
    simp [kshark_filter_entries, ha, hf, hs]

/-- Witness for C23: hide-event set {7}, hide-task set {3}, `filter_mask` 7, and two
entries whose `visible` was 0 and 0x55. -/
theorem kshark_filter_entries_reference_witness :
    kshark_filter_entries ks_masks
      (set_id_filters { open_session [] with filter_mask := 7 } [] [3] [] [7])
      [{ (kshark_set_entry_values (mk_record 0 100 7 1)) with visible := 0 },
        { (kshark_set_entry_values (mk_record 0 200 8 3)) with visible := 0x55 }] =
    some ([{ (kshark_set_entry_values (mk_record 0 100 7 1)) with visible := 0 },
        { (kshark_set_entry_values (mk_record 0 200 8 3)) with visible := 0x55 }].map
      (fun e => { e with visible := (visible_reference ks_masks
        (set_id_filters { open_session [] with filter_mask := 7 } [] [3] [] [7]) e) })) :=
  (kshark_filter_entries_reference ks_masks
    (set_id_filters { open_session [] with filter_mask := 7 } [] [3] [] [7])
    adv_filter_unset
    [{ (kshark_set_entry_values (mk_record 0 100 7 1)) with visible := 0 },
      { (kshark_set_entry_values (mk_record 0 200 8 3)) with visible := 0x55 }]
    rfl rfl).1 (by decide)

end KShark

namespace TraceRecord

/-! ## The capture loop of the recorder process -/

/-- The handlers never reset `finished`, and `finish` sets it. -/
theorem run_handler_finished (g : globals) (s : handler) :
    (g.finished ≠ 0 → (run_handler g s).finished ≠ 0) ∧
    (s = handler.finish → (run_handler g s).finished ≠ 0) ∧
    (s = handler.flush → (run_handler g s).finished = g.finished) ∧
    (run_handler g s).recorder = g.recorder := by
  cases s
  · refine ⟨fun _ => ?_, fun _ => ?_, fun h => (by cases h), ?_⟩
    · simp [run_handler, finish]
    · simp [run_handler, finish]
    · simp only [run_handler, finish]
      split <;> rfl
  · refine ⟨fun h => ?_, fun h => (by cases h), fun _ => ?_, ?_⟩
    · simp only [run_handler, flush]
      split <;> exact h
    · simp only [run_handler, flush]
      split <;> rfl
    · simp only [run_handler, flush]
      split <;> rfl

/-- Once `finished` is set, or once `finish` has run, `finished` stays set whatever
handlers run afterwards. -/
theorem foldl_run_handler_finished (signals : List handler) :
    ∀ g : globals, (g.finished ≠ 0 ∨ handler.finish ∈ signals) →
      (signals.foldl run_handler g).finished ≠ 0 := by
  induction signals with
  | nil =>
    intro g h
    rcases h with h | h
    · exact h
    · simp at h
  | cons s rest ih =>
    intro g h
    simp only [List.foldl_cons]
    apply ih
    rcases h with h | h
    · exact Or.inl ((run_handler_finished g s).1 h)
    · rcases List.mem_cons.1 h with h | h
      · exact Or.inl ((run_handler_finished g s).2.1 h.symm)
      · exact Or.inr h

/-- With `finished` set on entry of the loop condition, no call is started and the
process exits with status 0. -/
theorem create_recorder_loop_finished (g : globals) (calls : List recording_call)
    (h : g.finished ≠ 0) :
    create_recorder_loop g calls =
      { exit_status := some 0, calls_started := 0, globals := g } := by
  cases calls <;> simp [create_recorder_loop, h]

/-- C17 (counterexample): the first `tracecmd_start_recording` call returns -1 and no
signal arrives; the recorder process exits with status 0. -/
theorem create_recorder_exit_zero_on_failure :
    (create_recorder_loop loop_entry [{ signals := [], ret := -1 }]).exit_status =
      some 0 := by
  decide

/-- C17 (amended): the exit status of the recorder process does not tell a failure
from a clean shutdown. Whatever the calls return and whatever signals arrive, the
process is still in the loop or has exited with status 0; it has exited with status 0
when a `tracecmd_start_recording` call returned a negative value, and also when
`finished` was set. -/
theorem create_recorder_exit_status_zero (g : globals) (calls : List recording_call) :
    ((create_recorder_loop g calls).exit_status = none ∨
      (create_recorder_loop g calls).exit_status = some 0) ∧
    ((∃ call ∈ calls, call.ret < 0) →
      (create_recorder_loop g calls).exit_status = some 0) ∧
    (g.finished ≠ 0 → (create_recorder_loop g calls).exit_status = some 0) := by
  refine ⟨?_, ?_, fun h => by rw [create_recorder_loop_finished g calls h]⟩
  · induction calls generalizing g with
    | nil =>
      simp only [create_recorder_loop]
      split
      · exact Or.inr rfl
      · exact Or.inl rfl
    | cons call rest ih =>
      simp only [create_recorder_loop]
      split
      · exact Or.inr rfl
      · split
        · exact Or.inr rfl
        · exact ih _
  · induction calls generalizing g with
    | nil => rintro ⟨call, hc, _⟩; simp at hc
    | cons call rest ih =>
      rintro ⟨c, hc, hneg⟩
      simp only [create_recorder_loop]
      split
      · rfl
      · split
        · rfl
        · rename_i hret
          rcases List.mem_cons.1 hc with h | h
          · subst h
            exact absurd hneg hret
          · exact ih _ ⟨c, h, hneg⟩

/-- C18 (counterexample): the flush handler runs during the first
`tracecmd_start_recording` call, which then returns 0; the loop starts a second call
and the process has not exited. -/
theorem create_recorder_flush_does_not_end_loop :
    create_recorder_loop loop_entry
        [{ signals := [handler.flush], ret := 0 }, { signals := [], ret := 0 }] =
      { exit_status := none, calls_started := 2,
        globals := { finished := 0, recorder := true, stop_calls := 1 } } := by
  decide

/-- The course of the loop depends on `finished` and `recorder` only, not on the
number of `tracecmd_stop_recording` calls. -/
theorem create_recorder_loop_congr (calls : List recording_call) :
    ∀ g1 g2 : globals, g1.finished = g2.finished → g1.recorder = g2.recorder →
      (create_recorder_loop g1 calls).exit_status =
        (create_recorder_loop g2 calls).exit_status ∧
      (create_recorder_loop g1 calls).calls_started =
        (create_recorder_loop g2 calls).calls_started := by
  induction calls with
  | nil =>
    intro g1 g2 hf _
    simp only [create_recorder_loop, hf]
    split <;> exact ⟨rfl, rfl⟩
  | cons call rest ih =>
    intro g1 g2 hf hr
    have hfold : ∀ (signals : List handler) (a b : globals),
        a.finished = b.finished → a.recorder = b.recorder →
        (signals.foldl run_handler a).finished = (signals.foldl run_handler b).finished ∧
        (signals.foldl run_handler a).recorder = (signals.foldl run_handler b).recorder := by
      intro signals
      induction signals with
      | nil => intro a b h1 h2; exact ⟨h1, h2⟩
      | cons s more ihs =>
        intro a b h1 h2
        simp only [List.foldl_cons]
        apply ihs
        · cases s
          · simp [run_handler, finish]
          · simp only [run_handler, flush, h2]
            split <;> exact h1
        · rw [(run_handler_finished a s).2.2.2, (run_handler_finished b s).2.2.2, h2]
    obtain ⟨e1, e2⟩ := hfold call.signals g1 g2 hf hr
    simp only [create_recorder_loop, hf]
    split
    · exact ⟨rfl, rfl⟩
    · split
      · exact ⟨rfl, rfl⟩
      · obtain ⟨i1, i2⟩ := ih _ _ e1 e2
        exact ⟨i1, by simp only [i2]⟩

/-- C18 (amended): once the finish handler has run, the capture loop starts no other
`tracecmd_start_recording` call and the process exits with status 0, also when the
handler ran during a call. The flush handler leaves `finished` as it is, and the loop
takes the same course after it as without it. -/
theorem create_recorder_finish_ends_loop (g : globals) (calls : List recording_call) :
    create_recorder_loop (finish g) calls =
      { exit_status := some 0, calls_started := 0, globals := finish g } ∧
    (∀ call : recording_call, g.finished = 0 → handler.finish ∈ call.signals →
      (create_recorder_loop g (call :: calls)).exit_status = some 0 ∧
      (create_recorder_loop g (call :: calls)).calls_started = 1) ∧
    (flush g).finished = g.finished ∧
    (create_recorder_loop (flush g) calls).exit_status =
      (create_recorder_loop g calls).exit_status ∧
    (create_recorder_loop (flush g) calls).calls_started =
      (create_recorder_loop g calls).calls_started := by
  have hfin : (finish g).finished ≠ 0 := by simp [finish]
  have hflush : (flush g).finished = g.finished ∧ (flush g).recorder = g.recorder := by
    simp only [flush]
    split <;> exact ⟨rfl, rfl⟩
  refine ⟨create_recorder_loop_finished _ calls hfin, ?_, hflush.1,
    (create_recorder_loop_congr calls _ _ hflush.1 hflush.2).1,
    (create_recorder_loop_congr calls _ _ hflush.1 hflush.2).2⟩
  intro call h0 hmem
  have hafter := foldl_run_handler_finished call.signals g (Or.inr hmem)
  simp only [create_recorder_loop, h0, ne_eq, not_true_eq_false, if_false]
  split
  · exact ⟨rfl, rfl⟩
  · rw [create_recorder_loop_finished _ calls hafter]
    exact ⟨rfl, rfl⟩

/-! ## The DATE anchor string -/

/-- The `unsigned long long` difference is the difference modulo 2^64. -/
theorem sub_u64_eq (x y : Nat) (hx : x < 2 ^ 64) (hy : y < 2 ^ 64) :
    sub_u64 x y = (((x : Int) - (y : Int)) % 2 ^ 64).toNat ∧ sub_u64 x y < 2 ^ 64 := by
  unfold sub_u64
  have h : (2 : Nat) ^ 64 = 18446744073709551616 := by norm_num
  have h2 : (2 : Int) ^ 64 = 18446744073709551616 := by norm_num
  rw [h] at hx hy ⊢
  rw [h2]
  omega

/-- Every character `%llx` writes is a lowercase hexadecimal digit. -/
theorem toDigitsCore_hex (fuel : Nat) :
    ∀ (n : Nat) (ds : List Char), (∀ c ∈ ds, c ∈ "0123456789abcdef".toList) →
      ∀ c ∈ Nat.toDigitsCore 16 fuel n ds, c ∈ "0123456789abcdef".toList := by
  induction fuel with
  | zero => intro n ds h c hc; exact h c (by simpa [Nat.toDigitsCore] using hc)
  | succ fuel ih =>
    intro n ds h c hc
    have hd : Nat.digitChar (n % 16) ∈ "0123456789abcdef".toList := by
      have hlt : n % 16 < 16 := Nat.mod_lt _ (by norm_num)
      interval_cases (n % 16) <;> decide
    have hds : ∀ c ∈ Nat.digitChar (n % 16) :: ds, c ∈ "0123456789abcdef".toList := by
      intro c hc
      rcases List.mem_cons.1 hc with h1 | h1
      · rw [h1]; exact hd
      · exact h c h1
    simp only [Nat.toDigitsCore] at hc
    split at hc
    · exact hds c hc
    · exact ih _ _ hds c hc

/-- C21: for 64-bit values `min_stamp` and `min_ts`, the string `get_date_to_ts` builds
is `0x` followed by the lowercase hexadecimal digits of `min_stamp - min_ts / 1000`
taken modulo 2^64; it has at most 18 characters, so `snprintf` with size 19 cuts
nothing. -/
theorem get_date_to_ts_string_fits (min_stamp min_ts : Nat) (h1 : min_stamp < 2 ^ 64)
    (h2 : min_ts < 2 ^ 64) :
    get_date_to_ts_string min_stamp min_ts =
      "0x".toList ++
        Nat.toDigits 16 ((((min_stamp : Int) - ((min_ts / 1000 : Nat) : Int)) % 2 ^ 64).toNat) ∧
    (get_date_to_ts_string min_stamp min_ts).length ≤ 18 ∧
    (Nat.toDigits 16
      ((((min_stamp : Int) - ((min_ts / 1000 : Nat) : Int)) % 2 ^ 64).toNat)).length ≤ 16 ∧
    ∀ c ∈ Nat.toDigits 16
        ((((min_stamp : Int) - ((min_ts / 1000 : Nat) : Int)) % 2 ^ 64).toNat),
      c ∈ "0123456789abcdef".toList := by
  have hdiv : min_ts / 1000 < 2 ^ 64 := lt_of_le_of_lt (Nat.div_le_self _ _) h2
  obtain ⟨hv, hlt⟩ := sub_u64_eq min_stamp (min_ts / 1000) h1 hdiv
  rw [← hv]
  have hlen : (Nat.toDigits 16 (sub_u64 min_stamp (min_ts / 1000))).length ≤ 16 := by
    unfold Nat.toDigits
    apply Nat.toDigitsCore_length 16 (by norm_num) _ _ 16 _ (by norm_num)
    calc sub_u64 min_stamp (min_ts / 1000) < 2 ^ 64 := hlt
      _ = 16 ^ 16 := by norm_num
  have hfull : ("0x".toList ++ sprintf_llx (sub_u64 min_stamp (min_ts / 1000))).length ≤
      18 := by
    simp only [List.length_append, sprintf_llx]
    have : "0x".toList.length = 2 := by decide
    omega
  have heq : get_date_to_ts_string min_stamp min_ts =
      "0x".toList ++ Nat.toDigits 16 (sub_u64 min_stamp (min_ts / 1000)) := by
    unfold get_date_to_ts_string snprintf
    rw [List.take_of_length_le (by simpa using hfull)]
    rfl
  refine ⟨heq, ?_, hlen, ?_⟩
  · rw [heq]
    exact hfull
  · unfold Nat.toDigits
    exact toDigitsCore_hex _ _ [] (by intro c hc; simp at hc)

/-- Witness for C21: `min_stamp` 0 and `min_ts` 1000 give 2^64 - 1, sixteen digits. -/
theorem get_date_to_ts_string_fits_witness :
    get_date_to_ts_string 0 1000 = "0xffffffffffffffff".toList ∧
    (get_date_to_ts_string 0 1000).length ≤ 18 :=
  ⟨by decide,
    (get_date_to_ts_string_fits 0 1000 (by norm_num) (by norm_num)).2.1⟩

/-! ## Buffer sizes -/

/-- C24 (failing input): for every pid filter and every event filter, the block
`update_event_filters` requests is 2 bytes shorter than the string `(P)&&(F)` with its
NUL: the size is `|P| + |F| + 5` and the string needs `|P| + |F| + 7` bytes. For the
filters `common_pid==1` and `a>0` it requests 21 bytes for 23. -/
theorem update_event_filters_block_too_small (pid_filter event_filter : List Char) :
    update_event_filters_size pid_filter event_filter =
      pid_filter.length + event_filter.length + 5 ∧
    (update_event_filters_string pid_filter event_filter).length + 1 =
      pid_filter.length + event_filter.length + 7 ∧
    update_event_filters_size pid_filter event_filter <
      (update_event_filters_string pid_filter event_filter).length + 1 ∧
    update_event_filters_size ("common_pid==1".toList) ("a>0".toList) = 21 ∧
    (update_event_filters_string ("common_pid==1".toList) ("a>0".toList)).length + 1 =
      23 := by
  have h1 : update_event_filters_size pid_filter event_filter =
      pid_filter.length + event_filter.length + 5 := by
    simp [update_event_filters_size]
  have h2 : (update_event_filters_string pid_filter event_filter).length + 1 =
      pid_filter.length + event_filter.length + 7 := by
    simp [update_event_filters_string]
    omega
  refine ⟨h1, h2, by omega, by decide, by decide⟩

/-- The first `:` of a name. -/
theorem indexOf_colon (sys rest : List Char) (h : ':' ∉ sys) :
    (sys ++ ':' :: rest).indexOf ':' = sys.length := by
  rw [List.indexOf_append_of_not_mem h, List.indexOf_cons_self]
  rfl

/-- When nothing follows the `:`, the store of the NUL after the `*` is outside the
block. -/
theorem expand_event_str_overflow (sys : List Char) (h : ':' ∉ sys) :
    expand_event_str (sys ++ [':']) = none := by
  unfold expand_event_str
  rw [indexOf_colon sys [] h]
  simp [store]

/-- When something follows the `:`, the block holds the name with its first `:`
replaced by `/`. -/
theorem expand_event_str_fits (sys rest : List Char) (h : ':' ∉ sys) (hr : rest ≠ []) :
    expand_event_str (sys ++ ':' :: rest) = some (sys ++ '/' :: rest ++ [NUL]) := by
  unfold expand_event_str
  rw [indexOf_colon sys rest h]
  have hlen : rest.length ≠ 0 := fun e => hr (List.length_eq_zero.1 e)
  simp [store, hlen]

/-- C25 (failing input): for the event name `sched:` the block has 7 bytes, the
pattern `sched/*` with its NUL needs 8, and the store of the NUL at index 7 is outside
the block. A name with something after the `:`, such as `sched:sched_switch`, fits. -/
theorem expand_event_str_sched_overflow :
    ("sched:".toList ++ [NUL]).length = 7 ∧
    ("sched/*".toList ++ [NUL]).length = 8 ∧
    expand_event_str ("sched:".toList) = none ∧
    (expand_event_str ("sched:sched_switch".toList)).map c_string =
      some ("sched/sched_switch".toList) := by
  decide

/-! ## The pid filter string -/

/-- The state after a run of `add_filter_pid` calls: the list holds the pids most recent
first, `nr_filter_pids` counts them and `len_filter_pids` sums their printed lengths. -/
theorem foldl_add_filter_pid (pids : List Int) :
    ∀ g : pid_globals,
      (pids.foldl add_filter_pid g).filter_pids = pids.reverse ++ g.filter_pids ∧
      (pids.foldl add_filter_pid g).nr_filter_pids = g.nr_filter_pids + pids.length ∧
      (pids.foldl add_filter_pid g).len_filter_pids =
        g.len_filter_pids + (pids.map (fun pid => (sprintf_d pid).length)).sum := by
  induction pids with
  | nil => intro g; simp
  | cons pid pids ih =>
    intro g
    obtain ⟨h1, h2, h3⟩ := ih (add_filter_pid g pid)
    simp only [List.foldl_cons, h1, h2, h3]
    simp [add_filter_pid]
    omega

/-- Length of what the loop of `make_pid_filter` writes after its first item. -/
theorem make_pid_filter_loop_length (field : List Char) (pids : List Int) :
    (make_pid_filter_loop field false pids).length =
      (pids.map (fun pid => (sprintf_d pid).length)).sum +
        (field.length + 6) * pids.length := by
  induction pids with
  | nil => simp [make_pid_filter_loop]
  | cons pid pids ih =>
    simp only [make_pid_filter_loop, List.length_append, ih, List.map_cons, List.sum_cons,
      List.length_cons]
    have h1 : "||".toList.length = 2 := by decide
    have h2 : "(".toList.length = 1 := by decide
    have h3 : "==".toList.length = 2 := by decide
    have h4 : ")".toList.length = 1 := by decide
    simp only [Bool.false_eq_true, if_false, h1, h2, h3, h4]
    ring

/-- Length of what `make_pid_filter` writes for a non-empty list. -/
theorem make_pid_filter_loop_length_first (field : List Char) (pid : Int)
    (pids : List Int) :
    (make_pid_filter_loop field true (pid :: pids)).length + 2 =
      ((pid :: pids).map (fun pid => (sprintf_d pid).length)).sum +
        (field.length + 6) * (pid :: pids).length := by
  simp only [make_pid_filter_loop, List.length_append, make_pid_filter_loop_length,
    List.map_cons, List.sum_cons, List.length_cons]
  have h0 : "".toList.length = 0 := by decide
  have h2 : "(".toList.length = 1 := by decide
  have h3 : "==".toList.length = 2 := by decide
  have h4 : ")".toList.length = 1 := by decide
  simp only [if_true, h0, h2, h3, h4]
  ring

/-- Joining with a separator, one item at a time. -/
theorem intercalate_cons_cons (sep x y : List Char) (ys : List (List Char)) :
    List.intercalate sep (x :: y :: ys) = x ++ (sep ++ List.intercalate sep (y :: ys)) := by
  simp [List.intercalate, List.intersperse]

/-- What the loop writes after its first item is `||` and the remaining items joined
by `||`. -/
theorem make_pid_filter_loop_rest (field : List Char) (pid : Int) (pids : List Int) :
    make_pid_filter_loop field false (pid :: pids) =
      "||".toList ++ pid_filter_reference field (pid :: pids) := by
  induction pids generalizing pid with
  | nil =>
    simp [make_pid_filter_loop, pid_filter_reference, List.intercalate, List.intersperse]
  | cons q pids ih =>
    have h := ih q
    unfold pid_filter_reference at h ⊢
    simp only [List.map_cons] at h ⊢
    rw [intercalate_cons_cons, ← h]
    simp [make_pid_filter_loop]

/-- What `make_pid_filter` writes for a non-empty list is the items joined by `||`. -/
theorem make_pid_filter_loop_first (field : List Char) (pid : Int) (pids : List Int) :
    make_pid_filter_loop field true (pid :: pids) =
      pid_filter_reference field (pid :: pids) := by
  cases pids with
  | nil =>
    simp [make_pid_filter_loop, pid_filter_reference, List.intercalate, List.intersperse]
  | cons q pids =>
    have h := make_pid_filter_loop_rest field q pids
    unfold pid_filter_reference at h ⊢
    simp only [List.map_cons] at h ⊢
    rw [intercalate_cons_cons, ← h]
    simp [make_pid_filter_loop]

/-- C26: after `add_filter_pid` has recorded a non-empty sequence of pids, the string
`make_pid_filter` writes for a field is the items `(field==pid)` joined by `||`, the most
recently added pid first, and its length plus 2 is the allocated size
`len_filter_pids + (strlen(field) + strlen("(==)||")) * nr_filter_pids`, so the string
and its NUL fit; negative pids are printed with their sign and counted with it. -/
theorem make_pid_filter_fits (field : List Char) (pids : List Int) (hne : pids ≠ []) :
    (pids.foldl add_filter_pid pid_globals_init).filter_pids = pids.reverse ∧
    (make_pid_filter (pids.foldl add_filter_pid pid_globals_init) field).2 =
      List.intercalate ("||".toList)
        (pids.reverse.map
          (fun pid => "(".toList ++ field ++ "==".toList ++ sprintf_d pid ++ ")".toList)) ∧
    (make_pid_filter (pids.foldl add_filter_pid pid_globals_init) field).2.length + 2 =
      (make_pid_filter (pids.foldl add_filter_pid pid_globals_init) field).1 ∧
    (make_pid_filter (pids.foldl add_filter_pid pid_globals_init) field).2.length + 1 ≤
      (pids.foldl add_filter_pid pid_globals_init).len_filter_pids +
        (field.length + "(==)||".toList.length) *
          (pids.foldl add_filter_pid pid_globals_init).nr_filter_pids := by
  obtain ⟨h1, h2, h3⟩ := foldl_add_filter_pid pids pid_globals_init
  have hl : (pids.foldl add_filter_pid pid_globals_init).filter_pids = pids.reverse := by
    rw [h1]; simp [pid_globals_init]
  have hrev : pids.reverse ≠ [] := by simpa using hne
  obtain ⟨pid, rest, hpr⟩ := List.exists_cons_of_ne_nil hrev
  have h6 : "(==)||".toList.length = 6 := by decide
  have hsum : (pids.map (fun pid => (sprintf_d pid).length)).sum =
      ((pid :: rest).map (fun pid => (sprintf_d pid).length)).sum := by
    rw [← hpr, List.map_reverse, List.sum_reverse]
  have hlen : pids.length = (pid :: rest).length := by
    rw [← hpr, List.length_reverse]
  have hsize : (make_pid_filter_loop field true (pid :: rest)).length + 2 =
      (pids.foldl add_filter_pid pid_globals_init).len_filter_pids +
        (field.length + "(==)||".toList.length) *
          (pids.foldl add_filter_pid pid_globals_init).nr_filter_pids := by
    rw [make_pid_filter_loop_length_first, h2, h3, h6, hsum, hlen]
    simp [pid_globals_init]
  refine ⟨hl, ?_, ?_, ?_⟩
  · simp only [make_pid_filter, hl, hpr]
    exact make_pid_filter_loop_first field pid rest
  · simp only [make_pid_filter, hl, hpr]
    exact hsize
  · simp only [make_pid_filter, hl, hpr]
    omega

/-- Witness for C26: pids 1 and then -22 with the field `common_pid`. -/
theorem make_pid_filter_fits_witness :
    (make_pid_filter ([1, -22].foldl add_filter_pid pid_globals_init)
      ("common_pid".toList)) = (36, "(common_pid==-22)||(common_pid==1)".toList) ∧
    (make_pid_filter ([1, -22].foldl add_filter_pid pid_globals_init)
      ("common_pid".toList)).2.length + 2 =
      (make_pid_filter ([1, -22].foldl add_filter_pid pid_globals_init)
        ("common_pid".toList)).1 :=
  ⟨by decide, (make_pid_filter_fits ("common_pid".toList) [1, -22] (by decide)).2.2.1⟩

end TraceRecord

namespace TraceRead

/-! ## The wakeup latency table -/

/-- An `unsigned int` stored in an `int` and read back is unchanged. -/
theorem unsigned_of_int_of_unsigned (val : Nat) (h : val < 2 ^ 32) :
    unsigned_of_int (int_of_unsigned val) = val := by
  unfold unsigned_of_int int_of_unsigned
  have h1 : (2 : Nat) ^ 32 = 4294967296 := by norm_num
  have h2 : (2 : Nat) ^ 31 = 2147483648 := by norm_num
  have h3 : (2 : Int) ^ 32 = 4294967296 := by norm_num
  rw [h1] at h ⊢
  rw [h2, h3]
  split <;> omega

/-- The subtraction of `add_sched` is the difference modulo 2^64. -/
theorem cal_eq (end_ start : Nat) :
    (end_ + 2 ^ 64 - start % 2 ^ 64) % 2 ^ 64 =
      ((((end_ : Int) - (start : Int)) % 2 ^ 64).toNat) % 2 ^ 64 := by
  have h : (2 : Nat) ^ 64 = 18446744073709551616 := by norm_num
  have h2 : (2 : Int) ^ 64 = 18446744073709551616 := by norm_num
  rw [h, h2]
  omega

/-- The walk finds nothing exactly when no node of the bucket has the pid. -/
theorem find_wakeup_from_none (val : Nat) (l : List wakeup_info) :
    find_wakeup_from val l = none ↔ ∀ info ∈ l, unsigned_of_int info.pid ≠ val := by
  induction l with
  | nil => simp [find_wakeup_from]
  | cons a l ih =>
    simp only [find_wakeup_from, List.mem_cons, forall_eq_or_imp]
    by_cases h : unsigned_of_int a.pid = val
    · simp [h]
    · simp [h, ih]

/-- The walk finds the first node with the pid: the bucket splits around it. -/
theorem find_wakeup_from_some (val : Nat) (l : List wakeup_info) (i : Nat)
    (info : wakeup_info) (h : find_wakeup_from val l = some (i, info)) :
    ∃ pre post, l = pre ++ info :: post ∧ pre.length = i ∧
      unsigned_of_int info.pid = val ∧ ∀ x ∈ pre, unsigned_of_int x.pid ≠ val := by
  induction l generalizing i with
  | nil => simp [find_wakeup_from] at h
  | cons a l ih =>
    simp only [find_wakeup_from] at h
    by_cases ha : unsigned_of_int a.pid = val
    · simp only [ha, if_true, Option.some.injEq, Prod.mk.injEq] at h
      obtain ⟨h1, h2⟩ := h
      subst h1 h2
      exact ⟨[], l, rfl, rfl, ha, by simp⟩
    · simp only [ha, if_false] at h
      cases hr : find_wakeup_from val l with
      | none => rw [hr] at h; simp at h
      | some r =>
      obtain ⟨j, info1⟩ := r
      rw [hr] at h
      simp only [Option.map_some', Option.some.injEq, Prod.mk.injEq] at h
      obtain ⟨hj, hinfo⟩ := h
      subst hinfo
      obtain ⟨pre, post, hl, hlen, hpid, hpre⟩ := ih j hr
      refine ⟨a :: pre, post, by rw [hl]; rfl, by simp [hlen, hj], hpid, ?_⟩
      intro x hx
      rcases List.mem_cons.1 hx with hx | hx
      · rw [hx]; exact ha
      · exact hpre x hx

/-- The node the walk returns, without its position, is the first node with the pid. -/
theorem find_wakeup_from_find (val : Nat) (l : List wakeup_info) :
    (find_wakeup_from val l).map (fun r => r.2) =
      l.find? (fun info => decide (unsigned_of_int info.pid = val)) := by
  induction l with
  | nil => rfl
  | cons a l ih =>
    simp only [find_wakeup_from, List.find?_cons]
    by_cases ha : unsigned_of_int a.pid = val
    · simp [ha]
    · simp only [ha, if_false, decide_False, Option.map_map]
      rw [← ih]
      rfl

/-- The start stamp of a pid is the start of the first node with the pid in its
bucket. -/
theorem wakeup_start_eq (st : wakeup_state) (val : Nat) :
    wakeup_start st val =
      ((st.wakeup_hash (calc_wakeup_key val)).find?
        (fun info => decide (unsigned_of_int info.pid = val))).map (fun info => info.start) := by
  unfold wakeup_start __find_wakeup
  rw [← find_wakeup_from_find, Option.map_map]
  rfl

/-- Replacing the node at the split point. -/
theorem set_at_split (pre post : List wakeup_info) (a b : wakeup_info) :
    (pre ++ a :: post).set pre.length b = pre ++ b :: post := by
  induction pre with
  | nil => rfl
  | cons x pre ih => simp [ih]

/-- Unlinking the node at the split point. -/
theorem eraseIdx_at_split (pre post : List wakeup_info) (a : wakeup_info) :
    (pre ++ a :: post).eraseIdx pre.length = pre ++ post := by
  induction pre with
  | nil => rfl
  | cons x pre ih => simp [ih]

/-- In a bucket without two nodes of one pid, at most one node has a given pid. -/
theorem countP_le_one (pid : Nat) (l : List wakeup_info)
    (h : l.Pairwise (fun a b => unsigned_of_int a.pid ≠ unsigned_of_int b.pid)) :
    l.countP (fun info => decide (unsigned_of_int info.pid = pid)) ≤ 1 := by
  induction l with
  | nil => simp
  | cons a l ih =>
    rw [List.pairwise_cons] at h
    by_cases ha : unsigned_of_int a.pid = pid
    · have h0 : l.countP (fun info => decide (unsigned_of_int info.pid = pid)) = 0 := by
        rw [List.countP_eq_zero]
        intro x hx
        have := h.1 x hx
        simp only [decide_eq_true_eq]
        intro hxp
        exact this (by rw [ha, hxp])
      rw [List.countP_cons_of_pos _ _ (by simpa using ha), h0]
    · rw [List.countP_cons_of_neg _ _ (by simpa using ha)]
      exact ih h.2

/-- Lookup in a bucket whose node for `val` got a new start. -/
theorem find_after_set (val start pid : Nat) (pre post : List wakeup_info)
    (info : wakeup_info) (hinfo : unsigned_of_int info.pid = val)
    (hpre : ∀ x ∈ pre, unsigned_of_int x.pid ≠ val) :
    ((pre ++ { info with start := start } :: post).find?
        (fun x => decide (unsigned_of_int x.pid = pid))).map (fun x => x.start) =
      if pid = val then some start
      else ((pre ++ info :: post).find?
        (fun x => decide (unsigned_of_int x.pid = pid))).map (fun x => x.start) := by
  induction pre with
  | nil =>
    by_cases hp : pid = val
    · simp [hp, hinfo]
    · have hne : ¬ unsigned_of_int info.pid = pid := by rw [hinfo]; exact fun e => hp e.symm
      simp [hp, hne]
  | cons a pre ih =>
    have ha : unsigned_of_int a.pid ≠ val := hpre a (by simp)
    have ih1 := ih (fun x hx => hpre x (by simp [hx]))
    by_cases hp : pid = val
    · subst hp
      simp only [if_true] at ih1 ⊢
      simp only [List.cons_append, List.find?_cons, ha, decide_False]
      exact ih1
    · simp only [hp, if_false] at ih1 ⊢
      simp only [List.cons_append, List.find?_cons]
      by_cases hap : unsigned_of_int a.pid = pid
      · simp [hap]
      · simp only [hap, decide_False]
        exact ih1

/-- Lookup in a bucket whose node for `val` was unlinked. -/
theorem find_after_erase (val pid : Nat) (pre post : List wakeup_info)
    (info : wakeup_info) (hinfo : unsigned_of_int info.pid = val)
    (hpre : ∀ x ∈ pre, unsigned_of_int x.pid ≠ val)
    (hpost : ∀ x ∈ post, unsigned_of_int x.pid ≠ val) :
    ((pre ++ post).find? (fun x => decide (unsigned_of_int x.pid = pid))).map
        (fun x => x.start) =
      if pid = val then none
      else ((pre ++ info :: post).find?
        (fun x => decide (unsigned_of_int x.pid = pid))).map (fun x => x.start) := by
  by_cases hp : pid = val
  · subst hp
    simp only [if_true, Option.map_eq_none', List.find?_eq_none, List.mem_append,
      decide_eq_true_eq]
    intro x hx
    rcases hx with hx | hx
    · exact hpre x hx
    · exact hpost x hx
  · have hne : ¬ unsigned_of_int info.pid = pid := by rw [hinfo]; exact fun e => hp e.symm
    simp only [hp, if_false, List.find?_append, List.find?_cons, hne, decide_False]

/-- The pids of a bucket do not change when a start is replaced. -/
theorem map_pid_set (start : Nat) (pre post : List wakeup_info) (info : wakeup_info) :
    (pre ++ { info with start := start } :: post).map (fun x => unsigned_of_int x.pid) =
      (pre ++ info :: post).map (fun x => unsigned_of_int x.pid) := by
  simp

/-- The invariant of one bucket in terms of the list of its pids. -/
theorem pairwise_pid_iff (l : List wakeup_info) :
    l.Pairwise (fun a b => unsigned_of_int a.pid ≠ unsigned_of_int b.pid) ↔
      (l.map (fun x => unsigned_of_int x.pid)).Pairwise (fun a b => a ≠ b) := by
  rw [List.pairwise_map]

/-- Effect of `add_wakeup` on a table that satisfies the invariant: the invariant
stays, the start of `val` becomes `start`, every other start and every counter is
unchanged. -/
theorem add_wakeup_spec (st : wakeup_state) (val start : Nat) (hval : val < 2 ^ 32)
    (hinv : wakeup_inv st) :
    wakeup_inv (add_wakeup st val start) ∧
    (∀ pid, wakeup_start (add_wakeup st val start) pid =
      if pid = val then some start else wakeup_start st pid) ∧
    (add_wakeup st val start).wakeup_lat_count = st.wakeup_lat_count ∧
    (add_wakeup st val start).total_wakeup_lat = st.total_wakeup_lat ∧
    (add_wakeup st val start).output = st.output := by
  obtain ⟨hhome, hpw⟩ := hinv
  cases hf : find_wakeup_from val (st.wakeup_hash (calc_wakeup_key val)) with
  | none =>
    have hst : add_wakeup st val start =
        { st with wakeup_hash := (Function.update st.wakeup_hash (calc_wakeup_key val)
          ({ start := start, pid := int_of_unsigned val } ::
            st.wakeup_hash (calc_wakeup_key val))) } := by
      simp only [add_wakeup, __find_wakeup, hf]
    have hnone := (find_wakeup_from_none val _).1 hf
    have hrt := unsigned_of_int_of_unsigned val hval
    rw [hst]
    refine ⟨⟨?_, ?_⟩, ?_, rfl, rfl, rfl⟩
    · intro key info hmem
      simp only [Function.update_apply] at hmem
      split at hmem
      · rename_i hk
        rcases List.mem_cons.1 hmem with h | h
        · rw [h, hk]; simp only; rw [hrt]
        · rw [hk]; exact hhome _ info h
      · exact hhome key info hmem
    · intro key
      simp only [Function.update_apply]
      split
      · rw [List.pairwise_cons]
        refine ⟨?_, hpw _⟩
        intro x hx
        simp only
        rw [hrt]
        exact fun e => hnone x hx e.symm
      · exact hpw key
    · intro pid
      rw [wakeup_start_eq, wakeup_start_eq]
      simp only [Function.update_apply]
      by_cases hp : pid = val
      · subst hp
        simp [hrt]
      · simp only [hp, if_false]
        split
        · rename_i hk
          have hne : ¬ unsigned_of_int (int_of_unsigned val) = pid := by
            rw [hrt]; exact fun e => hp e.symm
          simp only [List.find?_cons, hne, decide_False, hk]
        · rfl
  | some r =>
    obtain ⟨i, info⟩ := r
    have hst : add_wakeup st val start =
        { st with wakeup_hash := (Function.update st.wakeup_hash (calc_wakeup_key val)
          ((st.wakeup_hash (calc_wakeup_key val)).set i { info with start := start })) } := by
      simp only [add_wakeup, __find_wakeup, hf]
    obtain ⟨pre, post, hl, hlen, hpid, hpre⟩ := find_wakeup_from_some val _ i info hf
    rw [hst, hl, ← hlen, set_at_split]
    refine ⟨⟨?_, ?_⟩, ?_, rfl, rfl, rfl⟩
    · intro key x hmem
      simp only [Function.update_apply] at hmem
      split at hmem
      · rename_i hk
        rw [hk]
        simp only [List.mem_append, List.mem_cons] at hmem
        rcases hmem with h | h | h
        · exact hhome _ x (by rw [hl]; simp [h])
        · rw [h]
          exact hhome _ info (by rw [hl]; simp)
        · exact hhome _ x (by rw [hl]; simp [h])
      · exact hhome key x hmem
    · intro key
      simp only [Function.update_apply]
      split
      · rw [pairwise_pid_iff, map_pid_set, ← pairwise_pid_iff, ← hl]
        exact hpw _
      · exact hpw key
    · intro pid
      rw [wakeup_start_eq, wakeup_start_eq]
      simp only [Function.update_apply]
      by_cases hk : calc_wakeup_key pid = calc_wakeup_key val
      · simp only [hk, if_true]
        rw [find_after_set val start pid pre post info hpid hpre, hl]
      · have hp : pid ≠ val := fun e => hk (by rw [e])
        simp only [hk, hp, if_false]

/-- Without a node for `val`, `add_sched` returns the globals it was given. -/
theorem add_sched_none (st : wakeup_state) (val end_ : Nat)
    (h : wakeup_start st val = none) : add_sched st val end_ = st := by
  unfold wakeup_start at h
  rw [Option.map_eq_none'] at h
  simp only [add_sched, h]

/-- Effect of `add_sched` on a table that satisfies the invariant and holds a node for
`val` with start `start`. -/
theorem add_sched_some (st : wakeup_state) (val end_ start : Nat)
    (hinv : wakeup_inv st) (h : wakeup_start st val = some start) :
    wakeup_inv (add_sched st val end_) ∧
    (∀ pid, wakeup_start (add_sched st val end_) pid =
      if pid = val then none else wakeup_start st pid) ∧
    (add_sched st val end_).wakeup_lat_count = (st.wakeup_lat_count + 1) % 2 ^ 64 ∧
    (add_sched st val end_).total_wakeup_lat =
      (st.total_wakeup_lat + (end_ + 2 ^ 64 - start % 2 ^ 64) % 2 ^ 64) % 2 ^ 64 ∧
    (add_sched st val end_).output =
      st.output ++ [((end_ + 2 ^ 64 - start % 2 ^ 64) % 2 ^ 64 / 1000,
        (end_ + 2 ^ 64 - start % 2 ^ 64) % 2 ^ 64 % 1000)] ∧
    ∀ key, ((add_sched st val end_).wakeup_hash key).countP
      (fun info => decide (unsigned_of_int info.pid = val)) = 0 := by
  obtain ⟨hhome, hpw⟩ := hinv
  cases hf : find_wakeup_from val (st.wakeup_hash (calc_wakeup_key val)) with
  | none =>
    simp [wakeup_start, __find_wakeup, hf] at h
  | some r =>
    obtain ⟨i, info⟩ := r
    have hstart : info.start = start := by
      simpa [wakeup_start, __find_wakeup, hf] using h
    obtain ⟨pre, post, hl, hlen, hpid, hpre⟩ := find_wakeup_from_some val _ i info hf
    have hpwl := hpw (calc_wakeup_key val)
    rw [hl, List.pairwise_append, List.pairwise_cons] at hpwl
    have hpost : ∀ x ∈ post, unsigned_of_int x.pid ≠ val := by
      intro x hx e
      exact hpwl.2.1.1 x hx (by rw [hpid, e])
    have hsub : ∀ x ∈ pre ++ post, x ∈ st.wakeup_hash (calc_wakeup_key val) := by
      intro x hx
      rw [hl]
      simp only [List.mem_append, List.mem_cons] at hx ⊢
      tauto
    have hhash : (add_sched st val end_).wakeup_hash =
        Function.update st.wakeup_hash (calc_wakeup_key val) (pre ++ post) := by
      simp only [add_sched, __find_wakeup, hf]
      rw [hl, ← hlen, eraseIdx_at_split]
    have hhome1 : ∀ key, ∀ x ∈ (add_sched st val end_).wakeup_hash key,
        calc_wakeup_key (unsigned_of_int x.pid) = key := by
      intro key x hmem
      rw [hhash] at hmem
      simp only [Function.update_apply] at hmem
      split at hmem
      · rename_i hk
        rw [hk]
        exact hhome _ x (hsub x hmem)
      · exact hhome key x hmem
    refine ⟨⟨hhome1, ?_⟩, ?_, ?_, ?_, ?_, ?_⟩
    · intro key
      rw [hhash]
      simp only [Function.update_apply]
      split
      · rw [List.pairwise_append]
        refine ⟨hpwl.1, hpwl.2.1.2, ?_⟩
        intro a ha b hb
        exact hpwl.2.2 a ha b (by simp [hb])
      · exact hpw key
    · intro pid
      rw [wakeup_start_eq, wakeup_start_eq, hhash]
      simp only [Function.update_apply]
      by_cases hk : calc_wakeup_key pid = calc_wakeup_key val
      · simp only [hk, if_true]
        rw [find_after_erase val pid pre post info hpid hpre hpost, hl]
      · have hp : pid ≠ val := fun e => hk (by rw [e])
        simp only [hk, hp, if_false]
    · simp only [add_sched, __find_wakeup, hf]
    · simp only [add_sched, __find_wakeup, hf, hstart]
    · simp only [add_sched, __find_wakeup, hf, hstart]
    · intro key
      rw [List.countP_eq_zero]
      intro x hx
      simp only [decide_eq_true_eq]
      rw [hhash] at hx
      simp only [Function.update_apply] at hx
      split at hx
      · rcases List.mem_append.1 hx with h1 | h1
        · exact hpre x h1
        · exact hpost x h1
      · rename_i hk
        intro e
        exact hk (by rw [← hhome key x hx, e])

/-- Number of nodes of a pid in each bucket of a table that satisfies the invariant. -/
theorem wakeup_inv_count (st : wakeup_state) (hinv : wakeup_inv st) (pid key : Nat) :
    (st.wakeup_hash key).countP (fun info => decide (unsigned_of_int info.pid = pid)) ≤
      if key = calc_wakeup_key pid then 1 else 0 := by
  split
  · exact countP_le_one pid _ (hinv.2 key)
  · rename_i hk
    rw [Nat.le_zero, List.countP_eq_zero]
    intro x hx
    simp only [decide_eq_true_eq]
    intro e
    exact hk (by rw [← hinv.1 key x hx, e])

/-- The reference after one more `add_wakeup`. -/
theorem pending_reference_wakeup (calls : List wakeup_call) (val start pid : Nat) :
    pending_reference (calls ++ [.wakeup val start]) pid =
      if pid = val then some start else pending_reference calls pid := by
  unfold pending_reference
  rw [List.reverse_append, List.reverse_singleton, List.singleton_append, List.find?_cons]
  by_cases hp : pid = val
  · simp [hp, wakeup_call_val]
  · have : ¬ val = pid := fun e => hp e.symm
    simp [hp, this, wakeup_call_val]

/-- The reference after one more `add_sched`. -/
theorem pending_reference_sched (calls : List wakeup_call) (val end_ pid : Nat) :
    pending_reference (calls ++ [.sched val end_]) pid =
      if pid = val then none else pending_reference calls pid := by
  unfold pending_reference
  rw [List.reverse_append, List.reverse_singleton, List.singleton_append, List.find?_cons]
  by_cases hp : pid = val
  · simp [hp, wakeup_call_val]
  · have : ¬ val = pid := fun e => hp e.symm
    simp [hp, this, wakeup_call_val]

/-- The table after a run of typed calls satisfies the invariant, agrees with the
reference on every pid, and has counted at most one latency per call. -/
theorem wakeup_run_spec (calls : List wakeup_call)
    (htyped : ∀ c ∈ calls, wakeup_call_typed c) :
    wakeup_inv (wakeup_run calls) ∧
    (∀ pid, wakeup_start (wakeup_run calls) pid = pending_reference calls pid) ∧
    (wakeup_run calls).wakeup_lat_count ≤ calls.length := by
  induction calls using List.reverseRecOn with
  | nil =>
    refine ⟨⟨?_, ?_⟩, ?_, ?_⟩
    · intro key info h; simp [wakeup_run, wakeup_init] at h
    · intro key; simp [wakeup_run, wakeup_init]
    · intro pid; rfl
    · simp [wakeup_run, wakeup_init]
  | append_singleton calls c ih =>
    obtain ⟨hinv, hstart, hcount⟩ := ih (fun c hc => htyped c (by simp [hc]))
    have hc := htyped c (by simp)
    have hrun : wakeup_run (calls ++ [c]) = wakeup_step (wakeup_run calls) c := by
      simp [wakeup_run]
    rw [hrun]
    cases c with
    | wakeup val start =>
      obtain ⟨h1, h2, h3, _, _⟩ := add_wakeup_spec (wakeup_run calls) val start hc.1 hinv
      refine ⟨h1, ?_, ?_⟩
      · intro pid
        rw [pending_reference_wakeup, ← hstart]
        exact h2 pid
      · simp only [wakeup_step, h3, List.length_append, List.length_singleton]
        omega
    | sched val end_ =>
      cases hs : wakeup_start (wakeup_run calls) val with
      | none =>
        simp only [wakeup_step]
        rw [add_sched_none _ _ _ hs]
        refine ⟨hinv, ?_, ?_⟩
        · intro pid
          rw [pending_reference_sched, ← hstart]
          by_cases hp : pid = val
          · rw [hp, hs]; simp
          · simp [hp]
        · simp only [List.length_append, List.length_singleton]
          omega
      | some start =>
        obtain ⟨h1, h2, h3, _, _, _⟩ := add_sched_some (wakeup_run calls) val end_ start hinv hs
        refine ⟨h1, ?_, ?_⟩
        · intro pid
          rw [pending_reference_sched, ← hstart]
          exact h2 pid
        · simp only [wakeup_step, h3, List.length_append, List.length_singleton]
          have := Nat.mod_le ((wakeup_run calls).wakeup_lat_count + 1) (2 ^ 64)
          omega

/-- C29: after every sequence of `add_wakeup` and `add_sched` calls with arguments of
the parameter types, each bucket holds at most one node per pid, and none outside the
bucket of the pid; the node `__find_wakeup` returns for a pid carries the start of the
most recent `add_wakeup` for it since its last `add_sched`. A further `add_sched(val,
end_)` with such a pending start prints and adds the latency `end_ - start` modulo 2^64,
adds one to `wakeup_lat_count` (exactly one while fewer than 2^64 - 1 calls were made),
removes the node and leaves every other pid as it was; without a pending start it
returns the globals unchanged. -/
theorem wakeup_table_spec (calls : List wakeup_call)
    (htyped : ∀ c ∈ calls, wakeup_call_typed c) (val end_ : Nat) :
    (∀ pid key, ((wakeup_run calls).wakeup_hash key).countP
        (fun info => decide (unsigned_of_int info.pid = pid)) ≤
      if key = calc_wakeup_key pid then 1 else 0) ∧
    (∀ pid, wakeup_start (wakeup_run calls) pid = pending_reference calls pid) ∧
    (pending_reference calls val = none →
      add_sched (wakeup_run calls) val end_ = wakeup_run calls) ∧
    (∀ start, pending_reference calls val = some start →
      (add_sched (wakeup_run calls) val end_).output =
        (wakeup_run calls).output ++
          [(((((end_ : Int) - (start : Int)) % 2 ^ 64).toNat) % 2 ^ 64 / 1000,
            ((((end_ : Int) - (start : Int)) % 2 ^ 64).toNat) % 2 ^ 64 % 1000)] ∧
      (add_sched (wakeup_run calls) val end_).total_wakeup_lat =
        ((wakeup_run calls).total_wakeup_lat +
          ((((end_ : Int) - (start : Int)) % 2 ^ 64).toNat) % 2 ^ 64) % 2 ^ 64 ∧
      (add_sched (wakeup_run calls) val end_).wakeup_lat_count =
        ((wakeup_run calls).wakeup_lat_count + 1) % 2 ^ 64 ∧
      (calls.length + 1 < 2 ^ 64 →
        (add_sched (wakeup_run calls) val end_).wakeup_lat_count =
          (wakeup_run calls).wakeup_lat_count + 1) ∧
      wakeup_start (add_sched (wakeup_run calls) val end_) val = none ∧
      (∀ key, ((add_sched (wakeup_run calls) val end_).wakeup_hash key).countP
        (fun info => decide (unsigned_of_int info.pid = val)) = 0) ∧
      ∀ pid, pid ≠ val →
        wakeup_start (add_sched (wakeup_run calls) val end_) pid =
          wakeup_start (wakeup_run calls) pid) := by
  obtain ⟨hinv, hstart, hcount⟩ := wakeup_run_spec calls htyped
  refine ⟨wakeup_inv_count _ hinv, hstart, ?_, ?_⟩
  · intro h
    exact add_sched_none _ _ _ (by rw [hstart, h])
  · intro start h
    obtain ⟨_, h2, h3, h4, h5, h6⟩ :=
      add_sched_some (wakeup_run calls) val end_ start hinv (by rw [hstart, h])
    rw [← cal_eq]
    refine ⟨h5, h4, h3, ?_, ?_, h6, ?_⟩
    · intro hlen
      rw [h3]
      exact Nat.mod_eq_of_lt (by omega)
    · simpa using h2 val
    · intro pid hp
      simpa [hp] using h2 pid

/-- Witness for C29: wakeups of pid 7 at 100, of pid 9 at 5, of pid 7 again at 300,
then `add_sched(7, 250)`: the pending start is 300 and the latency is 250 - 300 modulo
2^64. -/
theorem wakeup_table_spec_witness :
    (∀ c ∈ [wakeup_call.wakeup 7 100, .wakeup 9 5, .wakeup 7 300], wakeup_call_typed c) ∧
    pending_reference [wakeup_call.wakeup 7 100, .wakeup 9 5, .wakeup 7 300] 7 = some 300 ∧
    (add_sched (wakeup_run [wakeup_call.wakeup 7 100, .wakeup 9 5, .wakeup 7 300]) 7
      250).output = [(18446744073709551, 566)] ∧
    (add_sched (wakeup_run [wakeup_call.wakeup 7 100, .wakeup 9 5, .wakeup 7 300]) 7
      250).wakeup_lat_count = 1 ∧
    wakeup_start (wakeup_run [wakeup_call.wakeup 7 100, .wakeup 9 5, .wakeup 7 300]) 9 =
      pending_reference [wakeup_call.wakeup 7 100, .wakeup 9 5, .wakeup 7 300] 9 :=
  ⟨by simp [wakeup_call_typed, wakeup_call_val, wakeup_call_time], by decide, by decide,
    by decide,
    (wakeup_table_spec [wakeup_call.wakeup 7 100, .wakeup 9 5, .wakeup 7 300]
      (by simp [wakeup_call_typed, wakeup_call_val, wakeup_call_time]) 7 250).2.1 9⟩

/-! ## Reading the next record -/

/-- The loop returns the first accepted record and leaves what follows it. -/
theorem get_next_record_loop_spec (handles : handle_list) (l : List record) :
    (get_next_record_loop handles.event_filters handles.event_filter_out l).1 =
      l.find? (record_accepted handles) ∧
    (get_next_record_loop handles.event_filters handles.event_filter_out l).2 =
      (l.dropWhile (fun r => !record_accepted handles r)).tail := by
  induction l with
  | nil => exact ⟨rfl, rfl⟩
  | cons r l ih =>
    unfold get_next_record_loop
    cases hi : handles.event_filters r <;> cases ho : handles.event_filter_out r <;>
      simp [record_accepted, hi, ho, List.find?_cons, List.dropWhile_cons, ih]

/-- C27: on a handle that holds no record and is not done, `get_next_record` (without
a CPU list) returns the first record of the input whose include verdict is `FILTER_NONE`
or `FILTER_MATCH` and whose exclude verdict is not `FILTER_MATCH`, keeps it in the handle
and leaves the input just after it; it returns NULL exactly when no remaining record
passes, and marks the handle done exactly then; a second call before
`free_handle_record` returns the same record and leaves the handle, its input
included, as it was. -/
theorem get_next_record_spec (handles : handle_list) (hrec : handles.record = none)
    (hdone : handles.done = false) :
    (get_next_record handles).1 = handles.handle.find? (record_accepted handles) ∧
    (get_next_record handles).2.2.record = (get_next_record handles).1 ∧
    (get_next_record handles).2.2.handle =
      (handles.handle.dropWhile (fun r => !record_accepted handles r)).tail ∧
    ((get_next_record handles).1 = none ↔
      ∀ r ∈ handles.handle, record_accepted handles r = false) ∧
    ((get_next_record handles).2.2.done = true ↔ (get_next_record handles).1 = none) ∧
    (get_next_record (get_next_record handles).2.2).1 = (get_next_record handles).1 ∧
    (get_next_record (get_next_record handles).2.2).2.2 = (get_next_record handles).2.2 := by
  obtain ⟨h1, h2⟩ := get_next_record_loop_spec handles handles.handle
  have hret : (get_next_record handles).1 =
      (get_next_record_loop handles.event_filters handles.event_filter_out
        handles.handle).1 := by
    simp [get_next_record, hrec, hdone]
  have hst : (get_next_record handles).2.2 =
      { handles with
        handle := (get_next_record_loop handles.event_filters handles.event_filter_out
          handles.handle).2
        record := (get_next_record_loop handles.event_filters handles.event_filter_out
          handles.handle).1
        done := (if (get_next_record_loop handles.event_filters handles.event_filter_out
          handles.handle).1.isNone then true else handles.done) } := by
    simp [get_next_record, hrec, hdone]
  refine ⟨by rw [hret, h1], by rw [hst, hret], by rw [hst, ← h2], ?_, ?_, ?_, ?_⟩
  · rw [hret, h1, List.find?_eq_none]
    simp
  · rw [hst, hret]
    cases (get_next_record_loop handles.event_filters handles.event_filter_out
      handles.handle).1 <;> simp [hdone]
  · rw [hret]
    generalize (get_next_record handles).2.2 = hs at hst
    subst hst
    cases hr : (get_next_record_loop handles.event_filters handles.event_filter_out
      handles.handle).1 <;> simp [get_next_record, hr]
  · generalize (get_next_record handles).2.2 = hs at hst
    subst hst
    cases hr : (get_next_record_loop handles.event_filters handles.event_filter_out
      handles.handle).1 <;> simp [get_next_record, hr]

/-- Witness for C27: three records; the include filter misses the first, the exclude
filter matches the second, the third is returned. -/
theorem get_next_record_spec_witness :
    (get_next_record (open_handle
      [{ ts := 1, cpu := 0, offset := 0 }, { ts := 2, cpu := 1, offset := 8 },
        { ts := 3, cpu := 0, offset := 16 }]
      (fun r => if r.ts = 1 then .FILTER_MISS else .FILTER_MATCH)
      (fun r => if r.ts = 2 then .FILTER_MATCH else .FILTER_NONE))).1 =
      some { ts := 3, cpu := 0, offset := 16 } ∧
    (get_next_record (open_handle
      [{ ts := 1, cpu := 0, offset := 0 }, { ts := 2, cpu := 1, offset := 8 },
        { ts := 3, cpu := 0, offset := 16 }]
      (fun r => if r.ts = 1 then .FILTER_MISS else .FILTER_MATCH)
      (fun r => if r.ts = 2 then .FILTER_MATCH else .FILTER_NONE))).2.2.record =
    (get_next_record (open_handle
      [{ ts := 1, cpu := 0, offset := 0 }, { ts := 2, cpu := 1, offset := 8 },
        { ts := 3, cpu := 0, offset := 16 }]
      (fun r => if r.ts = 1 then .FILTER_MISS else .FILTER_MATCH)
      (fun r => if r.ts = 2 then .FILTER_MATCH else .FILTER_NONE))).1 :=
  ⟨by decide,
    (get_next_record_spec (open_handle
      [{ ts := 1, cpu := 0, offset := 0 }, { ts := 2, cpu := 1, offset := 8 },
        { ts := 3, cpu := 0, offset := 16 }]
      (fun r => if r.ts = 1 then .FILTER_MISS else .FILTER_MATCH)
      (fun r => if r.ts = 2 then .FILTER_MATCH else .FILTER_NONE)) rfl rfl).2.1⟩

/-! ## The CPU list -/

end TraceRead
